import Mathlib

/-!
# Pika key-value commands (`src/pika_kv.cc`)

A shallow embedding of the command classes of `pika_kv.cc`: argument parsing
(`DoInitial`), execution against the storage engine (`Do`), scatter/gather
(`Split` / `Merge`) and replication encoding (`ToRedisProtocol` / `DoBinlog`).

Conventions of the embedding:

* `std::string` is `String`; `size()` is `String.utf8ByteSize`.
* `int64_t` / `int32_t` values are `Int`; a conversion to a narrower type is the
  explicit two's complement reduction (`toInt64`, `toInt32`).
* `time(nullptr)` is the explicit parameter `now`.
* The storage engine is external: every engine call (`MSet`, `MGet`, `Del`, ...) is a
  function passed as an argument, from the call's inputs to the outcome it returns
  (a `Status`, a count, a value list).
* An access outside a vector (undefined behaviour in the source) is the result `none`.
* A command object is a structure holding the member variables the methods use;
  a method is a function from the object (and its inputs) to the updated object.
-/

namespace Pika

/-! ## Machine integers -/

def INT32_MAX : Int := 2147483647
def INT32_MIN : Int := -2147483648
def INT64_MAX : Int := 9223372036854775807
def INT64_MIN : Int := -9223372036854775808
def ULLONG_MAX : Nat := 18446744073709551615

/-- The value of `x` after conversion to `int64_t` (reduction modulo `2^64`). -/
def toInt64 (x : Int) : Int := (x + 9223372036854775808) % 18446744073709551616 - 9223372036854775808

/-- The value of `x` after `static_cast<int32_t>(x)` (reduction modulo `2^32`). -/
def toInt32 (x : Int) : Int := (x + 2147483648) % 4294967296 - 2147483648

/-- The `int64_t` sum `a + b` as the machine computes it. -/
def add64 (a b : Int) : Int := toInt64 (a + b)

/-- Membership in the `int64_t` range. -/
def isInt64 (x : Int) : Prop := INT64_MIN ≤ x ∧ x ≤ INT64_MAX

/-- Membership in the `int32_t` range. -/
def isInt32 (x : Int) : Prop := INT32_MIN ≤ x ∧ x ≤ INT32_MAX

instance (x : Int) : Decidable (isInt64 x) := by unfold isInt64; exact inferInstance
instance (x : Int) : Decidable (isInt32 x) := by unfold isInt32; exact inferInstance

/-! ## Strings and the `pstd` string helpers -/

def kNewLine : String := "\r\n"

/-- The bytes of a C string: what `s.data()` shows to a `char*` consumer, i.e. the
characters before the first NUL. -/
def cstr (s : String) : List Char := s.data.takeWhile (fun c => c != Char.ofNat 0)

/-- The libc `strcasecmp(a.data(), b) == 0` test: equality of the C strings up to ASCII case. -/
def strcasecmpEq (a b : String) : Bool :=
  (cstr a).map Char.toLower == (cstr b).map Char.toLower

/-- Modelled from the spec: `pstd::ll2string` (declared in `pstd/include/pstd_string.h`,
not part of the source file) renders a `long long` in decimal, with a leading `-`
for negative values. -/
def ll2string (v : Int) : String :=
  if v < 0 then String.mk ('-' :: Nat.toDigits 10 v.natAbs) else String.mk (Nat.toDigits 10 v.natAbs)

/-- The numeric value of a decimal digit character. -/
def digitVal (c : Char) : Nat := c.toNat - 48

/-- The test `c >= lo && c <= '9'` on a byte. -/
def isDigitFrom (lo : Nat) (c : Char) : Bool := decide (lo ≤ c.toNat) && decide (c.toNat ≤ 57)

/-- The digit loop of the strict decimal parser: accumulates in an
`unsigned long long`, failing on overflow and on any non-digit byte. -/
def string2intLoop : List Char → Nat → Option Nat
  | [], v => some v
  | c :: cs, v =>
    if isDigitFrom 48 c then
      if v > ULLONG_MAX / 10 then none
      else if v * 10 > ULLONG_MAX - digitVal c then none
      else string2intLoop cs (v * 10 + digitVal c)
    else none

/-- The unsigned part of the strict decimal parser: first digit `1`-`9`, then digits. -/
def string2intUnsigned : List Char → Option Nat
  | [] => none
  | c :: cs => if isDigitFrom 49 c then string2intLoop cs (digitVal c) else none

/-- Modelled from the spec: `pstd::string2int` (declared in `pstd/include/pstd_string.h`,
not part of the source file) is the strict decimal parser of the spec: the whole
string must be a decimal integer (`0`, or an optional `-` followed by a digit
`1`-`9` and further digits, no sign `+`, no blanks, no leading zeros) whose value
fits in 64 bits. `none` is the return value `0` (failure). -/
def string2int (s : String) : Option Int :=
  match s.data with
  | [] => none
  | [c] => if c = '0' then some 0 else
      match string2intUnsigned [c] with
      | some v => some (Int.ofNat v)
      | none => none
  | '-' :: cs =>
      match string2intUnsigned cs with
      | some v => if v > 9223372036854775808 then none else some (-(Int.ofNat v))
      | none => none
  | cs =>
      match string2intUnsigned cs with
      | some v => if v > 9223372036854775807 then none else some (Int.ofNat v)
      | none => none

/-! ## Redis protocol serialisation helpers (`pika_command.h`) -/

/-- Modelled from the spec: `RedisAppendContent` (declared in `include/pika_command.h`,
not part of the source file) appends a payload and the line terminator. -/
def RedisAppendContent (str value : String) : String := str ++ value ++ kNewLine

/-- Modelled from the spec: `RedisAppendLen` (declared in `include/pika_command.h`,
not part of the source file) appends a length prefix: the marker, the decimal
number and the line terminator. -/
def RedisAppendLen (str : String) (ori : Int) ( pfx : String) : String :=
  str ++ pfx ++ ll2string ori ++ kNewLine

/-- Modelled from the spec: `RedisAppendLenUint64` (declared in `include/pika_command.h`,
not part of the source file), the same length prefix for an unsigned size. -/
def RedisAppendLenUint64 (str : String) (ori : Nat) ( pfx : String) : String :=
  RedisAppendLen str (Int.ofNat ori) pfx

/-- One length-prefixed bulk string appended to `content`. -/
def appendBulk (content arg : String) : String :=
  RedisAppendContent (RedisAppendLenUint64 content arg.utf8ByteSize "$") arg

/-- Modelled from the spec: the default `Cmd::ToRedisProtocol` (defined in
`include/pika_command.h`, not part of the source file) emits the argument vector
verbatim as a length-prefixed array of length-prefixed bulk strings. -/
def Cmd.ToRedisProtocol (argv_ : List String) : String :=
  argv_.foldl appendBulk (RedisAppendLenUint64 "" argv_.length "*")

/-- The canonical wire form of an argument vector; used to state what an encoder produced. -/
def encodeArgs (args : List String) : String := Cmd.ToRedisProtocol args

/-- Modelled from the spec: `Cmd::CheckArg` (defined in `src/pika_command.cc`, not part
of the source file) checks the argument count against the arity contract of the
command: an exact count for a positive arity, a minimum for a negative one. -/
def CheckArg (arity : Int) (num : Nat) : Bool :=
  !((decide (arity > 0) && decide ((num : Int) ≠ arity)) || (decide (arity < 0) && decide ((num : Int) < -arity)))

/-! ## Command results (`CmdRes`, `pika_command.h`) -/

inductive CmdRet where
  | kNone | kOk | kSyntaxErr | kInvalidInt | kInvalidFloat | kOverFlow | kWrongNum
  | kInvalidDbType | kInconsistentHashTag | kErrOther | KIncrByOverFlow
  deriving DecidableEq, Repr

/-- Modelled from the spec: the response accumulator `CmdRes` (declared in
`include/pika_command.h`, not part of the source file): a result code and the
reply bytes (or the error text) accumulated so far. -/
structure CmdRes where
  ret_ : CmdRet
  message_ : String
  deriving DecidableEq, Repr

namespace CmdRes

def clear : CmdRes := { ret_ := CmdRet.kNone, message_ := "" }

/-- The call `SetRes(ret, content)`: sets the code, and the text when it is not empty. -/
def SetRes (r : CmdRes) (ret : CmdRet) (content : String) : CmdRes :=
  { ret_ := ret, message_ := if content.isEmpty then r.message_ else content }

def ok (r : CmdRes) : Bool := r.ret_ == CmdRet.kOk || r.ret_ == CmdRet.kNone

def AppendStringLen (r : CmdRes) (ori : Int) : CmdRes := { r with message_ := RedisAppendLen r.message_ ori "$" }
def AppendStringLenUint64 (r : CmdRes) (ori : Nat) : CmdRes :=
  { r with message_ := RedisAppendLenUint64 r.message_ ori "$" }
def AppendArrayLen (r : CmdRes) (ori : Int) : CmdRes := { r with message_ := RedisAppendLen r.message_ ori "*" }
def AppendArrayLenUint64 (r : CmdRes) (ori : Nat) : CmdRes :=
  { r with message_ := RedisAppendLenUint64 r.message_ ori "*" }
def AppendInteger (r : CmdRes) (ori : Int) : CmdRes := { r with message_ := RedisAppendLen r.message_ ori ":" }
def AppendContent (r : CmdRes) (value : String) : CmdRes := { r with message_ := RedisAppendContent r.message_ value }

/-- The reply bytes sent to the client: the accumulated fragments for `kNone`, a fixed
line for `kOk`, and an error line otherwise (the catch-all `kErrOther` forwards
its text verbatim). -/
def message (r : CmdRes) : String :=
  match r.ret_ with
  | CmdRet.kNone => r.message_
  | CmdRet.kOk => "+OK\r\n"
  | CmdRet.kSyntaxErr => "-ERR syntax error\r\n"
  | CmdRet.kInvalidInt => "-ERR value is not an integer or out of range\r\n"
  | CmdRet.kInvalidFloat => "-ERR value is not a valid float\r\n"
  | CmdRet.kOverFlow => "-ERR increment or decrement would overflow\r\n"
  | CmdRet.kWrongNum => "-ERR wrong number of arguments for '" ++ r.message_ ++ "' command\r\n"
  | CmdRet.kInvalidDbType => "-ERR Invalid DB type\r\n"
  | CmdRet.kInconsistentHashTag => "-ERR parameters hashtag is inconsistent\r\n"
  | CmdRet.kErrOther => "-ERR " ++ r.message_ ++ kNewLine
  | CmdRet.KIncrByOverFlow => "-ERR increment would produce NaN or Infinity " ++ r.message_ ++ kNewLine

/-- An operational error: the catch-all error code. -/
def isOperationalError (r : CmdRes) : Bool := r.ret_ == CmdRet.kErrOther

end CmdRes

/-! ## Engine status (`rocksdb::Status`) -/

inductive StatusCode where
  | kOk | kNotFound | kCorruption | kNotSupported | kInvalidArgument | kIOError
  deriving DecidableEq, Repr

structure Status where
  code : StatusCode
  state : String
  deriving DecidableEq, Repr

namespace Status

def OK : Status := { code := StatusCode.kOk, state := "" }
def ok (s : Status) : Bool := s.code == StatusCode.kOk
def IsNotFound (s : Status) : Bool := s.code == StatusCode.kNotFound
def IsCorruption (s : Status) : Bool := s.code == StatusCode.kCorruption
def IsInvalidArgument (s : Status) : Bool := s.code == StatusCode.kInvalidArgument

def ToString (s : Status) : String :=
  match s.code with
  | StatusCode.kOk => "OK"
  | StatusCode.kNotFound => "NotFound: " ++ s.state
  | StatusCode.kCorruption => "Corruption: " ++ s.state
  | StatusCode.kNotSupported => "Not implemented: " ++ s.state
  | StatusCode.kInvalidArgument => "Invalid argument: " ++ s.state
  | StatusCode.kIOError => "IO error: " ++ s.state

end Status

/-! ## Arity contracts and command names (command table, `pika_command.cc`) -/

/-- Modelled from the spec: the per-command arity contract lives in the command table
(`src/pika_command.cc`, not part of the source file); the values follow the usage of
`argv_` in each `DoInitial`: a positive arity is an exact argument count, a negative
one a minimum. -/
def kSetArity : Int := -3
def kSetexArity : Int := 4
def kPsetexArity : Int := 4
def kPKSetexAtArity : Int := 4
def kExpireArity : Int := 3
def kPexpireArity : Int := 3
def kPexpireatArity : Int := 3
def kMsetArity : Int := -3
def kMsetnxArity : Int := -3
def kMgetArity : Int := -2
def kDelArity : Int := -2
def kExistsArity : Int := -2
def kSetnxArity : Int := 3
def kScanArity : Int := -2

def kCmdNameSet : String := "set"
def kCmdNameSetex : String := "setex"
def kCmdNamePsetex : String := "psetex"
def kCmdNamePKSetexAt : String := "pksetexat"
def kCmdNameExpire : String := "expire"
def kCmdNamePexpire : String := "pexpire"
def kCmdNamePexpireat : String := "pexpireat"
def kCmdNameMset : String := "mset"
def kCmdNameMsetnx : String := "msetnx"
def kCmdNameMget : String := "mget"
def kCmdNameDel : String := "del"
def kCmdNameExists : String := "exists"
def kCmdNameSetnx : String := "setnx"
def kCmdNameScan : String := "scan"

/-- The element `argv_[i]` of an argument vector. -/
def argAt (argv : List String) (i : Nat) : String := argv.getD i ""

/-! ## SET -/

inductive SetCondition where
  | kNONE | kNX | kXX | kVX | kEXORPX
  deriving DecidableEq, Repr

structure SetCmd where
  argv_ : List String
  res_ : CmdRes
  key_ : String
  value_ : String
  target_ : String
  success_ : Int
  sec_ : Int
  condition_ : SetCondition
  deriving DecidableEq, Repr

namespace SetCmd

/-- A freshly constructed command object. -/
def init : SetCmd :=
  { argv_ := [], res_ := CmdRes.clear, key_ := "", value_ := "", target_ := "", success_ := 0,
    sec_ := 0, condition_ := SetCondition.kNONE }

/-- The `while (index != argv_.size())` loop of `SetCmd::DoInitial`, on the tokens from
`argv_[index]` on. A `return` inside the loop ends the parse with the error set. -/
def parseOptions : List String → SetCmd → SetCmd
  | [], c => c
  | opt :: rest, c =>
    if strcasecmpEq opt "xx" then
      parseOptions rest { c with condition_ := SetCondition.kXX }
    else if strcasecmpEq opt "nx" then
      parseOptions rest { c with condition_ := SetCondition.kNX }
    else if strcasecmpEq opt "vx" then
      match rest with
      | [] => { c with condition_ := SetCondition.kVX, res_ := c.res_.SetRes CmdRet.kSyntaxErr "" }
      | target :: rest2 =>
        parseOptions rest2 { c with condition_ := SetCondition.kVX, target_ := target }
    else if strcasecmpEq opt "ex" || strcasecmpEq opt "px" then
      let cond := if c.condition_ = SetCondition.kNONE then SetCondition.kEXORPX else c.condition_
      match rest with
      | [] => { c with condition_ := cond, res_ := c.res_.SetRes CmdRet.kSyntaxErr "" }
      | num :: rest2 =>
        match string2int num with
        | none => { c with condition_ := cond, res_ := c.res_.SetRes CmdRet.kInvalidInt "" }
        | some v =>
          let sec := if strcasecmpEq opt "px" then Int.tdiv v 1000 else v
          parseOptions rest2 { c with condition_ := cond, sec_ := sec }
    else
      { c with res_ := c.res_.SetRes CmdRet.kSyntaxErr "" }

def DoInitial (c : SetCmd) : SetCmd :=
  if !CheckArg kSetArity c.argv_.length then
    { c with res_ := c.res_.SetRes CmdRet.kWrongNum kCmdNameSet }
  else
    let c := { c with key_ := argAt c.argv_ 1, value_ := argAt c.argv_ 2,
                      condition_ := SetCondition.kNONE, sec_ := 0 }
    parseOptions (c.argv_.drop 3) c

/-- Modelled from the spec: `Cmd::Initial` (defined in `src/pika_command.cc`, not part of
the source file) stores the argument vector, clears the result and runs `DoInitial`. -/
def Initial (c : SetCmd) (argv : List String) : SetCmd :=
  DoInitial { c with argv_ := argv, res_ := CmdRes.clear }

def ToRedisProtocol (c : SetCmd) (now : Int) : String :=
  if c.condition_ = SetCondition.kEXORPX then
    let content := ""
    let content := RedisAppendLen content 4 "*"
    -- to pksetexat cmd
    let pksetexat_cmd := "pksetexat"
    let content := RedisAppendLenUint64 content pksetexat_cmd.utf8ByteSize "$"
    let content := RedisAppendContent content pksetexat_cmd
    -- key
    let content := RedisAppendLenUint64 content c.key_.utf8ByteSize "$"
    let content := RedisAppendContent content c.key_
    -- time_stamp
    let time_stamp := toInt32 (add64 now c.sec_)
    let at_ := ll2string time_stamp
    let content := RedisAppendLenUint64 content at_.utf8ByteSize "$"
    let content := RedisAppendContent content at_
    -- value
    let content := RedisAppendLenUint64 content c.value_.utf8ByteSize "$"
    let content := RedisAppendContent content c.value_
    content
  else
    Cmd.ToRedisProtocol c.argv_

/-- Modelled from the spec: `Cmd::DoBinlog` (defined in `src/pika_command.cc`, not part of
the source file) hands the replication entry of a command that has not failed to the
replication log; a failed command leaves no entry. -/
def DoBinlog (c : SetCmd) (now : Int) (log : List String) : List String :=
  if c.res_.ok then log ++ [c.ToRedisProtocol now] else log

end SetCmd

/-! ## SETEX, PSETEX and the replay command PKSETEXAT -/

structure SetexCmd where
  argv_ : List String
  res_ : CmdRes
  key_ : String
  sec_ : Int
  value_ : String
  deriving DecidableEq, Repr

namespace SetexCmd

def init : SetexCmd := { argv_ := [], res_ := CmdRes.clear, key_ := "", sec_ := 0, value_ := "" }

def DoInitial (c : SetexCmd) : SetexCmd :=
  if !CheckArg kSetexArity c.argv_.length then
    { c with res_ := c.res_.SetRes CmdRet.kWrongNum kCmdNameSetex }
  else
    let c := { c with key_ := argAt c.argv_ 1 }
    match string2int (argAt c.argv_ 2) with
    | none => { c with res_ := c.res_.SetRes CmdRet.kInvalidInt "" }
    | some v => { c with sec_ := v, value_ := argAt c.argv_ 3 }

def Initial (c : SetexCmd) (argv : List String) : SetexCmd :=
  DoInitial { c with argv_ := argv, res_ := CmdRes.clear }

def ToRedisProtocol (c : SetexCmd) (now : Int) : String :=
  let content := ""
  let content := RedisAppendLen content 4 "*"
  -- to pksetexat cmd
  let pksetexat_cmd := "pksetexat"
  let content := RedisAppendLenUint64 content pksetexat_cmd.utf8ByteSize "$"
  let content := RedisAppendContent content pksetexat_cmd
  -- key
  let content := RedisAppendLenUint64 content c.key_.utf8ByteSize "$"
  let content := RedisAppendContent content c.key_
  -- time_stamp
  let time_stamp := toInt32 (add64 now c.sec_)
  let at_ := ll2string time_stamp
  let content := RedisAppendLenUint64 content at_.utf8ByteSize "$"
  let content := RedisAppendContent content at_
  -- value
  let content := RedisAppendLenUint64 content c.value_.utf8ByteSize "$"
  let content := RedisAppendContent content c.value_
  content

end SetexCmd

structure PsetexCmd where
  argv_ : List String
  res_ : CmdRes
  key_ : String
  usec_ : Int
  value_ : String
  deriving DecidableEq, Repr

namespace PsetexCmd

def init : PsetexCmd := { argv_ := [], res_ := CmdRes.clear, key_ := "", usec_ := 0, value_ := "" }

def DoInitial (c : PsetexCmd) : PsetexCmd :=
  if !CheckArg kPsetexArity c.argv_.length then
    { c with res_ := c.res_.SetRes CmdRet.kWrongNum kCmdNamePsetex }
  else
    let c := { c with key_ := argAt c.argv_ 1 }
    match string2int (argAt c.argv_ 2) with
    | none => { c with res_ := c.res_.SetRes CmdRet.kInvalidInt "" }
    | some v => { c with usec_ := v, value_ := argAt c.argv_ 3 }

def Initial (c : PsetexCmd) (argv : List String) : PsetexCmd :=
  DoInitial { c with argv_ := argv, res_ := CmdRes.clear }

def ToRedisProtocol (c : PsetexCmd) (now : Int) : String :=
  let content := ""
  let content := RedisAppendLen content 4 "*"
  -- to pksetexat cmd
  let pksetexat_cmd := "pksetexat"
  let content := RedisAppendLenUint64 content pksetexat_cmd.utf8ByteSize "$"
  let content := RedisAppendContent content pksetexat_cmd
  -- key
  let content := RedisAppendLenUint64 content c.key_.utf8ByteSize "$"
  let content := RedisAppendContent content c.key_
  -- time_stamp
  let time_stamp := toInt32 (add64 now (Int.tdiv c.usec_ 1000))
  let at_ := ll2string time_stamp
  let content := RedisAppendLenUint64 content at_.utf8ByteSize "$"
  let content := RedisAppendContent content at_
  -- value
  let content := RedisAppendLenUint64 content c.value_.utf8ByteSize "$"
  let content := RedisAppendContent content c.value_
  content

end PsetexCmd

structure PKSetexAtCmd where
  argv_ : List String
  res_ : CmdRes
  key_ : String
  value_ : String
  time_stamp_ : Int
  deriving DecidableEq, Repr

namespace PKSetexAtCmd

def init : PKSetexAtCmd :=
  { argv_ := [], res_ := CmdRes.clear, key_ := "", value_ := "", time_stamp_ := 0 }

def DoInitial (c : PKSetexAtCmd) : PKSetexAtCmd :=
  if !CheckArg kPKSetexAtArity c.argv_.length then
    { c with res_ := c.res_.SetRes CmdRet.kWrongNum kCmdNamePKSetexAt }
  else
    let c := { c with key_ := argAt c.argv_ 1, value_ := argAt c.argv_ 3 }
    match string2int (argAt c.argv_ 2) with
    | none => { c with res_ := c.res_.SetRes CmdRet.kInvalidInt "" }
    | some v =>
      let c := { c with time_stamp_ := v }
      if c.time_stamp_ ≥ INT32_MAX then { c with res_ := c.res_.SetRes CmdRet.kInvalidInt "" }
      else c

def Initial (c : PKSetexAtCmd) (argv : List String) : PKSetexAtCmd :=
  DoInitial { c with argv_ := argv, res_ := CmdRes.clear }

end PKSetexAtCmd

/-! ## EXPIRE, PEXPIRE, PEXPIREAT -/

structure ExpireCmd where
  argv_ : List String
  res_ : CmdRes
  key_ : String
  sec_ : Int
  deriving DecidableEq, Repr

namespace ExpireCmd

def init : ExpireCmd := { argv_ := [], res_ := CmdRes.clear, key_ := "", sec_ := 0 }

def DoInitial (c : ExpireCmd) : ExpireCmd :=
  if !CheckArg kExpireArity c.argv_.length then
    { c with res_ := c.res_.SetRes CmdRet.kWrongNum kCmdNameExpire }
  else
    let c := { c with key_ := argAt c.argv_ 1 }
    match string2int (argAt c.argv_ 2) with
    | none => { c with res_ := c.res_.SetRes CmdRet.kInvalidInt "" }
    | some v => { c with sec_ := v }

def Initial (c : ExpireCmd) (argv : List String) : ExpireCmd :=
  DoInitial { c with argv_ := argv, res_ := CmdRes.clear }

def ToRedisProtocol (c : ExpireCmd) (now : Int) : String :=
  let content := ""
  let content := RedisAppendLen content 3 "*"
  -- to expireat cmd
  let expireat_cmd := "expireat"
  let content := RedisAppendLenUint64 content expireat_cmd.utf8ByteSize "$"
  let content := RedisAppendContent content expireat_cmd
  -- key
  let content := RedisAppendLenUint64 content c.key_.utf8ByteSize "$"
  let content := RedisAppendContent content c.key_
  -- sec
  let expireat := add64 now c.sec_
  let at_ := ll2string expireat
  let content := RedisAppendLenUint64 content at_.utf8ByteSize "$"
  let content := RedisAppendContent content at_
  content

end ExpireCmd

structure PexpireCmd where
  argv_ : List String
  res_ : CmdRes
  key_ : String
  msec_ : Int
  deriving DecidableEq, Repr

namespace PexpireCmd

def init : PexpireCmd := { argv_ := [], res_ := CmdRes.clear, key_ := "", msec_ := 0 }

def DoInitial (c : PexpireCmd) : PexpireCmd :=
  if !CheckArg kPexpireArity c.argv_.length then
    { c with res_ := c.res_.SetRes CmdRet.kWrongNum kCmdNamePexpire }
  else
    let c := { c with key_ := argAt c.argv_ 1 }
    match string2int (argAt c.argv_ 2) with
    | none => { c with res_ := c.res_.SetRes CmdRet.kInvalidInt "" }
    | some v => { c with msec_ := v }

def Initial (c : PexpireCmd) (argv : List String) : PexpireCmd :=
  DoInitial { c with argv_ := argv, res_ := CmdRes.clear }

def ToRedisProtocol (c : PexpireCmd) (now : Int) : String :=
  let content := ""
  let content := RedisAppendLenUint64 content c.argv_.length "*"
  -- to expireat cmd
  let expireat_cmd := "expireat"
  let content := RedisAppendLenUint64 content expireat_cmd.utf8ByteSize "$"
  let content := RedisAppendContent content expireat_cmd
  -- key
  let content := RedisAppendLenUint64 content c.key_.utf8ByteSize "$"
  let content := RedisAppendContent content c.key_
  -- sec
  let expireat := add64 now (Int.tdiv c.msec_ 1000)
  let at_ := ll2string expireat
  let content := RedisAppendLenUint64 content at_.utf8ByteSize "$"
  let content := RedisAppendContent content at_
  content

end PexpireCmd

structure PexpireatCmd where
  argv_ : List String
  res_ : CmdRes
  key_ : String
  time_stamp_ms_ : Int
  deriving DecidableEq, Repr

namespace PexpireatCmd

def init : PexpireatCmd := { argv_ := [], res_ := CmdRes.clear, key_ := "", time_stamp_ms_ := 0 }

def DoInitial (c : PexpireatCmd) : PexpireatCmd :=
  if !CheckArg kPexpireatArity c.argv_.length then
    { c with res_ := c.res_.SetRes CmdRet.kWrongNum kCmdNamePexpireat }
  else
    let c := { c with key_ := argAt c.argv_ 1 }
    match string2int (argAt c.argv_ 2) with
    | none => { c with res_ := c.res_.SetRes CmdRet.kInvalidInt "" }
    | some v => { c with time_stamp_ms_ := v }

def Initial (c : PexpireatCmd) (argv : List String) : PexpireatCmd :=
  DoInitial { c with argv_ := argv, res_ := CmdRes.clear }

/-- The encoder of PEXPIREAT; the clock is part of the environment of every encoder, this
one does not read it. -/
def ToRedisProtocol (c : PexpireatCmd) (_now : Int) : String :=
  let content := ""
  let content := RedisAppendLenUint64 content c.argv_.length "*"
  -- to expireat cmd
  let expireat_cmd := "expireat"
  let content := RedisAppendLenUint64 content expireat_cmd.utf8ByteSize "$"
  let content := RedisAppendContent content expireat_cmd
  -- key
  let content := RedisAppendLenUint64 content c.key_.utf8ByteSize "$"
  let content := RedisAppendContent content c.key_
  -- sec
  let expireat := Int.tdiv c.time_stamp_ms_ 1000
  let at_ := ll2string expireat
  let content := RedisAppendLenUint64 content at_.utf8ByteSize "$"
  let content := RedisAppendContent content at_
  content

end PexpireatCmd

/-! ## Engine values and the Secondary Key Index -/

/-- A key/value pair (`storage::KeyValue`). -/
structure KeyValue where
  key : String
  value : String
  deriving DecidableEq, Repr

/-- A value with the status of its lookup (`storage::ValueStatus`); a default-constructed
one has an empty value and the status OK. -/
structure ValueStatus where
  value : String
  status : Status
  deriving DecidableEq, Repr

def ValueStatus.default : ValueStatus := { value := "", status := Status.OK }

/-- The keys of one destination shard with the original position of each key (`HintKeys`). -/
structure HintKeys where
  keys : List String
  hints : List Nat
  deriving DecidableEq, Repr

/-- Modelled from the spec: `AddSlotKey` (defined in `src/pika_slot_command.cc`, not part of
the source file) records the key in the Secondary Key Index of the slot; adding is
idempotent. The index is the list of recorded keys. -/
def AddSlotKey (_type : String) (key : String) (index : List String) : List String :=
  if key ∈ index then index else index ++ [key]

/-- Modelled from the spec: `RemSlotKey` (defined in `src/pika_slot_command.cc`, not part of
the source file) removes the key from the Secondary Key Index of the slot; removing is
idempotent and safe on absent entries. -/
def RemSlotKey (key : String) (index : List String) : List String :=
  index.filter (fun k => k != key)

/-- The loop `for (index = 1; index != argc; index += 2) kvs_.push_back(...)` of
`MsetCmd::DoInitial` and `MsetnxCmd::DoInitial`, on the arguments after the name. -/
def collectPairs : List String → List KeyValue
  | k :: v :: rest => { key := k, value := v } :: collectPairs rest
  | _ => []

/-- The loop of `MsetCmd::DoBinlog` and `MsetnxCmd::DoBinlog`: one `set key value` command
per pair, parsed by the embedded `set_cmd_` and handed to the replication log. -/
def binlogPairs (now : Int) (kvs : List KeyValue) (set_cmd : SetCmd) (log : List String) :
    SetCmd × List String :=
  kvs.foldl (fun (st : SetCmd × List String) kv =>
    let set_argv := ["set", kv.key, kv.value]
    let sc := st.1.Initial set_argv
    (sc, sc.DoBinlog now st.2)) (set_cmd, log)

/-- The reply fragments for a list of looked-up values: a bulk string for a found value,
the null bulk string otherwise (the loop shared by `MgetCmd::Do` and `MgetCmd::Merge`). -/
def appendValues (res : CmdRes) (vss : List ValueStatus) : CmdRes :=
  vss.foldl (fun r vs =>
    if vs.status.ok then (r.AppendStringLenUint64 vs.value.utf8ByteSize).AppendContent vs.value
    else r.AppendContent "$-1") res

/-! ## MSET -/

structure MsetCmd where
  argv_ : List String
  res_ : CmdRes
  kvs_ : List KeyValue
  set_cmd_ : SetCmd
  deriving DecidableEq, Repr

namespace MsetCmd

def init : MsetCmd := { argv_ := [], res_ := CmdRes.clear, kvs_ := [], set_cmd_ := SetCmd.init }

def DoInitial (c : MsetCmd) : MsetCmd :=
  if !CheckArg kMsetArity c.argv_.length then
    { c with res_ := c.res_.SetRes CmdRet.kWrongNum kCmdNameMset }
  else
    let argc := c.argv_.length
    if argc % 2 == 0 then
      { c with res_ := c.res_.SetRes CmdRet.kWrongNum kCmdNameMset }
    else
      { c with kvs_ := collectPairs (c.argv_.drop 1) }

def Initial (c : MsetCmd) (argv : List String) : MsetCmd :=
  DoInitial { c with argv_ := argv, res_ := CmdRes.clear }

/-- `MsetCmd::Do`; `mset` is the engine call `slot->db()->MSet` of the slot, `index` the
Secondary Key Index of the slot. -/
def Do (c : MsetCmd) (mset : List KeyValue → Status) (index : List String) :
    MsetCmd × List String :=
  let s := mset c.kvs_
  if s.ok then
    ({ c with res_ := c.res_.SetRes CmdRet.kOk "" },
      c.kvs_.foldl (fun idx kv => AddSlotKey "k" kv.key idx) index)
  else
    ({ c with res_ := c.res_.SetRes CmdRet.kErrOther s.ToString }, index)

/-- The loop of `MsetCmd::Split` over `keys`, from position `i` on: `none` is a read outside
`hints` or `kvs_` (undefined behaviour), `error` the early `return` on a key mismatch. -/
def splitCollect (kvs_ : List KeyValue) (hints : List Nat) :
    List String → Nat → List KeyValue → Option (Except String (List KeyValue))
  | [], _, kvs => some (Except.ok kvs)
  | key :: rest, i, kvs =>
    match hints.get? i with
    | none => none
    | some h =>
      match kvs_.get? h with
      | none => none
      | some kv =>
        if kv.key == key then splitCollect kvs_ hints rest (i + 1) (kvs ++ [kv])
        else some (Except.error ("SplitError hint key: " ++ key))

/-- `MsetCmd::Split` on the slot of one shard; `none` is undefined behaviour (a read outside
a vector). -/
def Split (c : MsetCmd) (mset : List KeyValue → Status) (hint_keys : HintKeys) : Option MsetCmd :=
  let keys := hint_keys.keys
  let hints := hint_keys.hints
  let c1 := if keys.length != hints.length then
      { c with res_ := c.res_.SetRes CmdRet.kErrOther "SplitError hint_keys size not match" }
    else c
  match splitCollect c1.kvs_ hints keys 0 [] with
  | none => none
  | some (Except.error msg) => some { c1 with res_ := c1.res_.SetRes CmdRet.kErrOther msg }
  | some (Except.ok kvs) =>
    let s := mset kvs
    if s.ok then some { c1 with res_ := c1.res_.SetRes CmdRet.kOk "" }
    else some { c1 with res_ := c1.res_.SetRes CmdRet.kErrOther s.ToString }

def Merge (c : MsetCmd) : MsetCmd := c

def DoBinlog (c : MsetCmd) (now : Int) (log : List String) : MsetCmd × List String :=
  let r := binlogPairs now c.kvs_ c.set_cmd_ log
  ({ c with set_cmd_ := r.1 }, r.2)

/-- Scatter/gather execution: `Split` on every shard in the given order, then `Merge`.
Each shard comes with the `MSet` of its own slot. -/
def splitAll (c : MsetCmd) : List ((List KeyValue → Status) × HintKeys) → Option MsetCmd
  | [] => some c
  | (mset, hk) :: rest =>
    match c.Split mset hk with
    | none => none
    | some c1 => splitAll c1 rest

end MsetCmd

/-! ## MSETNX -/

structure MsetnxCmd where
  argv_ : List String
  res_ : CmdRes
  kvs_ : List KeyValue
  success_ : Int
  set_cmd_ : SetCmd
  deriving DecidableEq, Repr

namespace MsetnxCmd

def init : MsetnxCmd :=
  { argv_ := [], res_ := CmdRes.clear, kvs_ := [], success_ := 0, set_cmd_ := SetCmd.init }

def DoInitial (c : MsetnxCmd) : MsetnxCmd :=
  if !CheckArg kMsetnxArity c.argv_.length then
    { c with res_ := c.res_.SetRes CmdRet.kWrongNum kCmdNameMsetnx }
  else
    let argc := c.argv_.length
    if argc % 2 == 0 then
      { c with res_ := c.res_.SetRes CmdRet.kWrongNum kCmdNameMsetnx }
    else
      { c with kvs_ := collectPairs (c.argv_.drop 1) }

def Initial (c : MsetnxCmd) (argv : List String) : MsetnxCmd :=
  DoInitial { c with argv_ := argv, res_ := CmdRes.clear }

/-- `MsetnxCmd::Do`; `msetnx` is the engine call `slot->db()->MSetnx`, which returns a status
and, through `&success_`, whether the pairs were written (started at 0). -/
def Do (c : MsetnxCmd) (msetnx : List KeyValue → Status × Int) (index : List String) :
    MsetnxCmd × List String :=
  let c := { c with success_ := 0 }
  let r := msetnx c.kvs_
  let s := r.1
  let c := { c with success_ := r.2 }
  if s.ok then
    ({ c with res_ := c.res_.AppendInteger c.success_ },
      c.kvs_.foldl (fun idx kv => AddSlotKey "k" kv.key idx) index)
  else
    ({ c with res_ := c.res_.SetRes CmdRet.kErrOther s.ToString }, index)

def DoBinlog (c : MsetnxCmd) (now : Int) (log : List String) : MsetnxCmd × List String :=
  if c.success_ == 0 then
    -- some keys already exist, set operations aborted, no need of binlog
    (c, log)
  else
    let r := binlogPairs now c.kvs_ c.set_cmd_ log
    ({ c with set_cmd_ := r.1 }, r.2)

end MsetnxCmd

/-! ## MGET -/

structure MgetCmd where
  argv_ : List String
  res_ : CmdRes
  keys_ : List String
  split_res_ : List ValueStatus
  deriving DecidableEq, Repr

namespace MgetCmd

def init : MgetCmd := { argv_ := [], res_ := CmdRes.clear, keys_ := [], split_res_ := [] }

/-- The call `split_res_.resize(n)`: truncation, or padding with default-constructed values. -/
def resize (v : List ValueStatus) (n : Nat) : List ValueStatus :=
  v.take n ++ List.replicate (n - v.length) ValueStatus.default

def DoInitial (c : MgetCmd) : MgetCmd :=
  if !CheckArg kMgetArity c.argv_.length then
    { c with res_ := c.res_.SetRes CmdRet.kWrongNum kCmdNameMget }
  else
    let keys := c.argv_.drop 1
    { c with keys_ := keys, split_res_ := resize c.split_res_ keys.length }

def Initial (c : MgetCmd) (argv : List String) : MgetCmd :=
  DoInitial { c with argv_ := argv, res_ := CmdRes.clear }

/-- `MgetCmd::Do`; `mget` is the engine call `slot->db()->MGet`, returning a status and the
looked-up values. -/
def Do (c : MgetCmd) (mget : List String → Status × List ValueStatus) : MgetCmd :=
  let r := mget c.keys_
  let s := r.1
  let vss := r.2
  if s.ok then
    { c with res_ := appendValues (c.res_.AppendArrayLenUint64 vss.length) vss }
  else
    { c with res_ := c.res_.SetRes CmdRet.kErrOther s.ToString }

/-- The loop `split_res_[hints[i]] = vss[i]` of `MgetCmd::Split`, from position `i` on;
`none` is an access outside `hints` or `split_res_` (undefined behaviour). -/
def splitStore (hints : List Nat) : List ValueStatus → Nat → List ValueStatus →
    Option (List ValueStatus)
  | [], _, split_res => some split_res
  | vs :: rest, i, split_res =>
    match hints.get? i with
    | none => none
    | some h =>
      if h < split_res.length then splitStore hints rest (i + 1) (split_res.set h vs)
      else none

/-- `MgetCmd::Split` on the slot of one shard; `none` is undefined behaviour (an access
outside a vector). -/
def Split (c : MgetCmd) (mget : List String → Status × List ValueStatus) (hint_keys : HintKeys) :
    Option MgetCmd :=
  let keys := hint_keys.keys
  let r := mget keys
  let s := r.1
  let vss := r.2
  if s.ok then
    let c1 := if hint_keys.hints.length != vss.length then
        { c with res_ := c.res_.SetRes CmdRet.kErrOther "internal Mget return size invalid" }
      else c
    let hints := hint_keys.hints
    match splitStore hints vss 0 c1.split_res_ with
    | none => none
    | some split_res => some { c1 with split_res_ := split_res }
  else
    some { c with res_ := c.res_.SetRes CmdRet.kErrOther s.ToString }

def Merge (c : MgetCmd) : MgetCmd :=
  { c with res_ := appendValues (c.res_.AppendArrayLenUint64 c.split_res_.length) c.split_res_ }

/-- Scatter/gather execution: `Split` on every shard in the given order. Each shard comes
with the `MGet` of its own slot. -/
def splitAll (c : MgetCmd) :
    List ((List String → Status × List ValueStatus) × HintKeys) → Option MgetCmd
  | [] => some c
  | (mget, hk) :: rest =>
    match c.Split mget hk with
    | none => none
    | some c1 => splitAll c1 rest

end MgetCmd

/-! ## DEL and EXISTS -/

structure DelCmd where
  argv_ : List String
  res_ : CmdRes
  keys_ : List String
  split_res_ : Int
  deriving DecidableEq, Repr

namespace DelCmd

def init : DelCmd := { argv_ := [], res_ := CmdRes.clear, keys_ := [], split_res_ := 0 }

def DoInitial (c : DelCmd) : DelCmd :=
  if !CheckArg kDelArity c.argv_.length then
    { c with res_ := c.res_.SetRes CmdRet.kWrongNum kCmdNameDel }
  else
    { c with keys_ := c.argv_.drop 1 }

def Initial (c : DelCmd) (argv : List String) : DelCmd :=
  DoInitial { c with argv_ := argv, res_ := CmdRes.clear }

/-- `DelCmd::Do`; `del` is the engine call `slot->db()->Del`, returning the number of keys
removed or a negative value on failure. -/
def Do (c : DelCmd) (del : List String → Int) (index : List String) : DelCmd × List String :=
  let count := del c.keys_
  if count ≥ 0 then
    ({ c with res_ := c.res_.AppendInteger count },
      c.keys_.foldl (fun idx key => RemSlotKey key idx) index)
  else
    ({ c with res_ := c.res_.SetRes CmdRet.kErrOther "delete error" }, index)

def Split (c : DelCmd) (del : List String → Int) (hint_keys : HintKeys) : DelCmd :=
  let count := del hint_keys.keys
  if count ≥ 0 then
    { c with split_res_ := add64 c.split_res_ count }
  else
    { c with res_ := c.res_.SetRes CmdRet.kErrOther "delete error" }

def Merge (c : DelCmd) : DelCmd := { c with res_ := c.res_.AppendInteger c.split_res_ }

/-- Scatter/gather execution: `Split` on every shard in the given order. -/
def splitAll (c : DelCmd) (shards : List ((List String → Int) × HintKeys)) : DelCmd :=
  shards.foldl (fun c sh => c.Split sh.1 sh.2) c

end DelCmd

structure ExistsCmd where
  argv_ : List String
  res_ : CmdRes
  keys_ : List String
  split_res_ : Int
  deriving DecidableEq, Repr

namespace ExistsCmd

def init : ExistsCmd := { argv_ := [], res_ := CmdRes.clear, keys_ := [], split_res_ := 0 }

def DoInitial (c : ExistsCmd) : ExistsCmd :=
  if !CheckArg kExistsArity c.argv_.length then
    { c with res_ := c.res_.SetRes CmdRet.kWrongNum kCmdNameExists }
  else
    { c with keys_ := c.argv_.drop 1 }

def Initial (c : ExistsCmd) (argv : List String) : ExistsCmd :=
  DoInitial { c with argv_ := argv, res_ := CmdRes.clear }

/-- `ExistsCmd::Do`; `exists_` is the engine call `slot->db()->Exists`, returning the number
of existing keys or `-1` on failure. -/
def Do (c : ExistsCmd) (exists_ : List String → Int) : ExistsCmd :=
  let res := exists_ c.keys_
  if res != -1 then
    { c with res_ := c.res_.AppendInteger res }
  else
    { c with res_ := c.res_.SetRes CmdRet.kErrOther "exists internal error" }

def Split (c : ExistsCmd) (exists_ : List String → Int) (hint_keys : HintKeys) : ExistsCmd :=
  let res := exists_ hint_keys.keys
  if res != -1 then
    { c with split_res_ := add64 c.split_res_ res }
  else
    { c with res_ := c.res_.SetRes CmdRet.kErrOther "exists internal error" }

def Merge (c : ExistsCmd) : ExistsCmd := { c with res_ := c.res_.AppendInteger c.split_res_ }

/-- Scatter/gather execution: `Split` on every shard in the given order. -/
def splitAll (c : ExistsCmd) (shards : List ((List String → Int) × HintKeys)) : ExistsCmd :=
  shards.foldl (fun c sh => c.Split sh.1 sh.2) c

end ExistsCmd

/-! ## The default replication path (`Cmd::DoBinlog`) -/

/-- Modelled from the spec: `Cmd::DoBinlog` (defined in `src/pika_command.cc`, not part of
the source file) for a command that keeps the default encoder: the argument vector
of a command that has not failed is handed verbatim to the replication log; a failed
command leaves no entry. -/
def Cmd.DoBinlog (res_ : CmdRes) (argv_ : List String) (log : List String) : List String :=
  if res_.ok then log ++ [Cmd.ToRedisProtocol argv_] else log

namespace DelCmd

/-- The arguments of the `RemSlotKey` calls made by `DelCmd::Do`, in call order. -/
def remSlotKeyCalls (c : DelCmd) (del : List String → Int) : List String :=
  let count := del c.keys_
  if count ≥ 0 then c.keys_ else []

/-- `DelCmd::DoBinlog`; `none` is the exception thrown by `argv_.at(0)` on an empty
argument vector. -/
def DoBinlog (c : DelCmd) (log : List String) : Option (DelCmd × List String) :=
  match c.argv_.get? 0 with
  | none => none
  | some opt =>
    some (c.keys_.foldl (fun (st : DelCmd × List String) key =>
      let c1 := { st.1 with argv_ := [opt, key] }
      (c1, Cmd.DoBinlog c1.res_ c1.argv_ st.2)) (c, log))

end DelCmd

/-! ## The strings engine (`slot->db()`) -/

/-- The engine calls used by the string commands. An out-parameter of the source is part
of the returned value: the value it holds after the call. -/
structure StringsDB where
  Set : String → String → Status
  Setxx : String → String → Int → Status × Int
  Setnx : String → String → Int → Status × Int
  Setvx : String → String → String → Int → Status × Int
  Setex : String → String → Int → Status
  Incrby : String → Int → Status × Int
  Incrbyfloat : String → String → Status × String
  GetSet : String → String → Status × String
  Append : String → String → Status × Int
  Setrange : String → Int → String → Status × Int

/-- `SetCmd::Do`; `index` is the Secondary Key Index of the slot. -/
def SetCmd.Do (c : SetCmd) (db : StringsDB) (index : List String) : SetCmd × List String :=
  -- (s, res, success_) after the engine call; `res` starts at 1
  let r : Status × Int × Int :=
    match c.condition_ with
    | SetCondition.kXX =>
      let o := db.Setxx c.key_ c.value_ (toInt32 c.sec_)
      (o.1, o.2, c.success_)
    | SetCondition.kNX =>
      let o := db.Setnx c.key_ c.value_ (toInt32 c.sec_)
      (o.1, o.2, c.success_)
    | SetCondition.kVX =>
      let o := db.Setvx c.key_ c.target_ c.value_ (toInt32 c.sec_)
      (o.1, 1, o.2)
    | SetCondition.kEXORPX => (db.Setex c.key_ c.value_ (toInt32 c.sec_), 1, c.success_)
    | SetCondition.kNONE => (db.Set c.key_ c.value_, 1, c.success_)
  let s := r.1
  let res := r.2.1
  let c := { c with success_ := r.2.2 }
  if s.ok || s.IsNotFound then
    if c.condition_ = SetCondition.kVX then
      ({ c with res_ := c.res_.AppendInteger c.success_ }, index)
    else
      if res = 1 then
        ({ c with res_ := c.res_.SetRes CmdRet.kOk "" }, AddSlotKey "k" c.key_ index)
      else
        ({ c with res_ := c.res_.AppendStringLen (-1) }, index)
  else
    ({ c with res_ := c.res_.SetRes CmdRet.kErrOther s.ToString }, index)

/-! ## SETNX -/

structure SetnxCmd where
  argv_ : List String
  res_ : CmdRes
  key_ : String
  value_ : String
  success_ : Int
  deriving DecidableEq, Repr

namespace SetnxCmd

def init : SetnxCmd := { argv_ := [], res_ := CmdRes.clear, key_ := "", value_ := "", success_ := 0 }

def DoInitial (c : SetnxCmd) : SetnxCmd :=
  if !CheckArg kSetnxArity c.argv_.length then
    { c with res_ := c.res_.SetRes CmdRet.kWrongNum kCmdNameSetnx }
  else
    { c with key_ := argAt c.argv_ 1, value_ := argAt c.argv_ 2 }

def Initial (c : SetnxCmd) (argv : List String) : SetnxCmd :=
  DoInitial { c with argv_ := argv, res_ := CmdRes.clear }

def Do (c : SetnxCmd) (db : StringsDB) (index : List String) : SetnxCmd × List String :=
  let c := { c with success_ := 0 }
  let o := db.Setnx c.key_ c.value_ 0
  let s := o.1
  let c := { c with success_ := o.2 }
  if s.ok then
    ({ c with res_ := c.res_.AppendInteger c.success_ }, AddSlotKey "k" c.key_ index)
  else
    ({ c with res_ := c.res_.SetRes CmdRet.kErrOther s.ToString }, index)

def ToRedisProtocol (c : SetnxCmd) (_now : Int) : String :=
  let content := ""
  let content := RedisAppendLen content 3 "*"
  -- don't check variable 'success_', because if 'success_' was false, an empty binlog will be
  -- saved into file.
  -- to setnx cmd
  let set_cmd := "setnx"
  let content := RedisAppendLenUint64 content set_cmd.utf8ByteSize "$"
  let content := RedisAppendContent content set_cmd
  -- key
  let content := RedisAppendLenUint64 content c.key_.utf8ByteSize "$"
  let content := RedisAppendContent content c.key_
  -- value
  let content := RedisAppendLenUint64 content c.value_.utf8ByteSize "$"
  let content := RedisAppendContent content c.value_
  content

end SetnxCmd

/-! ## INCR, INCRBY, INCRBYFLOAT, GETSET, APPEND, SETRANGE (execution) -/

structure IncrCmd where
  res_ : CmdRes
  key_ : String
  new_value_ : Int
  deriving DecidableEq, Repr

def IncrCmd.Do (c : IncrCmd) (db : StringsDB) (index : List String) : IncrCmd × List String :=
  let o := db.Incrby c.key_ 1
  let s := o.1
  let c := { c with new_value_ := o.2 }
  if s.ok then
    ({ c with res_ := c.res_.AppendContent (":" ++ ll2string c.new_value_) },
      AddSlotKey "k" c.key_ index)
  else if s.IsCorruption && s.ToString == "Corruption: Value is not a integer" then
    ({ c with res_ := c.res_.SetRes CmdRet.kInvalidInt "" }, index)
  else if s.IsInvalidArgument then
    ({ c with res_ := c.res_.SetRes CmdRet.kOverFlow "" }, index)
  else
    ({ c with res_ := c.res_.SetRes CmdRet.kErrOther s.ToString }, index)

structure IncrbyCmd where
  res_ : CmdRes
  key_ : String
  by_ : Int
  new_value_ : Int
  deriving DecidableEq, Repr

def IncrbyCmd.Do (c : IncrbyCmd) (db : StringsDB) (index : List String) :
    IncrbyCmd × List String :=
  let o := db.Incrby c.key_ c.by_
  let s := o.1
  let c := { c with new_value_ := o.2 }
  if s.ok then
    ({ c with res_ := c.res_.AppendContent (":" ++ ll2string c.new_value_) },
      AddSlotKey "k" c.key_ index)
  else if s.IsCorruption && s.ToString == "Corruption: Value is not a integer" then
    ({ c with res_ := c.res_.SetRes CmdRet.kInvalidInt "" }, index)
  else if s.IsInvalidArgument then
    ({ c with res_ := c.res_.SetRes CmdRet.kOverFlow "" }, index)
  else
    ({ c with res_ := c.res_.SetRes CmdRet.kErrOther s.ToString }, index)

structure IncrbyfloatCmd where
  res_ : CmdRes
  key_ : String
  value_ : String
  new_value_ : String
  deriving DecidableEq, Repr

def IncrbyfloatCmd.Do (c : IncrbyfloatCmd) (db : StringsDB) (index : List String) :
    IncrbyfloatCmd × List String :=
  let o := db.Incrbyfloat c.key_ c.value_
  let s := o.1
  let c := { c with new_value_ := o.2 }
  if s.ok then
    let res := (c.res_.AppendStringLenUint64 c.new_value_.utf8ByteSize).AppendContent c.new_value_
    ({ c with res_ := res }, AddSlotKey "k" c.key_ index)
  else if s.IsCorruption && s.ToString == "Corruption: Value is not a vaild float" then
    ({ c with res_ := c.res_.SetRes CmdRet.kInvalidFloat "" }, index)
  else if s.IsInvalidArgument then
    ({ c with res_ := c.res_.SetRes CmdRet.KIncrByOverFlow "" }, index)
  else
    ({ c with res_ := c.res_.SetRes CmdRet.kErrOther s.ToString }, index)

structure GetsetCmd where
  res_ : CmdRes
  key_ : String
  new_value_ : String
  deriving DecidableEq, Repr

def GetsetCmd.Do (c : GetsetCmd) (db : StringsDB) (index : List String) :
    GetsetCmd × List String :=
  let o := db.GetSet c.key_ c.new_value_
  let s := o.1
  let old_value := o.2
  if s.ok then
    let res :=
      if old_value.isEmpty then c.res_.AppendContent "$-1"
      else (c.res_.AppendStringLenUint64 old_value.utf8ByteSize).AppendContent old_value
    ({ c with res_ := res }, AddSlotKey "k" c.key_ index)
  else
    ({ c with res_ := c.res_.SetRes CmdRet.kErrOther s.ToString }, index)

structure AppendCmd where
  res_ : CmdRes
  key_ : String
  value_ : String
  deriving DecidableEq, Repr

def AppendCmd.Do (c : AppendCmd) (db : StringsDB) (index : List String) :
    AppendCmd × List String :=
  let o := db.Append c.key_ c.value_
  let s := o.1
  let new_len := o.2
  if s.ok || s.IsNotFound then
    ({ c with res_ := c.res_.AppendInteger new_len }, AddSlotKey "k" c.key_ index)
  else
    ({ c with res_ := c.res_.SetRes CmdRet.kErrOther s.ToString }, index)

structure SetrangeCmd where
  res_ : CmdRes
  key_ : String
  offset_ : Int
  value_ : String
  deriving DecidableEq, Repr

def SetrangeCmd.Do (c : SetrangeCmd) (db : StringsDB) (index : List String) :
    SetrangeCmd × List String :=
  let o := db.Setrange c.key_ c.offset_ c.value_
  let s := o.1
  let new_len := o.2
  if s.ok then
    ({ c with res_ := c.res_.AppendInteger new_len }, AddSlotKey "k" c.key_ index)
  else
    ({ c with res_ := c.res_.SetRes CmdRet.kErrOther s.ToString }, index)

/-! ## Vocabulary for the statements about requests -/

/-- The argument list `k1 v1 k2 v2 ...` of a list of pairs. -/
def flattenPairs : List KeyValue → List String
  | [] => []
  | kv :: rest => kv.key :: kv.value :: flattenPairs rest

/-- A token that selects a conditional mode: `NX`, `XX` or `VX` (case-insensitively). -/
def isCondToken (t : String) : Bool :=
  strcasecmpEq t "xx" || strcasecmpEq t "nx" || strcasecmpEq t "vx"

/-- A token that selects the expiring mode: `EX` or `PX` (case-insensitively). -/
def isExPxToken (t : String) : Bool :=
  strcasecmpEq t "ex" || strcasecmpEq t "px"

/-! ## Vocabulary for the statements about scatter/gather -/

/-- The engine `MGet` that answers each key independently through the lookup `f`. -/
def mgetOf (f : String → ValueStatus) : List String → Status × List ValueStatus :=
  fun keys => (Status.OK, keys.map f)

/-- A sample lookup: every key but `b` is found, with the value `v` followed by the key. -/
def sampleLookup (key : String) : ValueStatus :=
  if key = "b" then { value := "", status := { code := StatusCode.kNotFound, state := "" } }
  else { value := "v" ++ key, status := Status.OK }

/-- The pair at an original position of the request. -/
def kvAt (kvs : List KeyValue) (h : Nat) : KeyValue := kvs.getD h { key := "", value := "" }

/-- The shard's view of a request: the keys at the hinted positions. -/
def hintKeysOf (kvs : List KeyValue) (hints : List Nat) : HintKeys :=
  { keys := hints.map (fun h => (kvAt kvs h).key), hints := hints }

/-- The result every `Split` and `Do` leaves for an engine status `s`, starting from a clear
result. -/
def msetResult (s : Status) : CmdRes :=
  if s.ok then CmdRes.clear.SetRes CmdRet.kOk "" else CmdRes.clear.SetRes CmdRet.kErrOther s.ToString

/-- An engine `MSet` that fails on every batch and reports the first key of the batch. -/
def failingMSet : List KeyValue → Status :=
  fun kvs => { code := StatusCode.kIOError, state := (kvs.head?.map KeyValue.key).getD "" }

/-- An engine `MSet` that fails on every batch with a fixed message. -/
def brokenMSet : List KeyValue → Status :=
  fun _ => { code := StatusCode.kIOError, state := "disk" }

/-- An engine `MSet` that writes every batch. -/
def healthyMSet : List KeyValue → Status := fun _ => Status.OK

/-- The count the engine of a shard returns for the keys of the shard. -/
def shardCount (sh : (List String → Int) × HintKeys) : Int := sh.1 sh.2.keys

/-- A strings engine for examples: every call succeeds; `Setxx`, `Setnx` and `Setvx` report
the given outcome through their out-parameter. -/
def sampleDB (outcome : Int) : StringsDB :=
  { Set := fun _ _ => Status.OK,
    Setxx := fun _ _ _ => (Status.OK, outcome),
    Setnx := fun _ _ _ => (Status.OK, outcome),
    Setvx := fun _ _ _ _ => (Status.OK, outcome),
    Setex := fun _ _ _ => Status.OK,
    Incrby := fun _ _ => (Status.OK, outcome),
    Incrbyfloat := fun _ _ => (Status.OK, "1.5"),
    GetSet := fun _ _ => (Status.OK, "old"),
    Append := fun _ _ => (Status.OK, outcome),
    Setrange := fun _ _ _ => (Status.OK, outcome) }

/-- A strings engine for examples: every call fails with an IO error. -/
def brokenDB : StringsDB :=
  { Set := fun _ _ => { code := StatusCode.kIOError, state := "disk" },
    Setxx := fun _ _ _ => ({ code := StatusCode.kIOError, state := "disk" }, 0),
    Setnx := fun _ _ _ => ({ code := StatusCode.kIOError, state := "disk" }, 0),
    Setvx := fun _ _ _ _ => ({ code := StatusCode.kIOError, state := "disk" }, 0),
    Setex := fun _ _ _ => { code := StatusCode.kIOError, state := "disk" },
    Incrby := fun _ _ => ({ code := StatusCode.kIOError, state := "disk" }, 0),
    Incrbyfloat := fun _ _ => ({ code := StatusCode.kIOError, state := "disk" }, ""),
    GetSet := fun _ _ => ({ code := StatusCode.kIOError, state := "disk" }, ""),
    Append := fun _ _ => ({ code := StatusCode.kIOError, state := "disk" }, 0),
    Setrange := fun _ _ _ => ({ code := StatusCode.kIOError, state := "disk" }, 0) }

/-! ## SCAN and KEYS -/

inductive DataType where
  | kStrings | kHashes | kLists | kZSets | kSets | kNone | kAll
  deriving DecidableEq, Repr

/-- Modelled from the spec: `CmdRes::AppendStringRaw` (declared in `include/pika_command.h`,
not part of the source file) appends a raw pre-serialized fragment to the reply. -/
def CmdRes.AppendStringRaw (r : CmdRes) (value : String) : CmdRes :=
  { r with message_ := r.message_ ++ value }

/-- The engine call `slot->db()->Scan(type, cursor, pattern, count, &keys)`: it returns the
next cursor and the keys found. The first argument is the number of `Scan` calls the
request has made before, so that the answer may differ from call to call. -/
abbrev ScanFn := Nat → DataType → Int → String → Int → Int × List String

/-- One engine `Scan` call of a request: the cursor and the count passed, the cursor and the
keys returned. -/
structure ScanCall where
  cursor : Int
  batch_count : Int
  cursor_ret : Int
  keys : List String
  deriving DecidableEq, Repr

/-- The local variables of the scanning loops, with the engine calls made so far. -/
structure ScanLoop where
  left : Int
  cursor_ret : Int
  raw : String
  total_key : Int
  calls : List ScanCall
  deriving DecidableEq, Repr

/-- How a scanning loop ended: normally, by the early `return` of the response-size check, or
not within the iterations the model was given. -/
inductive ScanOutcome where
  | finished (st : ScanLoop)
  | exceeded (st : ScanLoop)
  | running (st : ScanLoop)
  deriving DecidableEq, Repr

def ScanOutcome.state : ScanOutcome → ScanLoop
  | ScanOutcome.finished st => st
  | ScanOutcome.exceeded st => st
  | ScanOutcome.running st => st

structure ScanCmd where
  argv_ : List String
  res_ : CmdRes
  cursor_ : Int
  pattern_ : String
  count_ : Int
  type_ : DataType
  deriving DecidableEq, Repr

namespace ScanCmd

/-- A freshly constructed command object, with the member initialisers of the class
(pattern `*`, count 10, all types). -/
def init : ScanCmd :=
  { argv_ := [], res_ := CmdRes.clear, cursor_ := 0, pattern_ := "*", count_ := 10,
    type_ := DataType.kAll }

/-- The `while (index < argc)` loop of `ScanCmd::DoInitial`, on the tokens from `argv_[index]`
on. -/
def parseOptions : List String → ScanCmd → ScanCmd
  | [], c => c
  | opt :: rest, c =>
    if strcasecmpEq opt "match" || strcasecmpEq opt "count" || strcasecmpEq opt "type" then
      match rest with
      | [] => { c with res_ := c.res_.SetRes CmdRet.kSyntaxErr "" }
      | arg :: rest2 =>
        if strcasecmpEq opt "match" then
          parseOptions rest2 { c with pattern_ := arg }
        else if strcasecmpEq opt "type" then
          let c1 :=
            if strcasecmpEq arg "string" then { c with type_ := DataType.kStrings }
            else if strcasecmpEq arg "zset" then { c with type_ := DataType.kZSets }
            else if strcasecmpEq arg "set" then { c with type_ := DataType.kSets }
            else if strcasecmpEq arg "list" then { c with type_ := DataType.kLists }
            else if strcasecmpEq arg "hash" then { c with type_ := DataType.kHashes }
            else { c with res_ := c.res_.SetRes CmdRet.kSyntaxErr "" }
          parseOptions rest2 c1
        else
          match string2int arg with
          | none => { c with res_ := c.res_.SetRes CmdRet.kInvalidInt "" }
          | some v =>
            if v ≤ 0 then { c with count_ := v, res_ := c.res_.SetRes CmdRet.kInvalidInt "" }
            else parseOptions rest2 { c with count_ := v }
    else
      { c with res_ := c.res_.SetRes CmdRet.kSyntaxErr "" }

def DoInitial (c : ScanCmd) : ScanCmd :=
  if !CheckArg kScanArity c.argv_.length then
    { c with res_ := c.res_.SetRes CmdRet.kWrongNum kCmdNameScan }
  else
    match string2int (argAt c.argv_ 1) with
    | none => { c with res_ := c.res_.SetRes CmdRet.kInvalidInt "" }
    | some v => parseOptions (c.argv_.drop 2) { c with cursor_ := v }

def Initial (c : ScanCmd) (argv : List String) : ScanCmd :=
  DoInitial { c with argv_ := argv, res_ := CmdRes.clear }

/-- One pass through the body of the `do ... while` loop of `ScanCmd::Do`: the variables
after the pass, and whether the response-size check fired (in which case `total_key`
is not updated). `step` is `PIKA_SCAN_STEP_LENGTH` and `raw_limit` the configured
`max_client_response_size()`, both defined outside the source file. -/
def body (step : Int) (raw_limit : Nat) (scan : ScanFn) (c : ScanCmd) (st : ScanLoop) :
    ScanLoop × Bool :=
  let batch_count := if st.left < step then st.left else step
  let left := if st.left > step then st.left - step else 0
  let r := scan st.calls.length c.type_ st.cursor_ret c.pattern_ batch_count
  let keys := r.2
  let raw := keys.foldl appendBulk st.raw
  let calls := st.calls ++
    [{ cursor := st.cursor_ret, batch_count := batch_count, cursor_ret := r.1, keys := keys }]
  if raw.utf8ByteSize ≥ raw_limit then
    ({ left := left, cursor_ret := r.1, raw := raw, total_key := st.total_key, calls := calls },
      true)
  else
    ({ left := left, cursor_ret := r.1, raw := raw,
       total_key := st.total_key + (keys.length : Int), calls := calls }, false)

/-- The `do ... while (cursor_ret != 0 && (left != 0))` loop of `ScanCmd::Do`, for at most the
given number of passes. -/
def loop (step : Int) (raw_limit : Nat) (scan : ScanFn) (c : ScanCmd) :
    Nat → ScanLoop → ScanOutcome
  | 0, st => ScanOutcome.running st
  | fuel + 1, st =>
    let r := body step raw_limit scan c st
    if r.2 then ScanOutcome.exceeded r.1
    else if r.1.cursor_ret != 0 && r.1.left != 0 then loop step raw_limit scan c fuel r.1
    else ScanOutcome.finished r.1

/-- The loop of `ScanCmd::Do` from the initial values of its variables; `count_ + 1` passes
are enough for every positive step length. -/
def run (step : Int) (raw_limit : Nat) (scan : ScanFn) (c : ScanCmd) : ScanOutcome :=
  loop step raw_limit scan c (c.count_.toNat + 1)
    { left := c.count_, cursor_ret := c.cursor_, raw := "", total_key := 0, calls := [] }

/-- The reply of a successful SCAN: the next cursor as a bulk string, then the array of keys. -/
def reply (res : CmdRes) (cursor_ret total_key : Int) (raw : String) : CmdRes :=
  let res := res.AppendArrayLen 2
  let buf := ll2string cursor_ret
  let len := buf.utf8ByteSize
  let res := res.AppendStringLen (len : Int)
  let res := res.AppendContent buf
  let res := res.AppendArrayLen total_key
  res.AppendStringRaw raw

/-- `ScanCmd::Do`; `none` when the loop did not end within the passes of `run`. -/
def Do (step : Int) (raw_limit : Nat) (scan : ScanFn) (c : ScanCmd) : Option ScanCmd :=
  match run step raw_limit scan c with
  | ScanOutcome.running _ => none
  | ScanOutcome.exceeded _ =>
    let msg := "Response exceeds the max-client-response-size limit"
    some { c with res_ := c.res_.SetRes CmdRet.kErrOther msg }
  | ScanOutcome.finished st =>
    some { c with res_ := reply c.res_ st.cursor_ret st.total_key st.raw }

end ScanCmd

structure KeysCmd where
  res_ : CmdRes
  pattern_ : String
  type_ : DataType
  deriving DecidableEq, Repr

namespace KeysCmd

/-- One pass through the body of the `do ... while` loop of `KeysCmd::Do`. -/
def body (step : Int) (raw_limit : Nat) (scan : ScanFn) (c : KeysCmd) (st : ScanLoop) :
    ScanLoop × Bool :=
  let r := scan st.calls.length c.type_ st.cursor_ret c.pattern_ step
  let keys := r.2
  let raw := keys.foldl appendBulk st.raw
  let calls := st.calls ++
    [{ cursor := st.cursor_ret, batch_count := step, cursor_ret := r.1, keys := keys }]
  if raw.utf8ByteSize ≥ raw_limit then
    ({ left := st.left, cursor_ret := r.1, raw := raw, total_key := st.total_key,
       calls := calls }, true)
  else
    ({ left := st.left, cursor_ret := r.1, raw := raw,
       total_key := st.total_key + (keys.length : Int), calls := calls }, false)

/-- The `do ... while (cursor != 0)` loop of `KeysCmd::Do`, for at most the given number of
passes. -/
def loop (step : Int) (raw_limit : Nat) (scan : ScanFn) (c : KeysCmd) :
    Nat → ScanLoop → ScanOutcome
  | 0, st => ScanOutcome.running st
  | fuel + 1, st =>
    let r := body step raw_limit scan c st
    if r.2 then ScanOutcome.exceeded r.1
    else if r.1.cursor_ret != 0 then loop step raw_limit scan c fuel r.1
    else ScanOutcome.finished r.1

/-- The loop of `KeysCmd::Do` from the initial values of its variables. -/
def run (step : Int) (raw_limit : Nat) (scan : ScanFn) (c : KeysCmd) (fuel : Nat) : ScanOutcome :=
  loop step raw_limit scan c fuel
    { left := 0, cursor_ret := 0, raw := "", total_key := 0, calls := [] }

/-- `KeysCmd::Do`; `none` when the loop did not end within `fuel` passes. -/
def Do (step : Int) (raw_limit : Nat) (scan : ScanFn) (c : KeysCmd) (fuel : Nat) :
    Option KeysCmd :=
  match run step raw_limit scan c fuel with
  | ScanOutcome.running _ => none
  | ScanOutcome.exceeded _ =>
    let msg := "Response exceeds the max-client-response-size limit"
    some { c with res_ := c.res_.SetRes CmdRet.kErrOther msg }
  | ScanOutcome.finished st =>
    some { c with res_ := (c.res_.AppendArrayLen st.total_key).AppendStringRaw st.raw }

end KeysCmd

/-! ## Vocabulary for the statements about SCAN and KEYS -/

/-- The serialized form of a list of keys: one bulk string per key. -/
def encodeKeys (keys : List String) : String := keys.foldl appendBulk ""

/-- All keys returned by a sequence of engine calls, in order. -/
def callKeys (calls : List ScanCall) : List String := calls.flatMap (fun call => call.keys)

/-- The counts requested by a sequence of engine calls, in order. -/
def callCounts (calls : List ScanCall) : List Int := calls.map (fun call => call.batch_count)

/-- The calls form a cursor chain from `start`: the first call passes `start`, every later
call the cursor its predecessor returned. -/
def isCursorChain : Int → List ScanCall → Prop
  | _, [] => True
  | start, call :: rest => call.cursor = start ∧ isCursorChain call.cursor_ret rest

/-- The cursor a chain of calls ends with. -/
def chainEnd (start : Int) (calls : List ScanCall) : Int :=
  (calls.getLast?.map (fun call => call.cursor_ret)).getD start

/-- Modelled from the spec: the storage engine behind `slot->db()->Scan` is not part of the
source file; this is an engine over a fixed list of keys that enumerates each key once
along its cursor chain: the cursor is the position of the next key, a call returns the
requested number of keys (or the keys that are left) and the cursor 0 once all are
returned. -/
def listScan (ks : List String) : ScanFn :=
  fun _ _ cursor _ count =>
    (if cursor.toNat + count.toNat < ks.length then ((cursor.toNat + count.toNat : Nat) : Int)
      else 0,
     (ks.drop cursor.toNat).take count.toNat)

/-- The cursor and the keys of the reply of a SCAN, when it succeeds. -/
def ScanCmd.result (step : Int) (raw_limit : Nat) (scan : ScanFn) (c : ScanCmd) :
    Option (Int × List String) :=
  match ScanCmd.run step raw_limit scan c with
  | ScanOutcome.finished st => some (st.cursor_ret, callKeys st.calls)
  | _ => none

/-- A client session: SCAN from the given cursor, then again from every returned cursor until
the cursor 0 comes back; the keys of all replies, in order. -/
def scanSession (step : Int) (raw_limit : Nat) (scan : ScanFn) (c : ScanCmd) :
    Nat → Int → Option (List String)
  | 0, _ => none
  | fuel + 1, cursor =>
    match ScanCmd.result step raw_limit scan { c with cursor_ := cursor } with
    | none => none
    | some (next, keys) =>
      if next = 0 then some keys
      else (scanSession step raw_limit scan c fuel next).map (fun more => keys ++ more)

/-- What the loop of `ScanCmd::Do` keeps true of its variables and of the engine calls made
so far; used in the proofs about SCAN. -/
structure ScanInv (step : Int) (scan : ScanFn) (c : ScanCmd) (st : ScanLoop) : Prop where
  raw_eq : st.raw = encodeKeys (callKeys st.calls)
  chain : isCursorChain c.cursor_ st.calls
  cursor_eq : st.cursor_ret = chainEnd c.cursor_ st.calls
  left_eq : st.left = c.count_ - (callCounts st.calls).sum
  left_nonneg : 0 ≤ c.count_ → 0 ≤ st.left
  batch : ∀ i, i < st.calls.length →
    (callCounts st.calls)[i]? = some (min (c.count_ - ((callCounts st.calls).take i).sum) step)
  answer : ∀ i call, st.calls[i]? = some call →
    (call.cursor_ret, call.keys) = scan i c.type_ call.cursor c.pattern_ call.batch_count

/-- A key space of 12 keys, for the sample requests. -/
def sampleKeys : List String :=
  ["k01", "k02", "k03", "k04", "k05", "k06", "k07", "k08", "k09", "k10", "k11", "k12"]

/-- The request `SCAN 0 COUNT 5` after `Initial`. -/
def sampleScanCmd : ScanCmd := ScanCmd.init.Initial ["scan", "0", "count", "5"]

/-- The request `KEYS *` after `Initial`. -/
def sampleKeysCmd : KeysCmd := { res_ := CmdRes.clear, pattern_ := "*", type_ := DataType.kAll }

/-! ## DECR and DECRBY (execution) -/

structure DecrCmd where
  res_ : CmdRes
  key_ : String
  new_value_ : Int
  deriving DecidableEq, Repr

/-- `DecrCmd::Do`; `decrby` is the engine call `slot->db()->Decrby`, `index` the Secondary
Key Index of the slot (the body makes no `AddSlotKey` call). -/
def DecrCmd.Do (c : DecrCmd) (decrby : String → Int → Status × Int) (index : List String) :
    DecrCmd × List String :=
  let o := decrby c.key_ 1
  let s := o.1
  let c := { c with new_value_ := o.2 }
  if s.ok then
    ({ c with res_ := c.res_.AppendContent (":" ++ ll2string c.new_value_) }, index)
  else if s.IsCorruption && s.ToString == "Corruption: Value is not a integer" then
    ({ c with res_ := c.res_.SetRes CmdRet.kInvalidInt "" }, index)
  else if s.IsInvalidArgument then
    ({ c with res_ := c.res_.SetRes CmdRet.kOverFlow "" }, index)
  else
    ({ c with res_ := c.res_.SetRes CmdRet.kErrOther s.ToString }, index)

structure DecrbyCmd where
  res_ : CmdRes
  key_ : String
  by_ : Int
  new_value_ : Int
  deriving DecidableEq, Repr

/-- `DecrbyCmd::Do`; the body makes no `AddSlotKey` call. -/
def DecrbyCmd.Do (c : DecrbyCmd) (decrby : String → Int → Status × Int) (index : List String) :
    DecrbyCmd × List String :=
  let o := decrby c.key_ c.by_
  let s := o.1
  let c := { c with new_value_ := o.2 }
  if s.ok then
    ({ c with res_ := c.res_.AppendContent (":" ++ ll2string c.new_value_) }, index)
  else if s.IsCorruption && s.ToString == "Corruption: Value is not a integer" then
    ({ c with res_ := c.res_.SetRes CmdRet.kInvalidInt "" }, index)
  else if s.IsInvalidArgument then
    ({ c with res_ := c.res_.SetRes CmdRet.kOverFlow "" }, index)
  else
    ({ c with res_ := c.res_.SetRes CmdRet.kErrOther s.ToString }, index)

/-! ## TTL and PTTL (execution) -/

/-- The `std::map<storage::DataType, int64_t>` returned by the engine call `TTL`: the value
of each namespace that has an entry. -/
abbrev TtlMap := DataType → Option Int

/-- The values of the entries of the map, as the range-`for` visits them. -/
def TtlMap.items (m : TtlMap) : List Int :=
  [DataType.kStrings, DataType.kHashes, DataType.kLists, DataType.kZSets, DataType.kSets,
    DataType.kNone, DataType.kAll].filterMap m

/-- The access `type_timestamp[t]`: the value of the entry, 0 for a namespace without entry. -/
def TtlMap.lookup (m : TtlMap) (t : DataType) : Int := (m t).getD 0

structure TtlCmd where
  res_ : CmdRes
  key_ : String
  deriving DecidableEq, Repr

/-- `TtlCmd::Do`; `ttl` is the engine call `slot->db()->TTL`. -/
def TtlCmd.Do (c : TtlCmd) (ttl : String → TtlMap) : TtlCmd :=
  let type_timestamp := ttl c.key_
  if type_timestamp.items.any (fun v => v == -3) then
    { c with res_ := c.res_.SetRes CmdRet.kErrOther "ttl internal error" }
  else if type_timestamp.lookup DataType.kStrings != -2 then
    { c with res_ := c.res_.AppendInteger (type_timestamp.lookup DataType.kStrings) }
  else if type_timestamp.lookup DataType.kHashes != -2 then
    { c with res_ := c.res_.AppendInteger (type_timestamp.lookup DataType.kHashes) }
  else if type_timestamp.lookup DataType.kLists != -2 then
    { c with res_ := c.res_.AppendInteger (type_timestamp.lookup DataType.kLists) }
  else if type_timestamp.lookup DataType.kZSets != -2 then
    { c with res_ := c.res_.AppendInteger (type_timestamp.lookup DataType.kZSets) }
  else if type_timestamp.lookup DataType.kSets != -2 then
    { c with res_ := c.res_.AppendInteger (type_timestamp.lookup DataType.kSets) }
  else
    { c with res_ := c.res_.AppendInteger (-2) }

structure PttlCmd where
  res_ : CmdRes
  key_ : String
  deriving DecidableEq, Repr

/-- One branch of `PttlCmd::Do`: the reply for the value of the selected namespace. -/
def PttlCmd.branch (res : CmdRes) (v : Int) : CmdRes :=
  if v == -1 then res.AppendInteger (-1) else res.AppendInteger (toInt64 (v * 1000))

/-- `PttlCmd::Do`; `ttl` is the engine call `slot->db()->TTL`. -/
def PttlCmd.Do (c : PttlCmd) (ttl : String → TtlMap) : PttlCmd :=
  let type_timestamp := ttl c.key_
  if type_timestamp.items.any (fun v => v == -3) then
    { c with res_ := c.res_.SetRes CmdRet.kErrOther "ttl internal error" }
  else if type_timestamp.lookup DataType.kStrings != -2 then
    { c with res_ := PttlCmd.branch c.res_ (type_timestamp.lookup DataType.kStrings) }
  else if type_timestamp.lookup DataType.kHashes != -2 then
    { c with res_ := PttlCmd.branch c.res_ (type_timestamp.lookup DataType.kHashes) }
  else if type_timestamp.lookup DataType.kLists != -2 then
    { c with res_ := PttlCmd.branch c.res_ (type_timestamp.lookup DataType.kLists) }
  else if type_timestamp.lookup DataType.kSets != -2 then
    { c with res_ := PttlCmd.branch c.res_ (type_timestamp.lookup DataType.kSets) }
  else if type_timestamp.lookup DataType.kZSets != -2 then
    { c with res_ := PttlCmd.branch c.res_ (type_timestamp.lookup DataType.kZSets) }
  else
    { c with res_ := c.res_.AppendInteger (-2) }

/-! ## PKSCANRANGE and PKRSCANRANGE (argument parsing) -/

def kPKScanRangeArity : Int := -4
def kPKRScanRangeArity : Int := -4
def kCmdNamePKScanRange : String := "pkscanrange"
def kCmdNamePKRScanRange : String := "pkrscanrange"

/-- Modelled from the spec: the hash tag of a key (`GetHashkey` of `src/pika_slot_command.cc`,
not part of the source file) is the text between the first `{` and the next `}`; a key
without such a pair has the empty tag. -/
def GetHashTag (key : String) : String :=
  match key.data.dropWhile (fun ch => ch != '{') with
  | [] => ""
  | _ :: rest => if '}' ∈ rest then String.mk (rest.takeWhile (fun ch => ch != '}')) else ""

/-- Modelled from the spec: `HashtagIsConsistent` (defined in `src/pika_slot_command.cc`, not
part of the source file) tells whether two keys share their routing hash tag. -/
def HashtagIsConsistent (lhs rhs : String) : Bool := GetHashTag lhs == GetHashTag rhs

structure PKScanRangeCmd where
  argv_ : List String
  res_ : CmdRes
  type_ : DataType
  key_start_ : String
  key_end_ : String
  pattern_ : String
  limit_ : Int
  string_with_value : Bool
  deriving DecidableEq, Repr

namespace PKScanRangeCmd

/-- A freshly constructed command object, with the member initialisers of the class
(pattern `*`, limit 10). -/
def init : PKScanRangeCmd :=
  { argv_ := [], res_ := CmdRes.clear, type_ := DataType.kAll, key_start_ := "", key_end_ := "",
    pattern_ := "*", limit_ := 10, string_with_value := false }

/-- The `while (index < argc)` loop of the two `DoInitial`, on the tokens from `argv_[index]`
on. -/
def parseOptions : List String → PKScanRangeCmd → PKScanRangeCmd
  | [], c => c
  | opt :: rest, c =>
    if strcasecmpEq opt "match" || strcasecmpEq opt "limit" then
      match rest with
      | [] => { c with res_ := c.res_.SetRes CmdRet.kSyntaxErr "" }
      | arg :: rest2 =>
        if strcasecmpEq opt "match" then
          parseOptions rest2 { c with pattern_ := arg }
        else
          match string2int arg with
          | none => { c with res_ := c.res_.SetRes CmdRet.kInvalidInt "" }
          | some v =>
            if v ≤ 0 then { c with limit_ := v, res_ := c.res_.SetRes CmdRet.kInvalidInt "" }
            else parseOptions rest2 { c with limit_ := v }
    else
      { c with res_ := c.res_.SetRes CmdRet.kSyntaxErr "" }

/-- The body shared by `PKScanRangeCmd::DoInitial` and `PKRScanRangeCmd::DoInitial` (the two
differ in the arity constant and the command name only); `consistent` is the function
`HashtagIsConsistent`. -/
def initialBody (consistent : String → String → Bool) (arity : Int) (name : String)
    (c : PKScanRangeCmd) : PKScanRangeCmd :=
  if !CheckArg arity c.argv_.length then
    { c with res_ := c.res_.SetRes CmdRet.kWrongNum name }
  else
    let t := argAt c.argv_ 1
    let typed : Option PKScanRangeCmd :=
      if strcasecmpEq t "string_with_value" then
        some { c with type_ := DataType.kStrings, string_with_value := true }
      else if strcasecmpEq t "string" then some { c with type_ := DataType.kStrings }
      else if strcasecmpEq t "hash" then some { c with type_ := DataType.kHashes }
      else if strcasecmpEq t "set" then some { c with type_ := DataType.kSets }
      else if strcasecmpEq t "zset" then some { c with type_ := DataType.kZSets }
      else if strcasecmpEq t "list" then some { c with type_ := DataType.kLists }
      else none
    match typed with
    | none => { c with res_ := c.res_.SetRes CmdRet.kInvalidDbType "" }
    | some c =>
      let c := { c with key_start_ := argAt c.argv_ 2, key_end_ := argAt c.argv_ 3 }
      -- start key and end key hash tag have to be same in non classic mode
      if !consistent c.key_start_ c.key_start_ then
        { c with res_ := c.res_.SetRes CmdRet.kInconsistentHashTag "" }
      else
        parseOptions (c.argv_.drop 4) c

/-- `PKScanRangeCmd::DoInitial`. -/
def DoInitial (consistent : String → String → Bool) (c : PKScanRangeCmd) : PKScanRangeCmd :=
  initialBody consistent kPKScanRangeArity kCmdNamePKScanRange c

def Initial (consistent : String → String → Bool) (c : PKScanRangeCmd) (argv : List String) :
    PKScanRangeCmd :=
  DoInitial consistent { c with argv_ := argv, res_ := CmdRes.clear }

end PKScanRangeCmd

namespace PKRScanRangeCmd

/-- `PKRScanRangeCmd::DoInitial`, on the members the class shares with `PKScanRangeCmd`. -/
def DoInitial (consistent : String → String → Bool) (c : PKScanRangeCmd) : PKScanRangeCmd :=
  PKScanRangeCmd.initialBody consistent kPKRScanRangeArity kCmdNamePKRScanRange c

def Initial (consistent : String → String → Bool) (c : PKScanRangeCmd) (argv : List String) :
    PKScanRangeCmd :=
  DoInitial consistent { c with argv_ := argv, res_ := CmdRes.clear }

end PKRScanRangeCmd

/-! ## Scatter/gather execution on a slot with its key index -/

/-- Scatter/gather execution of DEL on slots with the Secondary Key Index `index`: `Split`
on every shard, then `Merge`. Neither body calls `RemSlotKey`, so the index is handed
back as it was. -/
def DelCmd.scatterGather (c : DelCmd) (shards : List ((List String → Int) × HintKeys))
    (index : List String) : DelCmd × List String :=
  ((c.splitAll shards).Merge, index)

/-- Scatter/gather execution of MSET on slots with the Secondary Key Index `index`: `Split`
on every shard, then `Merge`. Neither body calls `AddSlotKey`, so the index is handed
back as it was. -/
def MsetCmd.scatterGather (c : MsetCmd) (shards : List ((List KeyValue → Status) × HintKeys))
    (index : List String) : Option (MsetCmd × List String) :=
  (c.splitAll shards).map (fun c1 => (c1.Merge, index))

/-! ## Vocabulary for the statements about the options of SET -/

/-- A token that is one of the five options of SET (case-insensitively). -/
def isOptionToken (t : String) : Bool := isCondToken t || isExPxToken t

/-- A token that is an option of SET followed by a value: `VX`, `EX` or `PX`. -/
def isValueOption (t : String) : Bool := strcasecmpEq t "vx" || isExPxToken t

/-- The option lists the specification admits: a sequence of groups
`NX | XX | VX target | EX int | PX int`. -/
inductive SetOptions : List String → Prop where
  | nil : SetOptions []
  | flag (opt : String) (rest : List String) :
      (strcasecmpEq opt "nx" = true ∨ strcasecmpEq opt "xx" = true) → SetOptions rest →
      SetOptions (opt :: rest)
  | vx (opt target : String) (rest : List String) :
      strcasecmpEq opt "vx" = true → SetOptions rest → SetOptions (opt :: target :: rest)
  | expire (opt num : String) (rest : List String) :
      isExPxToken opt = true → (string2int num).isSome = true → SetOptions rest →
      SetOptions (opt :: num :: rest)

/-- The mode each option group of a list selects, in request order: `XX`, `NX` and `VX` their
own mode, `EX` and `PX` the expiring mode. -/
def optionModes : List String → List SetCondition
  | [] => []
  | opt :: rest =>
    if strcasecmpEq opt "xx" then SetCondition.kXX :: optionModes rest
    else if strcasecmpEq opt "nx" then SetCondition.kNX :: optionModes rest
    else if strcasecmpEq opt "vx" then
      match rest with
      | [] => [SetCondition.kVX]
      | _ :: rest2 => SetCondition.kVX :: optionModes rest2
    else if isExPxToken opt then
      match rest with
      | [] => [SetCondition.kEXORPX]
      | _ :: rest2 => SetCondition.kEXORPX :: optionModes rest2
    else []

/-- The expiry, in seconds, each `EX`/`PX` group of a list gives, in request order (`PX`
milliseconds divided by 1000, truncating). -/
def optionExpiries : List String → List Int
  | [] => []
  | opt :: rest =>
    if strcasecmpEq opt "xx" || strcasecmpEq opt "nx" then optionExpiries rest
    else if strcasecmpEq opt "vx" then
      match rest with
      | [] => []
      | _ :: rest2 => optionExpiries rest2
    else if isExPxToken opt then
      match rest with
      | [] => []
      | num :: rest2 =>
        match string2int num with
        | none => []
        | some v => (if strcasecmpEq opt "px" then Int.tdiv v 1000 else v) :: optionExpiries rest2
    else []

/-- The mode the option loop of SET ends in, from the mode it starts in and the modes of the
option groups: the mode of the last `NX`/`XX`/`VX` group when there is one; otherwise,
when there is a group at all, the expiring mode if the loop started without a mode. -/
def resolveMode (start : SetCondition) (modes : List SetCondition) : SetCondition :=
  match (modes.filter (fun m => m != SetCondition.kEXORPX)).getLast? with
  | some m => m
  | none =>
    if modes.isEmpty then start
    else if start = SetCondition.kNONE then SetCondition.kEXORPX else start

/-! ## Sample inputs for TTL, DECR and the range scans -/

/-- A TTL map of a key that lives in the sorted-set namespace (10 seconds left) and in the set
namespace (20 seconds left) only. -/
def sampleTtl : TtlMap := fun t =>
  match t with
  | DataType.kStrings => some (-2)
  | DataType.kHashes => some (-2)
  | DataType.kLists => some (-2)
  | DataType.kZSets => some 10
  | DataType.kSets => some 20
  | _ => none

/-- An engine `Decrby` that succeeds on an absent key: the key is created with the negated
amount. -/
def sampleDecrby : String → Int → Status × Int := fun _ by_ => (Status.OK, -by_)

/-- A strings engine for examples whose `Incrby` fails with the given status. -/
def incrFailingDB (s : Status) : StringsDB := { sampleDB 0 with Incrby := fun _ _ => (s, 0) }

/-- The loop ended within the passes the model was given (normally or at the size check). -/
def ScanOutcome.ended : ScanOutcome → Bool
  | ScanOutcome.running _ => false
  | _ => true

/-- The bound on the engine calls of one SCAN: `max(1, ceil(count / step))`. -/
def scanCallBound (count step : Int) : Nat := max 1 ((count + step - 1) / step).toNat

/-! ## Reading a replication entry back -/

/-- The decimal digits of a length prefix read as a number; `none` for an empty text and for
a text with a character that is no digit. -/
def parseLen (cs : List Char) : Option Nat :=
  if !cs.isEmpty && cs.all (fun ch => isDigitFrom 48 ch) then
    some (cs.foldl (fun acc ch => acc * 10 + digitVal ch) 0)
  else none

/-- The text before the first line terminator `\r\n`, and the text after it. -/
def readLine : List Char → Option (List Char × List Char)
  | [] => none
  | ch :: rest =>
    if ch = '\r' ∧ rest.head? = some '\n' then some ([], rest.tail)
    else (readLine rest).map (fun r => (ch :: r.1, r.2))

/-- A length prefix: the marker, the decimal number and the line terminator. -/
def readLen (marker : Char) : List Char → Option (Nat × List Char)
  | [] => none
  | m :: rest =>
    if m = marker then
      match readLine rest with
      | none => none
      | some r => (parseLen r.1).map (fun n => (n, r.2))
    else none

/-- The leading characters of a text that make up exactly `n` bytes, and the text after
them; `none` when the text is shorter or `n` bytes end inside a character. -/
def takeBytes : List Char → Nat → Option (List Char × List Char)
  | [], n => if n = 0 then some ([], []) else none
  | ch :: rest, n =>
    if n = 0 then some ([], ch :: rest)
    else if ch.utf8Size ≤ n then
      (takeBytes rest (n - ch.utf8Size)).map (fun r => (ch :: r.1, r.2))
    else none

/-- The given number of bulk strings: each a length prefix, a payload of exactly that many
bytes and the line terminator. -/
def readBulks : Nat → List Char → Option (List String × List Char)
  | 0, cs => some ([], cs)
  | count + 1, cs =>
    match readLen '$' cs with
    | none => none
    | some r =>
      match takeBytes r.2 r.1 with
      | none => none
      | some p =>
        match p.2 with
        | a :: b :: rest =>
          if a = '\r' ∧ b = '\n' then
            (readBulks count rest).map (fun q => (String.mk p.1 :: q.1, q.2))
          else none
        | _ => none

/-- A well-formed entry read back: an array header, then exactly as many bulk strings as the
header counts, each with a length prefix equal to the byte length of its payload, and
nothing after them. Every other text gives `none`. -/
def decodeEntry (s : String) : Option (List String) :=
  match readLen '*' s.data with
  | none => none
  | some r =>
    match readBulks r.1 r.2 with
    | some (args, []) => some args
    | _ => none

/-- The characters of one bulk string of an entry. -/
def bulkData (a : String) : List Char :=
  '$' :: (Nat.toDigits 10 a.utf8ByteSize ++ '\r' :: '\n' :: (a.data ++ ['\r', '\n']))

/-- A PEXPIRE command object that holds four arguments, which `DoInitial` does not accept. -/
def overlongPexpire : PexpireCmd :=
  { argv_ := ["pexpire", "k", "1000", "x"], res_ := CmdRes.clear, key_ := "k", msec_ := 1000 }

/-! ## The replies of SCAN and KEYS, written out -/

/-- The reply the specification describes for SCAN, character by character: an array of two
elements, the next cursor as a bulk string and the array of the keys as bulk strings. -/
def scanReplyText (cursor : Int) (keys : List String) : String :=
  String.mk ('*' :: '2' :: '\r' :: '\n' ::
    (bulkData (ll2string cursor) ++
      '*' :: (Nat.toDigits 10 keys.length ++ '\r' :: '\n' :: keys.flatMap bulkData)))

/-- The reply the specification describes for KEYS, character by character: the array of
the keys as bulk strings. -/
def keysReplyText (keys : List String) : String :=
  String.mk ('*' :: (Nat.toDigits 10 keys.length ++ '\r' :: '\n' :: keys.flatMap bulkData))

/-- A SCAN reply read back: the text of the cursor and the keys. `none` for every text that
is not an array of one bulk string and one array of as many bulk strings as its header
counts, each with a length prefix equal to the byte length of its payload. -/
def decodeScanReply (s : String) : Option (String × List String) :=
  match readLen '*' s.data with
  | none => none
  | some r =>
    if r.1 = 2 then
      match readBulks 1 r.2 with
      | some ([cursor], rest) =>
        match readLen '*' rest with
        | none => none
        | some q =>
          match readBulks q.1 q.2 with
          | some (keys, []) => some (cursor, keys)
          | _ => none
      | _ => none
    else none

/-- The cursor the engine has returned to KEYS after the given number of calls (0 before the
first call): each call passes the cursor of the call before. -/
def keysCursor (step : Int) (scan : ScanFn) (k : KeysCmd) : Nat → Int
  | 0 => 0
  | i + 1 => (scan i k.type_ (keysCursor step scan k i) k.pattern_ step).1

/-! # Properties -/

/-! ## Machine integer conversions -/

theorem toInt64_of_isInt64 (x : Int) (h : isInt64 x) : toInt64 x = x := by
  unfold isInt64 INT64_MIN INT64_MAX at h
  unfold toInt64
  omega

theorem toInt32_of_isInt32 (x : Int) (h : isInt32 x) : toInt32 x = x := by
  unfold isInt32 INT32_MIN INT32_MAX at h
  unfold toInt32
  omega

theorem toInt32_toInt64 (x : Int) : toInt32 (toInt64 x) = toInt32 x := by
  unfold toInt32 toInt64
  omega

theorem add64_of_isInt64 (a b : Int) (h : isInt64 (a + b)) : add64 a b = a + b :=
  toInt64_of_isInt64 _ h

theorem toInt32_add64 (a b : Int) : toInt32 (add64 a b) = toInt32 (a + b) :=
  toInt32_toInt64 _

/-- Truncating division by 1000 moves a value towards zero. -/
theorem tdiv_bounds (v : Int) : (0 ≤ v → 0 ≤ Int.tdiv v 1000 ∧ Int.tdiv v 1000 ≤ v) ∧
    (v ≤ 0 → v ≤ Int.tdiv v 1000 ∧ Int.tdiv v 1000 ≤ 0) := by
  constructor
  · intro h
    rw [Int.tdiv_eq_ediv h (by decide)]
    omega
  · intro h
    obtain ⟨w, hw⟩ : ∃ w : Int, v = -w := ⟨-v, by omega⟩
    subst hw
    rw [Int.neg_tdiv, Int.tdiv_eq_ediv (by omega) (by decide)]
    omega

/-! ## Decimal rendering and the strict parser -/

theorem toDigitsCore_acc (fuel : Nat) : ∀ (n : Nat) (ds : List Char),
    Nat.toDigitsCore 10 fuel n ds = Nat.toDigitsCore 10 fuel n [] ++ ds := by
  induction fuel with
  | zero => intro n ds; simp [Nat.toDigitsCore]
  | succ f ih =>
    intro n ds
    simp only [Nat.toDigitsCore]
    split
    · simp
    · rw [ih (n / 10) (Nat.digitChar (n % 10) :: ds), ih (n / 10) [Nat.digitChar (n % 10)]]
      simp

theorem toDigitsCore_fuel (n : Nat) : ∀ fuel, n < fuel →
    Nat.toDigitsCore 10 fuel n [] = Nat.toDigits 10 n := by
  induction n using Nat.strong_induction_on with
  | _ n ih =>
    intro fuel hf
    obtain ⟨f, rfl⟩ : ∃ f, fuel = f + 1 := ⟨fuel - 1, by omega⟩
    unfold Nat.toDigits
    simp only [Nat.toDigitsCore]
    split
    · rfl
    · rename_i h
      have hm : n / 10 < n := by omega
      rw [toDigitsCore_acc f, toDigitsCore_acc n, ih (n / 10) hm f (by omega), ih (n / 10) hm n (by omega)]

/-- The decimal digits of `n` are those of `n / 10` followed by the last digit. -/
theorem toDigits_rec (n : Nat) : Nat.toDigits 10 n =
    if n / 10 = 0 then [Nat.digitChar (n % 10)]
    else Nat.toDigits 10 (n / 10) ++ [Nat.digitChar (n % 10)] := by
  conv_lhs => unfold Nat.toDigits
  simp only [Nat.toDigitsCore]
  split
  · rfl
  · rw [toDigitsCore_acc, toDigitsCore_fuel (n / 10) n (by omega)]

theorem digitChar_props : ∀ d : Nat, d < 10 →
    digitVal (Nat.digitChar d) = d ∧ isDigitFrom 48 (Nat.digitChar d) = true ∧
    (d ≠ 0 → isDigitFrom 49 (Nat.digitChar d) = true) ∧ Nat.digitChar d ≠ '-' := by
  decide

/-- One more digit after a parsed prefix. -/
theorem string2intLoop_snoc (cs : List Char) (c : Char) : ∀ v w : Nat,
    string2intLoop cs v = some w → isDigitFrom 48 c = true →
    w * 10 + digitVal c ≤ ULLONG_MAX →
    string2intLoop (cs ++ [c]) v = some (w * 10 + digitVal c) := by
  induction cs with
  | nil =>
    intro v w h hc hw
    simp only [string2intLoop, Option.some.injEq] at h
    subst h
    have h1 : ¬ v > ULLONG_MAX / 10 := by unfold ULLONG_MAX at *; omega
    have h2 : ¬ v * 10 > ULLONG_MAX - digitVal c := by unfold ULLONG_MAX at *; omega
    simp [string2intLoop, hc, h1, h2]
  | cons d ds ih =>
    intro v w h hc hw
    simp only [List.cons_append, string2intLoop] at h ⊢
    split at h
    · split at h
      · exact absurd h (by simp)
      · split at h
        · exact absurd h (by simp)
        · rename_i h1 h2 h3
          simp only [h1, h2, h3, if_true, if_false]
          exact ih _ _ h hc hw
    · exact absurd h (by simp)

/-- The decimal rendering of a positive number starts with a digit `1`-`9` and parses back. -/
theorem toDigits_parse (n : Nat) : 0 < n → n ≤ ULLONG_MAX →
    ∃ c cs, Nat.toDigits 10 n = c :: cs ∧ isDigitFrom 49 c = true ∧ c ≠ '-' ∧
      string2intLoop cs (digitVal c) = some n := by
  induction n using Nat.strong_induction_on with
  | _ n ih =>
    intro hpos hmax
    rw [toDigits_rec]
    have hd := digitChar_props (n % 10) (Nat.mod_lt _ (by decide))
    split
    · rename_i h
      have hn : n % 10 = n := by omega
      refine ⟨Nat.digitChar (n % 10), [], rfl, hd.2.2.1 (by omega), hd.2.2.2, ?_⟩
      have h1 := hd.1
      rw [hn] at h1
      simp [string2intLoop, h1, hn]
    · rename_i h
      obtain ⟨c, cs, hcs, hc1, hc2, hp⟩ := ih (n / 10) (by omega) (by omega) (by omega)
      refine ⟨c, cs ++ [Nat.digitChar (n % 10)], by simp [hcs], hc1, hc2, ?_⟩
      have := string2intLoop_snoc cs (Nat.digitChar (n % 10)) (digitVal c) (n / 10) hp hd.2.1
        (by rw [hd.1]; omega)
      rw [this, hd.1]
      congr 1
      omega

theorem string2intUnsigned_toDigits (n : Nat) (hpos : 0 < n) (hmax : n ≤ ULLONG_MAX) :
    string2intUnsigned (Nat.toDigits 10 n) = some n := by
  obtain ⟨c, cs, hcs, hc1, _, hp⟩ := toDigits_parse n hpos hmax
  simp [hcs, string2intUnsigned, hc1, hp]

/-- Round trip: the strict parser reads back every rendered 64-bit integer. -/
theorem string2int_ll2string (v : Int) (h : isInt64 v) : string2int (ll2string v) = some v := by
  unfold isInt64 INT64_MIN INT64_MAX at h
  by_cases hz : v = 0
  · subst hz; decide
  by_cases hneg : v < 0
  · have hpos : 0 < v.natAbs := by omega
    have hmax : v.natAbs ≤ ULLONG_MAX := by unfold ULLONG_MAX; omega
    have hu := string2intUnsigned_toDigits v.natAbs hpos hmax
    obtain ⟨c, cs, hcs, _, _, _⟩ := toDigits_parse v.natAbs hpos hmax
    have hle : ¬ v.natAbs > 9223372036854775808 := by omega
    simp only [ll2string, hneg, if_true, string2int]
    rw [hcs] at hu ⊢
    simp only [hu, hle, if_false]
    congr 1
    simp only [Int.ofNat_eq_coe]
    omega
  · have hpos : 0 < v.natAbs := by omega
    have hmax : v.natAbs ≤ ULLONG_MAX := by unfold ULLONG_MAX; omega
    have hu := string2intUnsigned_toDigits v.natAbs hpos hmax
    obtain ⟨c, cs, hcs, hc1, hc2, hp⟩ := toDigits_parse v.natAbs hpos hmax
    have hle : ¬ v.natAbs > 9223372036854775807 := by omega
    simp only [ll2string, hneg, if_false, string2int]
    rw [hcs] at hu ⊢
    cases cs with
    | nil =>
      have hc0 : c ≠ '0' := by
        intro h0; subst h0; simp [isDigitFrom] at hc1
      simp only [hc0, if_false, hu]
      congr 1
      simp only [Int.ofNat_eq_coe]
      omega
    | cons d ds =>
      split
      · rename_i heq; simp at heq
      · rename_i heq; simp at heq
      · rename_i cs2 heq1 heq2; simp at heq2; exact absurd heq2.1 hc2
      · simp only [hu, hle, if_false]
        congr 1
        simp only [Int.ofNat_eq_coe]
        omega

/-! ## The canonical wire form of short argument vectors -/

theorem encodeArgs_three (a b c : String) :
    encodeArgs [a, b, c] = appendBulk (appendBulk (appendBulk (RedisAppendLen "" 3 "*") a) b) c := by
  unfold encodeArgs Cmd.ToRedisProtocol
  rw [List.foldl_cons, List.foldl_cons, List.foldl_cons, List.foldl_nil,
    show [a, b, c].length = 3 from rfl]
  rfl

theorem encodeArgs_four (a b c d : String) :
    encodeArgs [a, b, c, d]
      = appendBulk (appendBulk (appendBulk (appendBulk (RedisAppendLen "" 4 "*") a) b) c) d := by
  unfold encodeArgs Cmd.ToRedisProtocol
  rw [List.foldl_cons, List.foldl_cons, List.foldl_cons, List.foldl_cons, List.foldl_nil,
    show [a, b, c, d].length = 4 from rfl]
  rfl

/-! ## The rewriting encoders in canonical form -/

theorem SetexCmd_entry (c : SetexCmd) (now : Int) :
    c.ToRedisProtocol now
      = encodeArgs ["pksetexat", c.key_, ll2string (toInt32 (add64 now c.sec_)), c.value_] := by
  rw [encodeArgs_four]
  unfold SetexCmd.ToRedisProtocol appendBulk
  rfl

theorem PsetexCmd_entry (c : PsetexCmd) (now : Int) :
    c.ToRedisProtocol now
      = encodeArgs ["pksetexat", c.key_, ll2string (toInt32 (add64 now (Int.tdiv c.usec_ 1000))),
          c.value_] := by
  rw [encodeArgs_four]
  unfold PsetexCmd.ToRedisProtocol appendBulk
  rfl

theorem SetCmd_entry_EXORPX (c : SetCmd) (now : Int) (h : c.condition_ = SetCondition.kEXORPX) :
    c.ToRedisProtocol now
      = encodeArgs ["pksetexat", c.key_, ll2string (toInt32 (add64 now c.sec_)), c.value_] := by
  rw [encodeArgs_four]
  unfold SetCmd.ToRedisProtocol appendBulk
  rw [if_pos h]

theorem ExpireCmd_entry (c : ExpireCmd) (now : Int) :
    c.ToRedisProtocol now = encodeArgs ["expireat", c.key_, ll2string (add64 now c.sec_)] := by
  rw [encodeArgs_three]
  unfold ExpireCmd.ToRedisProtocol appendBulk
  rfl

theorem PexpireCmd_entry (c : PexpireCmd) (now : Int) (h : c.argv_.length = 3) :
    c.ToRedisProtocol now
      = encodeArgs ["expireat", c.key_, ll2string (add64 now (Int.tdiv c.msec_ 1000))] := by
  rw [encodeArgs_three]
  unfold PexpireCmd.ToRedisProtocol appendBulk
  rw [h]
  rfl

theorem PexpireatCmd_entry (c : PexpireatCmd) (now : Int) (h : c.argv_.length = 3) :
    c.ToRedisProtocol now
      = encodeArgs ["expireat", c.key_, ll2string (Int.tdiv c.time_stamp_ms_ 1000)] := by
  rw [encodeArgs_three]
  unfold PexpireatCmd.ToRedisProtocol appendBulk
  rw [h]
  rfl

/-! ## Parsing of the fixed-arity commands -/

theorem ExpireCmd_Initial (name key num : String) (v : Int) (hv : string2int num = some v) :
    ExpireCmd.init.Initial [name, key, num]
      = { argv_ := [name, key, num], res_ := CmdRes.clear, key_ := key, sec_ := v } := by
  have hc : CheckArg kExpireArity [name, key, num].length = true := by
    show CheckArg _ 3 = true
    decide
  simp only [ExpireCmd.Initial, ExpireCmd.DoInitial, ExpireCmd.init, hc, argAt, List.getD_cons_succ,
    List.getD_cons_zero, hv, Bool.not_true, Bool.false_eq_true, if_false]

theorem PexpireCmd_Initial (name key num : String) (v : Int) (hv : string2int num = some v) :
    PexpireCmd.init.Initial [name, key, num]
      = { argv_ := [name, key, num], res_ := CmdRes.clear, key_ := key, msec_ := v } := by
  have hc : CheckArg kPexpireArity [name, key, num].length = true := by
    show CheckArg _ 3 = true
    decide
  simp only [PexpireCmd.Initial, PexpireCmd.DoInitial, PexpireCmd.init, hc, argAt, List.getD_cons_succ,
    List.getD_cons_zero, hv, Bool.not_true, Bool.false_eq_true, if_false]

theorem PexpireatCmd_Initial (name key num : String) (v : Int) (hv : string2int num = some v) :
    PexpireatCmd.init.Initial [name, key, num]
      = { argv_ := [name, key, num], res_ := CmdRes.clear, key_ := key, time_stamp_ms_ := v } := by
  have hc : CheckArg kPexpireatArity [name, key, num].length = true := by
    show CheckArg _ 3 = true
    decide
  simp only [PexpireatCmd.Initial, PexpireatCmd.DoInitial, PexpireatCmd.init, hc, argAt,
    List.getD_cons_succ, List.getD_cons_zero, hv, Bool.not_true, Bool.false_eq_true, if_false]

theorem SetexCmd_Initial (name key num value : String) (v : Int) (hv : string2int num = some v) :
    SetexCmd.init.Initial [name, key, num, value]
      = { argv_ := [name, key, num, value], res_ := CmdRes.clear, key_ := key, sec_ := v,
          value_ := value } := by
  have hc : CheckArg kSetexArity [name, key, num, value].length = true := by
    show CheckArg _ 4 = true
    decide
  simp only [SetexCmd.Initial, SetexCmd.DoInitial, SetexCmd.init, hc, argAt, List.getD_cons_succ,
    List.getD_cons_zero, hv, Bool.not_true, Bool.false_eq_true, if_false]

theorem PsetexCmd_Initial (name key num value : String) (v : Int) (hv : string2int num = some v) :
    PsetexCmd.init.Initial [name, key, num, value]
      = { argv_ := [name, key, num, value], res_ := CmdRes.clear, key_ := key, usec_ := v,
          value_ := value } := by
  have hc : CheckArg kPsetexArity [name, key, num, value].length = true := by
    show CheckArg _ 4 = true
    decide
  simp only [PsetexCmd.Initial, PsetexCmd.DoInitial, PsetexCmd.init, hc, argAt, List.getD_cons_succ,
    List.getD_cons_zero, hv, Bool.not_true, Bool.false_eq_true, if_false]

/-! ## Option parsing of SET -/

theorem SetRes_not_ok (r : CmdRes) (ret : CmdRet) (msg : String)
    (h : ret ≠ CmdRet.kOk ∧ ret ≠ CmdRet.kNone) : (r.SetRes ret msg).ok = false := by
  cases ret <;> simp_all [CmdRes.SetRes, CmdRes.ok]

/-- A successful parse of options free of `NX`, `XX`, `VX` consumes `EX n` / `PX n` groups only:
it keeps the key, the value and the argument vector, leaves the mode at `kEXORPX`
(when started at `kNONE` with at least one option, or at `kEXORPX`), and a non-empty
option list has at least two tokens. -/
theorem parseOptions_expiring (n : Nat) : ∀ (opts : List String) (c : SetCmd),
    opts.length ≤ n →
    (SetCmd.parseOptions opts c).res_.ok = true →
    (∀ t ∈ opts, isCondToken t = false) →
    (c.condition_ = SetCondition.kNONE ∨ c.condition_ = SetCondition.kEXORPX) →
    (opts ≠ [] ∨ c.condition_ = SetCondition.kEXORPX) →
    (SetCmd.parseOptions opts c).condition_ = SetCondition.kEXORPX ∧
    (SetCmd.parseOptions opts c).key_ = c.key_ ∧
    (SetCmd.parseOptions opts c).value_ = c.value_ ∧
    (SetCmd.parseOptions opts c).argv_ = c.argv_ ∧
    (opts ≠ [] → 2 ≤ opts.length) := by
  induction n with
  | zero =>
    intro opts c hlen hok hnc hc hne
    have : opts = [] := List.length_eq_zero.mp (by omega)
    subst this
    rcases hne with h | h
    · exact absurd rfl h
    · simp [SetCmd.parseOptions, h]
  | succ n ih =>
    intro opts c hlen hok hnc hc hne
    match opts, hlen, hok, hnc, hne with
    | [], _, _, _, hne =>
      rcases hne with h | h
      · exact absurd rfl h
      · simp [SetCmd.parseOptions, h]
    | opt :: rest, hlen, hok, hnc, _ =>
      have hopt := hnc opt (List.mem_cons_self _ _)
      simp only [isCondToken, Bool.or_eq_false_iff] at hopt
      obtain ⟨⟨hxx, hnx⟩, hvx⟩ := hopt
      unfold SetCmd.parseOptions at hok ⊢
      simp only [hxx, hnx, hvx, Bool.false_eq_true, if_false] at hok ⊢
      split at hok
      · rename_i hex
        simp only [hex, if_true]
        match rest, hlen, hok, hnc with
        | [], _, hok, _ =>
          simp only at hok
          rw [SetRes_not_ok _ _ _ (by decide)] at hok
          exact absurd hok (by decide)
        | num :: rest2, hlen, hok, hnc =>
          simp only at hok ⊢
          cases hnum : string2int num with
          | none =>
            simp only [hnum] at hok
            rw [SetRes_not_ok _ _ _ (by decide)] at hok
            exact absurd hok (by decide)
          | some v =>
            simp only [hnum] at hok ⊢
            have hcond : (if c.condition_ = SetCondition.kNONE then SetCondition.kEXORPX
                else c.condition_) = SetCondition.kEXORPX := by
              rcases hc with h | h <;> simp [h]
            have := ih rest2 _ (by simp at hlen; omega) hok
              (fun t ht => hnc t (List.mem_cons_of_mem _ (List.mem_cons_of_mem _ ht)))
              (Or.inr hcond) (Or.inr hcond)
            refine ⟨this.1, this.2.1, this.2.2.1, this.2.2.2.1, ?_⟩
            intro _
            simp
      · rw [SetRes_not_ok _ _ _ (by decide)] at hok
        exact absurd hok (by decide)


/-! ## Headers of wire forms -/

theorem toDigits_ne_nil (n : Nat) : Nat.toDigits 10 n ≠ [] := by
  rw [toDigits_rec]
  split <;> simp

theorem toDigits_isDigit (n : Nat) : ∀ c ∈ Nat.toDigits 10 n, isDigitFrom 48 c = true := by
  induction n using Nat.strong_induction_on with
  | _ n ih =>
    have hd := digitChar_props (n % 10) (Nat.mod_lt _ (by decide))
    rw [toDigits_rec]
    split
    · intro c hc
      simp only [List.mem_singleton] at hc
      subst hc
      exact hd.2.1
    · intro c hc
      simp only [List.mem_append, List.mem_singleton] at hc
      rcases hc with hc | hc
      · exact ih (n / 10) (by omega) c hc
      · subst hc
        exact hd.2.1

/-- The decimal rendering of a number other than 4 followed by a line terminator is not
the text `4` followed by a line terminator. -/
theorem toDigits_header_ne_four (m : Nat) (hm : m ≠ 4) (X Y : List Char) :
    Nat.toDigits 10 m ++ '\r' :: X ≠ '4' :: '\r' :: Y := by
  intro h
  rw [toDigits_rec] at h
  split at h
  · rename_i h10
    simp only [List.singleton_append, List.cons.injEq] at h
    have : ∀ d : Nat, d < 10 → Nat.digitChar d = '4' → d = 4 := by decide
    have h4 := this (m % 10) (Nat.mod_lt _ (by decide)) h.1
    omega
  · have hne := toDigits_ne_nil (m / 10)
    cases hL : Nat.toDigits 10 (m / 10) with
    | nil => exact hne hL
    | cons c cs =>
      rw [hL] at h
      have hd := digitChar_props (m % 10) (Nat.mod_lt _ (by decide))
      cases cs with
      | nil =>
        simp only [List.cons_append, List.nil_append, List.cons.injEq] at h
        have h2 := hd.2.1
        rw [h.2.1] at h2
        exact absurd h2 (by decide)
      | cons c2 cs2 =>
        simp only [List.cons_append, List.cons.injEq] at h
        have h2 := toDigits_isDigit (m / 10) c2 (by rw [hL]; simp)
        rw [h.2.1] at h2
        exact absurd h2 (by decide)

theorem ll2string_ofNat_data (m : Nat) : (ll2string (Int.ofNat m)).data = Nat.toDigits 10 m := by
  have h : ¬ ((m : Int) < 0) := by omega
  simp only [ll2string, Int.ofNat_eq_coe, h, if_false, Int.natAbs_ofNat]

theorem appendBulk_data (s a : String) : ∃ X, (appendBulk s a).data = s.data ++ X := by
  refine ⟨("$" ++ ll2string (Int.ofNat a.utf8ByteSize) ++ kNewLine ++ a ++ kNewLine).data, ?_⟩
  simp only [appendBulk, RedisAppendContent, RedisAppendLenUint64, RedisAppendLen, String.data_append,
    List.append_assoc]

theorem foldl_appendBulk_data (l : List String) : ∀ s : String,
    ∃ X, (l.foldl appendBulk s).data = s.data ++ X := by
  induction l with
  | nil => intro s; exact ⟨[], by simp⟩
  | cons a l ih =>
    intro s
    obtain ⟨X, hX⟩ := ih (appendBulk s a)
    obtain ⟨Y, hY⟩ := appendBulk_data s a
    exact ⟨Y ++ X, by rw [List.foldl_cons, hX, hY, List.append_assoc]⟩

theorem header_data (m : Nat) :
    (RedisAppendLenUint64 "" m "*").data = '*' :: (Nat.toDigits 10 m ++ ['\r', '\n']) := by
  simp only [RedisAppendLenUint64, RedisAppendLen, String.data_append, ll2string_ofNat_data]
  rfl

/-- A four-element entry is never the verbatim form of an argument vector of another length. -/
theorem encodeArgs_four_ne_verbatim (a b c d : String) (argv : List String) (h : argv.length ≠ 4) :
    encodeArgs [a, b, c, d] ≠ Cmd.ToRedisProtocol argv := by
  intro heq
  have hd := congrArg String.data heq
  unfold encodeArgs Cmd.ToRedisProtocol at hd
  obtain ⟨X, hX⟩ := foldl_appendBulk_data [a, b, c, d] (RedisAppendLenUint64 "" [a, b, c, d].length "*")
  obtain ⟨Y, hY⟩ := foldl_appendBulk_data argv (RedisAppendLenUint64 "" argv.length "*")
  rw [hX, hY, header_data, header_data, show [a, b, c, d].length = 4 from rfl,
    show Nat.toDigits 10 4 = ['4'] from by decide] at hd
  simp only [List.cons_append, List.nil_append, List.cons.injEq, true_and, List.append_assoc] at hd
  exact toDigits_header_ne_four argv.length h _ _ hd.symm

/-! ## Replication entries of the time-relative commands -/

/-- C1 (as stated) fails: `SET k v nx ex 10` parses successfully and contains an EX option,
yet its replication entry is the original argument vector verbatim, relative time
included, and not the absolute-time entry `[pksetexat, k, now + 10, v]`. -/
theorem SetCmd_nx_ex_entry_is_verbatim :
    (SetCmd.init.Initial ["set", "k", "v", "nx", "ex", "10"]).res_.ok = true ∧
    (∃ t ∈ ["set", "k", "v", "nx", "ex", "10"].drop 3, isExPxToken t = true) ∧
    (SetCmd.init.Initial ["set", "k", "v", "nx", "ex", "10"]).ToRedisProtocol 1700000000
      = Cmd.ToRedisProtocol ["set", "k", "v", "nx", "ex", "10"] ∧
    (SetCmd.init.Initial ["set", "k", "v", "nx", "ex", "10"]).ToRedisProtocol 1700000000
      ≠ encodeArgs ["pksetexat", "k", ll2string (1700000000 + 10), "v"] := by
  decide

/-- C1 (amended): for every SET argument vector that parses successfully, contains an EX or
PX option and no NX, XX or VX token among its options, `SetCmd::ToRedisProtocol`
produces the absolute-time entry `[pksetexat, key, ts, value]`, where `ts` is
`now + sec_` converted to `int32_t` (equal to `now + sec_` when that sum is in the
32-bit range), and this entry is not the original argument vector verbatim. -/
theorem SetCmd_expiring_entry (argv : List String) (now : Int)
    (hok : (SetCmd.init.Initial argv).res_.ok = true)
    (hex : ∃ t ∈ argv.drop 3, isExPxToken t = true)
    (hnc : ∀ t ∈ argv.drop 3, isCondToken t = false) :
    (SetCmd.init.Initial argv).ToRedisProtocol now
      = encodeArgs ["pksetexat", argAt argv 1,
          ll2string (toInt32 (add64 now (SetCmd.init.Initial argv).sec_)), argAt argv 2] ∧
    (isInt32 (now + (SetCmd.init.Initial argv).sec_) →
      toInt32 (add64 now (SetCmd.init.Initial argv).sec_) = now + (SetCmd.init.Initial argv).sec_) ∧
    (SetCmd.init.Initial argv).ToRedisProtocol now ≠ Cmd.ToRedisProtocol argv := by
  have hne : argv.drop 3 ≠ [] := by
    obtain ⟨t, ht, _⟩ := hex
    exact List.ne_nil_of_mem ht
  unfold SetCmd.Initial SetCmd.DoInitial at hok ⊢
  by_cases hc : CheckArg kSetArity argv.length = true
  · simp only [hc, Bool.not_true, Bool.false_eq_true, if_false] at hok ⊢
    have hp := parseOptions_expiring (argv.drop 3).length (argv.drop 3) _ (Nat.le_refl _) hok hnc
      (Or.inl rfl) (Or.inl hne)
    obtain ⟨hcond, hkey, hval, hargv, hlen⟩ := hp
    have hentry := SetCmd_entry_EXORPX _ now hcond
    rw [hkey, hval] at hentry
    refine ⟨hentry, ?_, ?_⟩
    · intro h32
      rw [toInt32_add64, toInt32_of_isInt32 _ h32]
    · rw [hentry]
      apply encodeArgs_four_ne_verbatim
      have := hlen hne
      simp only [List.length_drop] at this
      omega
  · simp only [hc, Bool.not_false, if_true] at hok
    rw [SetRes_not_ok _ _ _ (by decide)] at hok
    exact absurd hok (by decide)

/-- Witness for C1: `SET k v EX 10` encoded at `now = 1700000000`. -/
theorem SetCmd_expiring_entry_witness :
    ((SetCmd.init.Initial ["set", "k", "v", "EX", "10"]).res_.ok = true ∧
      (∃ t ∈ ["set", "k", "v", "EX", "10"].drop 3, isExPxToken t = true) ∧
      (∀ t ∈ ["set", "k", "v", "EX", "10"].drop 3, isCondToken t = false)) ∧
    (SetCmd.init.Initial ["set", "k", "v", "EX", "10"]).ToRedisProtocol 1700000000
      = encodeArgs ["pksetexat", "k", "1700000010", "v"] :=
  ⟨by decide, (SetCmd_expiring_entry ["set", "k", "v", "EX", "10"] 1700000000 (by decide)
    (by decide) (by decide)).1⟩

/-- The EX and PX tokens are not conditional tokens, and they differ from each other. -/
theorem exPx_not_cond (opt : String) :
    (strcasecmpEq opt "ex" = true → isCondToken opt = false ∧ strcasecmpEq opt "px" = false) ∧
    (strcasecmpEq opt "px" = true → isCondToken opt = false ∧ strcasecmpEq opt "ex" = false) := by
  unfold isCondToken strcasecmpEq
  constructor
  · intro h
    simp only [beq_iff_eq] at h
    rw [h]
    decide
  · intro h
    simp only [beq_iff_eq] at h
    rw [h]
    decide

/-- Parsing `SET key value <EX|PX> num`. -/
theorem SetCmd_Initial_expiring (name key value opt num : String) (v : Int)
    (hv : string2int num = some v) (hopt : isExPxToken opt = true) :
    SetCmd.init.Initial [name, key, value, opt, num]
      = { argv_ := [name, key, value, opt, num], res_ := CmdRes.clear, key_ := key,
          value_ := value, target_ := "", success_ := 0,
          sec_ := if strcasecmpEq opt "px" = true then Int.tdiv v 1000 else v,
          condition_ := SetCondition.kEXORPX } := by
  have hnc : isCondToken opt = false := by
    unfold isExPxToken at hopt
    rcases Bool.or_eq_true_iff.mp hopt with h | h
    · exact ((exPx_not_cond opt).1 h).1
    · exact ((exPx_not_cond opt).2 h).1
  simp only [isCondToken, Bool.or_eq_false_iff] at hnc
  obtain ⟨⟨hxx, hnx⟩, hvx⟩ := hnc
  unfold isExPxToken at hopt
  have hc : CheckArg kSetArity [name, key, value, opt, num].length = true := by
    show CheckArg _ 5 = true
    decide
  simp only [SetCmd.Initial, SetCmd.DoInitial, SetCmd.init, hc, argAt, List.getD_cons_succ,
    List.getD_cons_zero, Bool.not_true, Bool.false_eq_true, if_false, List.drop_succ_cons,
    List.drop_zero, SetCmd.parseOptions, hxx, hnx, hvx, hopt, if_true, hv]

/-- C3 (as stated) fails: for `SETEX k 1000000000 v` encoded at `now = 1700000000` the
timestamp field of the pksetexat entry is `-1594967296`, the sum `2700000000` after
its conversion to a 32-bit integer, and not the decimal rendering of `now + sec_`. -/
theorem SetexCmd_timestamp_wraps :
    string2int "1000000000" = some 1000000000 ∧
    (SetexCmd.init.Initial ["setex", "k", "1000000000", "v"]).ToRedisProtocol 1700000000
      = encodeArgs ["pksetexat", "k", "-1594967296", "v"] ∧
    (SetexCmd.init.Initial ["setex", "k", "1000000000", "v"]).ToRedisProtocol 1700000000
      ≠ encodeArgs ["pksetexat", "k", ll2string (1700000000 + 1000000000), "v"] := by
  decide

/-- C3 (amended): for every relative time and clock value whose sum `now + sec_` lies in the
signed 32-bit range, the timestamp field of the pksetexat entry produced for SETEX and
for SET with EX is the decimal rendering of `now + sec_`; likewise for PSETEX and for
SET with PX when `now + usec_ / 1000` (truncating division) lies in that range. -/
theorem pksetexat_timestamp_in_range (setex psetex set key value numS numP optE optP : String)
    (sec usec now : Int)
    (hS : string2int numS = some sec) (hP : string2int numP = some usec)
    (hE : strcasecmpEq optE "ex" = true) (hX : strcasecmpEq optP "px" = true)
    (h32 : isInt32 (now + sec)) (h32p : isInt32 (now + Int.tdiv usec 1000)) :
    (SetexCmd.init.Initial [setex, key, numS, value]).ToRedisProtocol now
      = encodeArgs ["pksetexat", key, ll2string (now + sec), value] ∧
    (SetCmd.init.Initial [set, key, value, optE, numS]).ToRedisProtocol now
      = encodeArgs ["pksetexat", key, ll2string (now + sec), value] ∧
    (PsetexCmd.init.Initial [psetex, key, numP, value]).ToRedisProtocol now
      = encodeArgs ["pksetexat", key, ll2string (now + Int.tdiv usec 1000), value] ∧
    (SetCmd.init.Initial [set, key, value, optP, numP]).ToRedisProtocol now
      = encodeArgs ["pksetexat", key, ll2string (now + Int.tdiv usec 1000), value] := by
  refine ⟨?_, ?_, ?_, ?_⟩
  · rw [SetexCmd_Initial setex key numS value sec hS, SetexCmd_entry, toInt32_add64,
      toInt32_of_isInt32 _ h32]
  · rw [SetCmd_Initial_expiring set key value optE numS sec hS (by simp [isExPxToken, hE]),
      SetCmd_entry_EXORPX _ _ rfl]
    simp only [((exPx_not_cond optE).1 hE).2, Bool.false_eq_true, if_false]
    rw [toInt32_add64, toInt32_of_isInt32 _ h32]
  · rw [PsetexCmd_Initial psetex key numP value usec hP, PsetexCmd_entry, toInt32_add64,
      toInt32_of_isInt32 _ h32p]
  · rw [SetCmd_Initial_expiring set key value optP numP usec hP (by simp [isExPxToken, hX]),
      SetCmd_entry_EXORPX _ _ rfl]
    simp only [hX, if_true]
    rw [toInt32_add64, toInt32_of_isInt32 _ h32p]

/-- Witness for C3: ten seconds and 2500 milliseconds at `now = 1700000000`. -/
theorem pksetexat_timestamp_in_range_witness :
    (string2int "10" = some 10 ∧ string2int "2500" = some 2500 ∧
      strcasecmpEq "EX" "ex" = true ∧ strcasecmpEq "px" "px" = true ∧
      isInt32 (1700000000 + 10) ∧ isInt32 (1700000000 + Int.tdiv 2500 1000)) ∧
    ((SetexCmd.init.Initial ["setex", "k", "10", "v"]).ToRedisProtocol 1700000000
      = encodeArgs ["pksetexat", "k", "1700000010", "v"] ∧
    (SetCmd.init.Initial ["set", "k", "v", "EX", "10"]).ToRedisProtocol 1700000000
      = encodeArgs ["pksetexat", "k", "1700000010", "v"] ∧
    (PsetexCmd.init.Initial ["psetex", "k", "2500", "v"]).ToRedisProtocol 1700000000
      = encodeArgs ["pksetexat", "k", "1700000002", "v"] ∧
    (SetCmd.init.Initial ["set", "k", "v", "px", "2500"]).ToRedisProtocol 1700000000
      = encodeArgs ["pksetexat", "k", "1700000002", "v"]) :=
  ⟨by decide, pksetexat_timestamp_in_range "setex" "psetex" "set" "k" "v" "10" "2500" "EX" "px" 10 2500
    1700000000
    (by decide) (by decide) (by decide) (by decide) (by decide) (by decide)⟩

/-- C4 (as stated) fails: `SETEX k 447483647 v` encoded at `now = 1700000000` produces the
entry `[pksetexat, k, 2147483647, v]`, and `PKSetexAtCmd::DoInitial` rejects that
argument vector with InvalidInteger. -/
theorem SetexCmd_entry_rejected_on_replay :
    (SetexCmd.init.Initial ["setex", "k", "447483647", "v"]).res_.ok = true ∧
    (SetexCmd.init.Initial ["setex", "k", "447483647", "v"]).ToRedisProtocol 1700000000
      = encodeArgs ["pksetexat", "k", "2147483647", "v"] ∧
    (PKSetexAtCmd.init.Initial ["pksetexat", "k", "2147483647", "v"]).res_.ret_
      = CmdRet.kInvalidInt := by
  decide

/-- C4 (amended): replay round trip. For every key, value, relative time and clock value
with `INT32_MIN ≤ now + sec_ < INT32_MAX`, the entry produced by
`SetexCmd::ToRedisProtocol` is the wire form of `[pksetexat, key, timestamp, value]`,
and `PKSetexAtCmd::DoInitial` accepts that argument vector (no error) and yields the
same key, the same value and the timestamp `now + sec_`. -/
theorem SetexCmd_replay_roundtrip (name key num value : String) (sec now : Int)
    (hS : string2int num = some sec)
    (hlo : INT32_MIN ≤ now + sec) (hhi : now + sec < INT32_MAX) :
    (SetexCmd.init.Initial [name, key, num, value]).ToRedisProtocol now
      = encodeArgs ["pksetexat", key, ll2string (now + sec), value] ∧
    PKSetexAtCmd.init.Initial ["pksetexat", key, ll2string (now + sec), value]
      = { argv_ := ["pksetexat", key, ll2string (now + sec), value], res_ := CmdRes.clear,
          key_ := key, value_ := value, time_stamp_ := now + sec } := by
  have h32 : isInt32 (now + sec) := ⟨hlo, by omega⟩
  have h64 : isInt64 (now + sec) := by
    unfold INT32_MIN INT32_MAX at *
    unfold isInt64 INT64_MIN INT64_MAX
    omega
  constructor
  · rw [SetexCmd_Initial name key num value sec hS, SetexCmd_entry, toInt32_add64,
      toInt32_of_isInt32 _ h32]
  · have hc : CheckArg kPKSetexAtArity ["pksetexat", key, ll2string (now + sec), value].length
        = true := by
      show CheckArg _ 4 = true
      decide
    have hge : ¬ (now + sec ≥ INT32_MAX) := by omega
    simp only [PKSetexAtCmd.Initial, PKSetexAtCmd.DoInitial, PKSetexAtCmd.init, hc, argAt,
      List.getD_cons_succ, List.getD_cons_zero, Bool.not_true, Bool.false_eq_true, if_false,
      string2int_ll2string _ h64, hge]

/-- Witness for C4: `SETEX k 10 v` encoded at `now = 1700000000` and replayed. -/
theorem SetexCmd_replay_roundtrip_witness :
    (string2int "10" = some 10 ∧ INT32_MIN ≤ 1700000000 + 10 ∧ 1700000000 + 10 < INT32_MAX) ∧
    ((SetexCmd.init.Initial ["setex", "k", "10", "v"]).ToRedisProtocol 1700000000
      = encodeArgs ["pksetexat", "k", "1700000010", "v"] ∧
    PKSetexAtCmd.init.Initial ["pksetexat", "k", "1700000010", "v"]
      = { argv_ := ["pksetexat", "k", "1700000010", "v"], res_ := CmdRes.clear,
          key_ := "k", value_ := "v", time_stamp_ := 1700000010 }) :=
  ⟨by decide, SetexCmd_replay_roundtrip "setex" "k" "10" "v" 10 1700000000 (by decide) (by decide)
    (by decide)⟩

/-! ## Replication entries of MSET and MSETNX -/

theorem collectPairs_flattenPairs (kvs : List KeyValue) : collectPairs (flattenPairs kvs) = kvs := by
  induction kvs with
  | nil => rfl
  | cons kv rest ih => simp only [flattenPairs, collectPairs, ih]

theorem flattenPairs_length (kvs : List KeyValue) : (flattenPairs kvs).length = 2 * kvs.length := by
  induction kvs with
  | nil => rfl
  | cons kv rest ih => simp only [flattenPairs, List.length_cons, ih]; omega

/-- The embedded `set_cmd_` parses `set key value` without options, whatever it held before,
and its replication entry is that argument vector verbatim. -/
theorem SetCmd_Initial_plain (sc : SetCmd) (k v : String) (now : Int) (log : List String) :
    (sc.Initial ["set", k, v]).DoBinlog now log = log ++ [encodeArgs ["set", k, v]] := by
  have hc : CheckArg kSetArity ["set", k, v].length = true := by
    show CheckArg _ 3 = true
    decide
  have hI : sc.Initial ["set", k, v]
      = { sc with argv_ := ["set", k, v], res_ := CmdRes.clear, key_ := k, value_ := v,
                  condition_ := SetCondition.kNONE, sec_ := 0 } := by
    simp only [SetCmd.Initial, SetCmd.DoInitial, hc, argAt, List.getD_cons_succ,
      List.getD_cons_zero, Bool.not_true, Bool.false_eq_true, if_false, List.drop_succ_cons,
      List.drop_zero, SetCmd.parseOptions]
  rw [hI]
  simp only [SetCmd.DoBinlog, SetCmd.ToRedisProtocol, encodeArgs]
  have hok : CmdRes.clear.ok = true := by decide
  simp [hok]

theorem binlogPairs_log (now : Int) (kvs : List KeyValue) : ∀ (sc : SetCmd) (log : List String),
    (binlogPairs now kvs sc log).2
      = log ++ kvs.map (fun kv => encodeArgs ["set", kv.key, kv.value]) := by
  induction kvs with
  | nil => intro sc log; simp [binlogPairs]
  | cons kv rest ih =>
    intro sc log
    have := ih (sc.Initial ["set", kv.key, kv.value]) (log ++ [encodeArgs ["set", kv.key, kv.value]])
    unfold binlogPairs at this ⊢
    rw [List.foldl_cons]
    simp only [SetCmd_Initial_plain] at this ⊢
    rw [this]
    simp

theorem MsetCmd_Initial_pairs (name : String) (kvs : List KeyValue) (hne : kvs ≠ []) :
    MsetCmd.init.Initial (name :: flattenPairs kvs)
      = { argv_ := name :: flattenPairs kvs, res_ := CmdRes.clear, kvs_ := kvs,
          set_cmd_ := SetCmd.init } := by
  have hlen : (name :: flattenPairs kvs).length = 2 * kvs.length + 1 := by
    simp [flattenPairs_length]
  have hpos : 0 < kvs.length := List.length_pos.mpr hne
  have hc : CheckArg kMsetArity (name :: flattenPairs kvs).length = true := by
    rw [hlen]
    simp only [CheckArg, kMsetArity]
    simp
    omega
  have hodd : ((name :: flattenPairs kvs).length % 2 == 0) = false := by
    rw [hlen]
    simp only [beq_eq_false_iff_ne, ne_eq]
    omega
  simp only [MsetCmd.Initial, MsetCmd.DoInitial, MsetCmd.init, hc, hodd, Bool.not_true,
    Bool.false_eq_true, if_false, List.drop_succ_cons, List.drop_zero, collectPairs_flattenPairs]

theorem MsetnxCmd_Initial_pairs (name : String) (kvs : List KeyValue) (hne : kvs ≠ []) :
    MsetnxCmd.init.Initial (name :: flattenPairs kvs)
      = { argv_ := name :: flattenPairs kvs, res_ := CmdRes.clear, kvs_ := kvs, success_ := 0,
          set_cmd_ := SetCmd.init } := by
  have hlen : (name :: flattenPairs kvs).length = 2 * kvs.length + 1 := by
    simp [flattenPairs_length]
  have hpos : 0 < kvs.length := List.length_pos.mpr hne
  have hc : CheckArg kMsetnxArity (name :: flattenPairs kvs).length = true := by
    rw [hlen]
    simp only [CheckArg, kMsetnxArity]
    simp
    omega
  have hodd : ((name :: flattenPairs kvs).length % 2 == 0) = false := by
    rw [hlen]
    simp only [beq_eq_false_iff_ne, ne_eq]
    omega
  simp only [MsetnxCmd.Initial, MsetnxCmd.DoInitial, MsetnxCmd.init, hc, hodd, Bool.not_true,
    Bool.false_eq_true, if_false, List.drop_succ_cons, List.drop_zero, collectPairs_flattenPairs]

/-- C5: for every MSET with n key/value pairs, `DoBinlog` emits exactly n replication
entries, and the i-th entry is the single-key command `[set, key_i, value_i]`, in the
order of the pairs in the request. -/
theorem MsetCmd_DoBinlog_entries (name : String) (kvs : List KeyValue) (now : Int)
    (log : List String) (hne : kvs ≠ []) :
    (MsetCmd.init.Initial (name :: flattenPairs kvs)).res_.ok = true ∧
    (MsetCmd.init.Initial (name :: flattenPairs kvs)).kvs_ = kvs ∧
    ((MsetCmd.init.Initial (name :: flattenPairs kvs)).DoBinlog now log).2
      = log ++ kvs.map (fun kv => encodeArgs ["set", kv.key, kv.value]) ∧
    ((MsetCmd.init.Initial (name :: flattenPairs kvs)).DoBinlog now log).2.length
      = log.length + kvs.length := by
  rw [MsetCmd_Initial_pairs name kvs hne]
  refine ⟨rfl, rfl, ?_, ?_⟩
  · simp only [MsetCmd.DoBinlog, binlogPairs_log]
  · simp only [MsetCmd.DoBinlog, binlogPairs_log, List.length_append, List.length_map]

/-- Witness for C5: `MSET a 1 b 2` logs `set a 1` and `set b 2`. -/
theorem MsetCmd_DoBinlog_entries_witness :
    [KeyValue.mk "a" "1", KeyValue.mk "b" "2"] ≠ [] ∧
    ((MsetCmd.init.Initial ["mset", "a", "1", "b", "2"]).DoBinlog 1700000000 []).2
      = [encodeArgs ["set", "a", "1"], encodeArgs ["set", "b", "2"]] :=
  ⟨by decide, (MsetCmd_DoBinlog_entries "mset" [KeyValue.mk "a" "1", KeyValue.mk "b" "2"]
    1700000000 [] (by decide)).2.2.1⟩

/-- C6: for every MSETNX, after `Do` on an engine `MSetnx` that reported through `success_`
that the pairs were not written (0), `DoBinlog` emits no replication entry; when it
reported that they were written (non-zero, in particular 1), `DoBinlog` emits exactly
one `[set, key, value]` entry per pair, in the order of the request. -/
theorem MsetnxCmd_DoBinlog_entries (name : String) (kvs : List KeyValue) (now : Int)
    (log index : List String) (msetnx : List KeyValue → Status × Int) (hne : kvs ≠ []) :
    ((((MsetnxCmd.init.Initial (name :: flattenPairs kvs)).Do msetnx index).1).DoBinlog now log).2
      = if (msetnx kvs).2 = 0 then log
        else log ++ kvs.map (fun kv => encodeArgs ["set", kv.key, kv.value]) := by
  rw [MsetnxCmd_Initial_pairs name kvs hne]
  by_cases hs : (msetnx kvs).2 = 0
  · by_cases hok : (msetnx kvs).1.ok = true
    · simp [MsetnxCmd.Do, MsetnxCmd.DoBinlog, hs, hok]
    · simp [MsetnxCmd.Do, MsetnxCmd.DoBinlog, hs, hok]
  · by_cases hok : (msetnx kvs).1.ok = true
    · simp [MsetnxCmd.Do, MsetnxCmd.DoBinlog, hs, hok, binlogPairs_log]
    · simp [MsetnxCmd.Do, MsetnxCmd.DoBinlog, hs, hok, binlogPairs_log]

/-- Witness for C6: `MSETNX a 1 b 2`, not applied and applied. -/
theorem MsetnxCmd_DoBinlog_entries_witness :
    [KeyValue.mk "a" "1", KeyValue.mk "b" "2"] ≠ [] ∧
    ((((MsetnxCmd.init.Initial ["msetnx", "a", "1", "b", "2"]).Do
        (fun _ => (Status.OK, 0)) []).1).DoBinlog 1700000000 []).2 = [] ∧
    ((((MsetnxCmd.init.Initial ["msetnx", "a", "1", "b", "2"]).Do
        (fun _ => (Status.OK, 1)) []).1).DoBinlog 1700000000 []).2
      = [encodeArgs ["set", "a", "1"], encodeArgs ["set", "b", "2"]] :=
  ⟨by decide,
   MsetnxCmd_DoBinlog_entries "msetnx" [KeyValue.mk "a" "1", KeyValue.mk "b" "2"] 1700000000 [] []
     (fun _ => (Status.OK, 0)) (by decide),
   MsetnxCmd_DoBinlog_entries "msetnx" [KeyValue.mk "a" "1", KeyValue.mk "b" "2"] 1700000000 [] []
     (fun _ => (Status.OK, 1)) (by decide)⟩

/-- C7 (the code at the failing input): `MSETNX a 1 b 2` on a slot where `a` exists and `b`
is not live anywhere; the engine reports status OK with `success_ = 0` (nothing
written). `MsetnxCmd::Do` replies `:0` and still adds both keys to the Secondary Key
Index, so `b` is in the index afterwards. -/
theorem MsetnxCmd_Do_indexes_unapplied_keys :
    ((MsetnxCmd.init.Initial ["msetnx", "a", "1", "b", "2"]).Do (fun _ => (Status.OK, 0)) ["a"]).1.res_
      = { ret_ := CmdRet.kNone, message_ := ":0\r\n" } ∧
    ((MsetnxCmd.init.Initial ["msetnx", "a", "1", "b", "2"]).Do (fun _ => (Status.OK, 0)) ["a"]).2
      = ["a", "b"] ∧
    "b" ∈ ((MsetnxCmd.init.Initial ["msetnx", "a", "1", "b", "2"]).Do
        (fun _ => (Status.OK, 0)) ["a"]).2 := by
  decide


/-! ## Scatter/gather of MGET -/

theorem splitStore_spec (g : Nat → ValueStatus) : ∀ (hs pre : List Nat) (res : List ValueStatus),
    (∀ h ∈ hs, h < res.length) →
    ∃ res2, MgetCmd.splitStore (pre ++ hs) (hs.map g) pre.length res = some res2 ∧
      res2.length = res.length ∧
      ∀ p, res2[p]? = if p ∈ hs ∧ p < res.length then some (g p) else res[p]? := by
  intro hs
  induction hs with
  | nil =>
    intro pre res _
    exact ⟨res, by simp [MgetCmd.splitStore], rfl, by simp⟩
  | cons h hs ih =>
    intro pre res hlt
    have hh : h < res.length := hlt h (List.mem_cons_self _ _)
    have hget : (pre ++ h :: hs).get? pre.length = some h := by
      rw [List.get?_eq_getElem?, List.getElem?_append_right (Nat.le_refl _)]
      simp
    obtain ⟨res2, h1, h2, h3⟩ := ih (pre ++ [h]) (res.set h (g h))
      (fun x hx => by simpa using hlt x (List.mem_cons_of_mem _ hx))
    refine ⟨res2, ?_, by simpa using h2, ?_⟩
    · simp only [List.map_cons, MgetCmd.splitStore, hget, hh, if_true]
      simpa using h1
    · intro p
      rw [h3 p]
      simp only [List.length_set, List.mem_cons]
      by_cases hp : p ∈ hs
      · by_cases hpl : p < res.length
        · simp [hp, hpl]
        · have hne : h ≠ p := by omega
          simp [hp, hpl, List.getElem?_set_ne hne]
      · by_cases hph : p = h
        · subst hph
          simp [hp, hh, List.getElem?_set]
        · simp [hp, hph, List.getElem?_set_ne (Ne.symm hph)]

/-- One `Split` over the independent engine stores the looked-up value of every hinted
position and changes nothing else. -/
theorem MgetCmd_Split_spec (f : String → ValueStatus) (keys : List String) (c : MgetCmd)
    (hk : HintKeys) (hkeys : hk.keys = hk.hints.map (argAt keys))
    (hlt : ∀ h ∈ hk.hints, h < c.split_res_.length) :
    ∃ res2, c.Split (mgetOf f) hk = some { c with split_res_ := res2 } ∧
      res2.length = c.split_res_.length ∧
      ∀ p, res2[p]? = if p ∈ hk.hints ∧ p < c.split_res_.length then some (f (argAt keys p))
        else c.split_res_[p]? := by
  obtain ⟨res2, h1, h2, h3⟩ := splitStore_spec (fun h => f (argAt keys h)) hk.hints [] c.split_res_ hlt
  refine ⟨res2, ?_, h2, h3⟩
  have hok : Status.OK.ok = true := by decide
  have hvss : hk.keys.map f = hk.hints.map (fun h => f (argAt keys h)) := by
    rw [hkeys, List.map_map]
    rfl
  simp only [List.nil_append, List.length_nil] at h1
  simp only [MgetCmd.Split, mgetOf, hok, if_true, hvss, List.length_map, bne_self_eq_false,
    Bool.false_eq_true, if_false, h1]

theorem MgetCmd_splitAll_spec (f : String → ValueStatus) (keys : List String) :
    ∀ (shards : List HintKeys) (c : MgetCmd),
    (∀ hk ∈ shards, hk.keys = hk.hints.map (argAt keys)) →
    (∀ hk ∈ shards, ∀ h ∈ hk.hints, h < c.split_res_.length) →
    ∃ res2, c.splitAll (shards.map (fun hk => (mgetOf f, hk))) = some { c with split_res_ := res2 } ∧
      res2.length = c.split_res_.length ∧
      ∀ p, res2[p]? = if (∃ hk ∈ shards, p ∈ hk.hints) ∧ p < c.split_res_.length
        then some (f (argAt keys p)) else c.split_res_[p]? := by
  intro shards
  induction shards with
  | nil =>
    intro c _ _
    exact ⟨c.split_res_, by simp [MgetCmd.splitAll], rfl, by simp⟩
  | cons hk rest ih =>
    intro c hkeys hlt
    obtain ⟨r1, h1, h2, h3⟩ := MgetCmd_Split_spec f keys c hk (hkeys hk (List.mem_cons_self _ _))
      (hlt hk (List.mem_cons_self _ _))
    obtain ⟨r2, g1, g2, g3⟩ := ih { c with split_res_ := r1 }
      (fun x hx => hkeys x (List.mem_cons_of_mem _ hx))
      (fun x hx h hh => by simpa [h2] using hlt x (List.mem_cons_of_mem _ hx) h hh)
    refine ⟨r2, ?_, by simpa [h2] using g2, ?_⟩
    · simp only [List.map_cons, MgetCmd.splitAll, h1]
      simpa using g1
    · intro p
      rw [g3 p]
      simp only [h2, h3 p, List.mem_cons, exists_eq_or_imp]
      by_cases hpl : p < c.split_res_.length
      · by_cases hr : ∃ x ∈ rest, p ∈ x.hints
        · simp [hr, hpl]
        · by_cases hph : p ∈ hk.hints
          · simp [hr, hpl, hph]
          · simp [hr, hpl, hph]
      · simp [hpl]

theorem MgetCmd_Initial_keys (name : String) (keys : List String) (hne : keys ≠ []) :
    MgetCmd.init.Initial (name :: keys)
      = { argv_ := name :: keys, res_ := CmdRes.clear, keys_ := keys,
          split_res_ := List.replicate keys.length ValueStatus.default } := by
  have hpos : 0 < keys.length := List.length_pos.mpr hne
  have hc : CheckArg kMgetArity (name :: keys).length = true := by
    simp only [CheckArg, kMgetArity, List.length_cons]
    simp
    omega
  simp only [MgetCmd.Initial, MgetCmd.DoInitial, MgetCmd.init, hc, Bool.not_true,
    Bool.false_eq_true, if_false, List.drop_succ_cons, List.drop_zero, MgetCmd.resize,
    List.take_nil, List.nil_append, List.length_nil, Nat.sub_zero]

/-- C8: for every MGET key list, every partition of the key positions into per-shard HintKeys
(each hint being the original position of its key) and every order of the shards'
`Split` calls, over an engine whose `MGet` answers each key independently, all `Split`
calls complete and the reply built by `Merge` is byte-identical to the reply built by
`Do` on the whole key list. -/
theorem MgetCmd_split_merge_eq_Do (name : String) (keys : List String)
    (f : String → ValueStatus) (shards : List HintKeys)
    (hne : keys ≠ [])
    (hpart : (shards.flatMap (fun hk => hk.hints)).Perm (List.range keys.length))
    (hkeys : ∀ hk ∈ shards, hk.keys = hk.hints.map (argAt keys)) :
    ∃ c, (MgetCmd.init.Initial (name :: keys)).splitAll (shards.map (fun hk => (mgetOf f, hk)))
        = some c ∧
      c.Merge.res_ = ((MgetCmd.init.Initial (name :: keys)).Do (mgetOf f)).res_ ∧
      c.Merge.res_.message = ((MgetCmd.init.Initial (name :: keys)).Do (mgetOf f)).res_.message := by
  rw [MgetCmd_Initial_keys name keys hne]
  have hmem : ∀ p, (∃ hk ∈ shards, p ∈ hk.hints) ↔ p < keys.length := by
    intro p
    rw [← List.mem_range, ← hpart.mem_iff, List.mem_flatMap]
  obtain ⟨r, h1, h2, h3⟩ := MgetCmd_splitAll_spec f keys shards
    { argv_ := name :: keys, res_ := CmdRes.clear, keys_ := keys,
      split_res_ := List.replicate keys.length ValueStatus.default } hkeys
    (fun hk hhk h hh => by
      simp only [List.length_replicate]
      exact (hmem h).mp ⟨hk, hhk, hh⟩)
  have hr : r = keys.map f := by
    apply List.ext_getElem?
    intro p
    rw [h3 p]
    simp only [List.length_replicate, hmem p, and_self]
    by_cases hp : p < keys.length
    · simp only [hp, if_true, List.getElem?_map, argAt]
      rw [List.getElem?_eq_getElem hp]
      simp [List.getD_eq_getElem?_getD, List.getElem?_eq_getElem hp]
    · simp only [hp, if_false]
      rw [List.getElem?_eq_none (by simpa using hp), List.getElem?_eq_none (by simpa using hp)]
  subst hr
  refine ⟨_, h1, ?_⟩
  have hok : Status.OK.ok = true := by decide
  have hres : ∀ c1 c2 : MgetCmd, c1.res_ = c2.res_ → c1.split_res_ = c2.keys_.map f →
      c1.Merge.res_ = (c2.Do (mgetOf f)).res_ := by
    intro c1 c2 e1 e2
    simp only [MgetCmd.Merge, MgetCmd.Do, mgetOf, hok, if_true, e1, e2]
  refine ⟨?_, ?_⟩
  · exact hres _ _ rfl rfl
  · exact congrArg CmdRes.message (hres _ _ rfl rfl)

/-- Witness for C8: `MGET a b c` over the shards `[c, a]` and `[b]`. -/
theorem MgetCmd_split_merge_eq_Do_witness :
    (["a", "b", "c"] ≠ [] ∧
      (([{ keys := ["c", "a"], hints := [2, 0] }, { keys := ["b"], hints := [1] }] :
          List HintKeys).flatMap (fun hk => hk.hints)).Perm (List.range ["a", "b", "c"].length) ∧
      (∀ hk ∈ ([{ keys := ["c", "a"], hints := [2, 0] }, { keys := ["b"], hints := [1] }] :
          List HintKeys), hk.keys = hk.hints.map (argAt ["a", "b", "c"]))) ∧
    ∃ c, (MgetCmd.init.Initial ["mget", "a", "b", "c"]).splitAll
          (([{ keys := ["c", "a"], hints := [2, 0] }, { keys := ["b"], hints := [1] }] :
            List HintKeys).map (fun hk => (mgetOf sampleLookup, hk))) = some c ∧
      c.Merge.res_ = ((MgetCmd.init.Initial ["mget", "a", "b", "c"]).Do (mgetOf sampleLookup)).res_ ∧
      c.Merge.res_.message
        = ((MgetCmd.init.Initial ["mget", "a", "b", "c"]).Do (mgetOf sampleLookup)).res_.message :=
  ⟨by decide, MgetCmd_split_merge_eq_Do "mget" ["a", "b", "c"] sampleLookup
    [{ keys := ["c", "a"], hints := [2, 0] }, { keys := ["b"], hints := [1] }]
    (by decide) (by decide) (by decide)⟩

/-! ## Scatter/gather of MSET, and errors reported by a shard -/

theorem splitCollect_spec (kvs : List KeyValue) : ∀ (hs pre : List Nat) (acc : List KeyValue),
    (∀ h ∈ hs, h < kvs.length) →
    MsetCmd.splitCollect kvs (pre ++ hs) (hs.map (fun h => (kvAt kvs h).key)) pre.length acc
      = some (Except.ok (acc ++ hs.map (kvAt kvs))) := by
  intro hs
  induction hs with
  | nil => intro pre acc _; simp [MsetCmd.splitCollect]
  | cons h hs ih =>
    intro pre acc hlt
    have hh : h < kvs.length := hlt h (List.mem_cons_self _ _)
    have hget : (pre ++ h :: hs).get? pre.length = some h := by
      rw [List.get?_eq_getElem?, List.getElem?_append_right (Nat.le_refl _)]
      simp
    have hkv : kvs.get? h = some (kvAt kvs h) := by
      rw [List.get?_eq_getElem?, List.getElem?_eq_getElem hh]
      simp [kvAt, List.getD_eq_getElem?_getD, List.getElem?_eq_getElem hh]
    have := ih (pre ++ [h]) (acc ++ [kvAt kvs h])
      (fun x hx => hlt x (List.mem_cons_of_mem _ hx))
    simp only [List.map_cons, MsetCmd.splitCollect, hget, hkv, beq_self_eq_true, if_true]
    simpa using this

theorem msetResult_idem (s : Status) :
    (if s.ok then (msetResult s).SetRes CmdRet.kOk ""
      else (msetResult s).SetRes CmdRet.kErrOther s.ToString) = msetResult s := by
  unfold msetResult
  by_cases h : s.ok = true
  · simp [h, CmdRes.SetRes, CmdRes.clear]
  · simp only [h, Bool.false_eq_true, if_false, CmdRes.SetRes, CmdRes.clear]
    by_cases he : s.ToString.isEmpty = true
    · simp [he]
    · simp [he]

/-- One `Split` of a well-formed shard on an engine that returns the status `s` for the
shard's pairs. -/
theorem MsetCmd_Split_spec (c : MsetCmd) (mset : List KeyValue → Status) (hints : List Nat)
    (hlt : ∀ h ∈ hints, h < c.kvs_.length) :
    c.Split mset (hintKeysOf c.kvs_ hints)
      = some { c with res_ :=
          if (mset (hints.map (kvAt c.kvs_))).ok then c.res_.SetRes CmdRet.kOk ""
          else c.res_.SetRes CmdRet.kErrOther (mset (hints.map (kvAt c.kvs_))).ToString } := by
  have h := splitCollect_spec c.kvs_ hints [] [] hlt
  simp only [List.nil_append, List.length_nil] at h
  simp only [MsetCmd.Split, hintKeysOf, List.length_map, bne_self_eq_false, Bool.false_eq_true,
    if_false, h]
  split <;> rfl

theorem MsetCmd_splitAll_spec (mset : List KeyValue → Status) (s : Status) :
    ∀ (shards : List (List Nat)) (c : MsetCmd),
    (∀ hints ∈ shards, ∀ h ∈ hints, h < c.kvs_.length) →
    (∀ hints ∈ shards, mset (hints.map (kvAt c.kvs_)) = s) →
    (c.res_ = CmdRes.clear ∧ shards ≠ [] ∨ c.res_ = msetResult s) →
    c.splitAll (shards.map (fun hints => (mset, hintKeysOf c.kvs_ hints)))
      = some { c with res_ := msetResult s } := by
  intro shards
  induction shards with
  | nil =>
    intro c _ _ hres
    rcases hres with ⟨_, h⟩ | h
    · exact absurd rfl h
    · simp only [List.map_nil, MsetCmd.splitAll, ← h]
  | cons hints rest ih =>
    intro c hlt hs hres
    have h1 := MsetCmd_Split_spec c mset hints (hlt hints (List.mem_cons_self _ _))
    rw [hs hints (List.mem_cons_self _ _)] at h1
    have hr : (if s.ok = true then c.res_.SetRes CmdRet.kOk ""
        else c.res_.SetRes CmdRet.kErrOther s.ToString) = msetResult s := by
      rcases hres with ⟨h, _⟩ | h
      · rw [h]; rfl
      · rw [h]; exact msetResult_idem s
    rw [hr] at h1
    have h2 := ih { c with res_ := msetResult s }
      (fun x hx => hlt x (List.mem_cons_of_mem _ hx))
      (fun x hx => hs x (List.mem_cons_of_mem _ hx)) (Or.inr rfl)
    simp only [List.map_cons, MsetCmd.splitAll, h1]
    exact h2


/-- C9 (as stated) fails: `MSET a 1 b 2` split into the shards `[a]` and `[b]`, on an engine
whose `MSet` fails on the whole list and on every part (so it succeeds on every part
exactly when it succeeds on the whole), reporting the first key of the batch: the
reply after `Split`, `Split`, `Merge` carries the message of the last part, the reply
of `Do` the message of the whole list. -/
theorem MsetCmd_split_reply_differs_from_Do :
    ([[0], [1]] : List (List Nat)).flatten.Perm (List.range 2) ∧
    (∀ hints ∈ ([[0], [1]] : List (List Nat)),
      (failingMSet (hints.map (kvAt [KeyValue.mk "a" "1", KeyValue.mk "b" "2"]))).ok
        = (failingMSet [KeyValue.mk "a" "1", KeyValue.mk "b" "2"]).ok) ∧
    ((MsetCmd.init.Initial ["mset", "a", "1", "b", "2"]).splitAll
        [(failingMSet, hintKeysOf [KeyValue.mk "a" "1", KeyValue.mk "b" "2"] [0]),
         (failingMSet, hintKeysOf [KeyValue.mk "a" "1", KeyValue.mk "b" "2"] [1])]).map
      (fun c => c.Merge.res_.message) = some "-ERR IO error: b\r\n" ∧
    ((MsetCmd.init.Initial ["mset", "a", "1", "b", "2"]).Do failingMSet []).1.res_.message
      = "-ERR IO error: a\r\n" := by
  decide

/-- C9 (amended): for every MSET pair list and every partition of the pairs into shards
(each hint being the original position of its pair), given that the engine's `MSet`
returns on every part the same status as on the whole list (success, or failure with
the same message), all `Split` calls complete and the reply after `Split` on each
part and `Merge` is the same as the reply of `Do` on the whole list. -/
theorem MsetCmd_split_merge_eq_Do (name : String) (kvs : List KeyValue)
    (mset : List KeyValue → Status) (index : List String) (shards : List (List Nat))
    (hne : kvs ≠ [])
    (hpart : shards.flatten.Perm (List.range kvs.length))
    (hsame : ∀ hints ∈ shards, mset (hints.map (kvAt kvs)) = mset kvs) :
    ∃ c, (MsetCmd.init.Initial (name :: flattenPairs kvs)).splitAll
          (shards.map (fun hints => (mset, hintKeysOf kvs hints))) = some c ∧
      c.Merge.res_ = ((MsetCmd.init.Initial (name :: flattenPairs kvs)).Do mset index).1.res_ ∧
      c.Merge.res_.message
        = ((MsetCmd.init.Initial (name :: flattenPairs kvs)).Do mset index).1.res_.message := by
  rw [MsetCmd_Initial_pairs name kvs hne]
  have hlt : ∀ hints ∈ shards, ∀ h ∈ hints, h < kvs.length := by
    intro hints hh h hm
    rw [← List.mem_range, ← hpart.mem_iff, List.mem_flatten]
    exact ⟨hints, hh, hm⟩
  have hshards : shards ≠ [] := by
    intro he
    subst he
    have hl := hpart.length_eq
    simp only [List.flatten_nil, List.length_nil, List.length_range] at hl
    exact hne (List.length_eq_zero.mp hl.symm)
  have h := MsetCmd_splitAll_spec mset (mset kvs) shards
    { argv_ := name :: flattenPairs kvs, res_ := CmdRes.clear, kvs_ := kvs, set_cmd_ := SetCmd.init }
    hlt hsame (Or.inl ⟨rfl, hshards⟩)
  refine ⟨_, h, ?_⟩
  have hres : ∀ c : MsetCmd, c.res_ = CmdRes.clear → c.kvs_ = kvs →
      (c.Do mset index).1.res_ = msetResult (mset kvs) := by
    intro c h1 h2
    unfold MsetCmd.Do msetResult
    by_cases hok : (mset kvs).ok = true
    · simp [hok, h1, h2]
    · simp [hok, h1, h2]
  refine ⟨?_, ?_⟩
  · rw [hres _ rfl rfl]; rfl
  · rw [hres _ rfl rfl]; rfl

/-- Witness for C9: `MSET a 1 b 2 c 3` over the shards `[c, a]` and `[b]` on a healthy engine. -/
theorem MsetCmd_split_merge_eq_Do_witness :
    ([KeyValue.mk "a" "1", KeyValue.mk "b" "2", KeyValue.mk "c" "3"] ≠ [] ∧
      ([[2, 0], [1]] : List (List Nat)).flatten.Perm (List.range 3) ∧
      (∀ hints ∈ ([[2, 0], [1]] : List (List Nat)),
        healthyMSet (hints.map (kvAt [KeyValue.mk "a" "1", KeyValue.mk "b" "2", KeyValue.mk "c" "3"]))
          = healthyMSet [KeyValue.mk "a" "1", KeyValue.mk "b" "2", KeyValue.mk "c" "3"])) ∧
    ∃ c, (MsetCmd.init.Initial ["mset", "a", "1", "b", "2", "c", "3"]).splitAll
          ([[2, 0], [1]].map (fun hints => (healthyMSet,
            hintKeysOf [KeyValue.mk "a" "1", KeyValue.mk "b" "2", KeyValue.mk "c" "3"] hints)))
          = some c ∧
      c.Merge.res_ = ((MsetCmd.init.Initial ["mset", "a", "1", "b", "2", "c", "3"]).Do
          healthyMSet []).1.res_ ∧
      c.Merge.res_.message = ((MsetCmd.init.Initial ["mset", "a", "1", "b", "2", "c", "3"]).Do
          healthyMSet []).1.res_.message :=
  ⟨by decide, MsetCmd_split_merge_eq_Do "mset"
    [KeyValue.mk "a" "1", KeyValue.mk "b" "2", KeyValue.mk "c" "3"] healthyMSet []
    [[2, 0], [1]] (by decide) (by decide) (by decide)⟩

/-- C10 (the code at the failing input): `MSET a 1 b 2` scattered over two shards; the `MSet`
of the first shard fails, so its `Split` reports an operational error; the `MSet` of
the second shard succeeds and its `Split` replaces the result by OK; after `Merge` the
reply is `+OK`. -/
theorem MsetCmd_Split_error_replaced_by_later_success :
    ((MsetCmd.init.Initial ["mset", "a", "1", "b", "2"]).Split brokenMSet
        { keys := ["a"], hints := [0] }).map (fun c => c.res_)
      = some { ret_ := CmdRet.kErrOther, message_ := "IO error: disk" } ∧
    ((MsetCmd.init.Initial ["mset", "a", "1", "b", "2"]).splitAll
        [(brokenMSet, { keys := ["a"], hints := [0] }),
         (healthyMSet, { keys := ["b"], hints := [1] })]).map (fun c => c.Merge.res_)
      = some { ret_ := CmdRet.kOk, message_ := "IO error: disk" } ∧
    ((MsetCmd.init.Initial ["mset", "a", "1", "b", "2"]).splitAll
        [(brokenMSet, { keys := ["a"], hints := [0] }),
         (healthyMSet, { keys := ["b"], hints := [1] })]).map
      (fun c => (c.Merge.res_.isOperationalError, c.Merge.res_.message))
      = some (false, "+OK\r\n") := by
  decide

theorem appendValues_ret (vss : List ValueStatus) : ∀ r : CmdRes,
    (appendValues r vss).ret_ = r.ret_ := by
  induction vss with
  | nil => intro r; rfl
  | cons vs rest ih =>
    intro r
    unfold appendValues at ih ⊢
    rw [List.foldl_cons, ih]
    split <;> rfl

/-- For DEL an error reported by a `Split` stays through the remaining `Split` calls and
`Merge`. -/
theorem DelCmd_split_error_persists (c : DelCmd) (shards : List ((List String → Int) × HintKeys))
    (h : c.res_.isOperationalError = true) :
    ((c.splitAll shards).Merge).res_.isOperationalError = true := by
  have hs : ∀ (shards : List ((List String → Int) × HintKeys)) (c : DelCmd),
      c.res_.isOperationalError = true → (c.splitAll shards).res_.isOperationalError = true := by
    intro shards
    induction shards with
    | nil => intro c h; exact h
    | cons sh rest ih =>
      intro c h
      unfold DelCmd.splitAll
      rw [List.foldl_cons]
      apply ih
      unfold DelCmd.Split
      by_cases hc : sh.1 sh.2.keys ≥ 0
      · simp only [hc, if_true]; exact h
      · simp only [hc, if_false]; rfl
  exact hs shards c h

/-- For EXISTS an error reported by a `Split` stays through the remaining `Split` calls and
`Merge`. -/
theorem ExistsCmd_split_error_persists (c : ExistsCmd)
    (shards : List ((List String → Int) × HintKeys)) (h : c.res_.isOperationalError = true) :
    ((c.splitAll shards).Merge).res_.isOperationalError = true := by
  have hs : ∀ (shards : List ((List String → Int) × HintKeys)) (c : ExistsCmd),
      c.res_.isOperationalError = true → (c.splitAll shards).res_.isOperationalError = true := by
    intro shards
    induction shards with
    | nil => intro c h; exact h
    | cons sh rest ih =>
      intro c h
      unfold ExistsCmd.splitAll
      rw [List.foldl_cons]
      apply ih
      unfold ExistsCmd.Split
      by_cases hc : (sh.1 sh.2.keys != -1) = true
      · simp only [hc, if_true]; exact h
      · simp only [hc, if_false]; rfl
  exact hs shards c h

/-- For MGET an error reported by a `Split` stays through the remaining `Split` calls (when
they complete) and `Merge`. -/
theorem MgetCmd_split_error_persists :
    ∀ (shards : List ((List String → Status × List ValueStatus) × HintKeys)) (c d : MgetCmd),
    c.res_.isOperationalError = true → c.splitAll shards = some d →
    d.Merge.res_.isOperationalError = true := by
  have hm : ∀ d : MgetCmd, d.res_.isOperationalError = true →
      d.Merge.res_.isOperationalError = true := by
    intro d h
    unfold CmdRes.isOperationalError at h ⊢
    unfold MgetCmd.Merge
    simp only [appendValues_ret]
    exact h
  intro shards
  induction shards with
  | nil =>
    intro c d h hd
    simp only [MgetCmd.splitAll, Option.some.injEq] at hd
    subst hd
    exact hm _ h
  | cons sh rest ih =>
    intro c d h hd
    obtain ⟨mget, hk⟩ := sh
    simp only [MgetCmd.splitAll] at hd
    cases hsp : c.Split mget hk with
    | none => simp [hsp] at hd
    | some c1 =>
      simp only [hsp] at hd
      refine ih c1 d ?_ hd
      unfold MgetCmd.Split at hsp
      simp only at hsp
      split at hsp
      · split at hsp
        · exact absurd hsp (by simp)
        · simp only [Option.some.injEq] at hsp
          subst hsp
          simp only
          split
          · rfl
          · exact h
      · simp only [Option.some.injEq] at hsp
        subst hsp
        rfl

/-! ## Scatter/gather of DEL and EXISTS -/

theorem toInt64_add_toInt64 (a b : Int) : toInt64 (toInt64 a + b) = toInt64 (a + b) := by
  unfold toInt64
  omega

theorem DelCmd_splitAll_sum : ∀ (shards : List ((List String → Int) × HintKeys)) (c : DelCmd),
    (∀ sh ∈ shards, 0 ≤ shardCount sh) → isInt64 c.split_res_ →
    c.splitAll shards
      = { c with split_res_ := toInt64 (c.split_res_ + (shards.map shardCount).sum) } := by
  intro shards
  induction shards with
  | nil =>
    intro c _ h64
    simp only [DelCmd.splitAll, List.foldl_nil, List.map_nil, List.sum_nil, Int.add_zero,
      toInt64_of_isInt64 _ h64]
  | cons sh rest ih =>
    intro c hnn h64
    have h0 : 0 ≤ sh.1 sh.2.keys := hnn sh (List.mem_cons_self _ _)
    have hstep : c.Split sh.1 sh.2 = { c with split_res_ := add64 c.split_res_ (sh.1 sh.2.keys) } := by
      unfold DelCmd.Split
      simp only [ge_iff_le, h0, if_true]
    have h64b : isInt64 (add64 c.split_res_ (sh.1 sh.2.keys)) := by
      unfold add64 toInt64 isInt64 INT64_MIN INT64_MAX
      omega
    have := ih { c with split_res_ := add64 c.split_res_ (sh.1 sh.2.keys) }
      (fun x hx => hnn x (List.mem_cons_of_mem _ hx)) h64b
    unfold DelCmd.splitAll at this ⊢
    rw [List.foldl_cons, hstep, this]
    simp only [List.map_cons, List.sum_cons, shardCount, add64, toInt64_add_toInt64, Int.add_assoc]

theorem ExistsCmd_splitAll_sum : ∀ (shards : List ((List String → Int) × HintKeys)) (c : ExistsCmd),
    (∀ sh ∈ shards, 0 ≤ shardCount sh) → isInt64 c.split_res_ →
    c.splitAll shards
      = { c with split_res_ := toInt64 (c.split_res_ + (shards.map shardCount).sum) } := by
  intro shards
  induction shards with
  | nil =>
    intro c _ h64
    simp only [ExistsCmd.splitAll, List.foldl_nil, List.map_nil, List.sum_nil, Int.add_zero,
      toInt64_of_isInt64 _ h64]
  | cons sh rest ih =>
    intro c hnn h64
    have h0 : 0 ≤ sh.1 sh.2.keys := hnn sh (List.mem_cons_self _ _)
    have hne : (sh.1 sh.2.keys != -1) = true := by
      simp only [bne_iff_ne, ne_eq]
      omega
    have hstep : c.Split sh.1 sh.2 = { c with split_res_ := add64 c.split_res_ (sh.1 sh.2.keys) } := by
      unfold ExistsCmd.Split
      simp only [hne, if_true]
    have h64b : isInt64 (add64 c.split_res_ (sh.1 sh.2.keys)) := by
      unfold add64 toInt64 isInt64 INT64_MIN INT64_MAX
      omega
    have := ih { c with split_res_ := add64 c.split_res_ (sh.1 sh.2.keys) }
      (fun x hx => hnn x (List.mem_cons_of_mem _ hx)) h64b
    unfold ExistsCmd.splitAll at this ⊢
    rw [List.foldl_cons, hstep, this]
    simp only [List.map_cons, List.sum_cons, shardCount, add64, toInt64_add_toInt64, Int.add_assoc]

theorem DelCmd_Initial_keys (name : String) (keys : List String) (hne : keys ≠ []) :
    DelCmd.init.Initial (name :: keys)
      = { argv_ := name :: keys, res_ := CmdRes.clear, keys_ := keys, split_res_ := 0 } := by
  have hpos : 0 < keys.length := List.length_pos.mpr hne
  have hc : CheckArg kDelArity (name :: keys).length = true := by
    simp only [CheckArg, kDelArity, List.length_cons]
    simp
    omega
  simp only [DelCmd.Initial, DelCmd.DoInitial, DelCmd.init, hc, Bool.not_true,
    Bool.false_eq_true, if_false, List.drop_succ_cons, List.drop_zero]

theorem ExistsCmd_Initial_keys (name : String) (keys : List String) (hne : keys ≠ []) :
    ExistsCmd.init.Initial (name :: keys)
      = { argv_ := name :: keys, res_ := CmdRes.clear, keys_ := keys, split_res_ := 0 } := by
  have hpos : 0 < keys.length := List.length_pos.mpr hne
  have hc : CheckArg kExistsArity (name :: keys).length = true := by
    simp only [CheckArg, kExistsArity, List.length_cons]
    simp
    omega
  simp only [ExistsCmd.Initial, ExistsCmd.DoInitial, ExistsCmd.init, hc, Bool.not_true,
    Bool.false_eq_true, if_false, List.drop_succ_cons, List.drop_zero]

/-- C11: for DEL and EXISTS, after `Split` calls on any sequence of shards whose engine
counts c1..cn are all non-negative, `Merge` replies with the integer c1 + ... + cn
(accumulated in the `int64_t` `split_res_`, equal to the exact sum whenever that is
representable in 64 bits), and the reply is the same for every permutation of the
`Split` calls. -/
theorem split_merge_counts (name : String) (keys : List String)
    (shards : List ((List String → Int) × HintKeys))
    (hne : keys ≠ []) (hnn : ∀ sh ∈ shards, 0 ≤ shardCount sh) :
    (((DelCmd.init.Initial (name :: keys)).splitAll shards).Merge).res_
      = CmdRes.clear.AppendInteger (toInt64 (shards.map shardCount).sum) ∧
    (((ExistsCmd.init.Initial (name :: keys)).splitAll shards).Merge).res_
      = CmdRes.clear.AppendInteger (toInt64 (shards.map shardCount).sum) ∧
    (isInt64 (shards.map shardCount).sum →
      toInt64 (shards.map shardCount).sum = (shards.map shardCount).sum) ∧
    (CmdRes.clear.AppendInteger (toInt64 (shards.map shardCount).sum)).message
      = ":" ++ ll2string (toInt64 (shards.map shardCount).sum) ++ "\r\n" ∧
    (∀ shards2 : List ((List String → Int) × HintKeys), shards2.Perm shards →
      (((DelCmd.init.Initial (name :: keys)).splitAll shards2).Merge).res_
        = (((DelCmd.init.Initial (name :: keys)).splitAll shards).Merge).res_ ∧
      (((ExistsCmd.init.Initial (name :: keys)).splitAll shards2).Merge).res_
        = (((ExistsCmd.init.Initial (name :: keys)).splitAll shards).Merge).res_) := by
  have h0 : isInt64 0 := by decide
  have hD : ∀ sh2 : List ((List String → Int) × HintKeys), (∀ sh ∈ sh2, 0 ≤ shardCount sh) →
      (((DelCmd.init.Initial (name :: keys)).splitAll sh2).Merge).res_
        = CmdRes.clear.AppendInteger (toInt64 (sh2.map shardCount).sum) := by
    intro sh2 h2
    rw [DelCmd_Initial_keys name keys hne, DelCmd_splitAll_sum sh2 _ h2 h0]
    simp only [DelCmd.Merge, Int.zero_add]
  have hE : ∀ sh2 : List ((List String → Int) × HintKeys), (∀ sh ∈ sh2, 0 ≤ shardCount sh) →
      (((ExistsCmd.init.Initial (name :: keys)).splitAll sh2).Merge).res_
        = CmdRes.clear.AppendInteger (toInt64 (sh2.map shardCount).sum) := by
    intro sh2 h2
    rw [ExistsCmd_Initial_keys name keys hne, ExistsCmd_splitAll_sum sh2 _ h2 h0]
    simp only [ExistsCmd.Merge, Int.zero_add]
  refine ⟨hD shards hnn, hE shards hnn, fun h => toInt64_of_isInt64 _ h, ?_, ?_⟩
  · simp only [CmdRes.message, CmdRes.AppendInteger, CmdRes.clear, RedisAppendLen, kNewLine,
      String.empty_append]
  · intro shards2 hp
    have hnn2 : ∀ sh ∈ shards2, 0 ≤ shardCount sh := fun sh h => hnn sh (hp.mem_iff.mp h)
    have hsum : (shards2.map shardCount).sum = (shards.map shardCount).sum :=
      (hp.map shardCount).sum_eq
    rw [hD shards2 hnn2, hE shards2 hnn2, hD shards hnn, hE shards hnn, hsum]
    exact ⟨rfl, rfl⟩

/-! ## Execution of DEL -/

theorem foldl_RemSlotKey (keys : List String) : ∀ index : List String,
    keys.foldl (fun idx key => RemSlotKey key idx) index
      = index.filter (fun k => !keys.contains k) := by
  induction keys with
  | nil => intro index; simp
  | cons key rest ih =>
    intro index
    rw [List.foldl_cons, ih]
    unfold RemSlotKey
    rw [List.filter_filter]
    congr 1
    funext k
    by_cases hk : k = key
    · subst hk; simp
    · have hne : (k == key) = false := by simpa using hk
      simp [List.contains_cons, hk, hne]

/-- C12 (as stated) fails: `DEL a a` with an engine that removed the one key `a` replies with
the engine's count 1, and `RemSlotKey` is called for `a` twice, once per occurrence in
the argument list. -/
theorem DelCmd_duplicate_key_deregistered_twice :
    ((DelCmd.init.Initial ["del", "a", "a"]).Do (fun _ => 1) ["a", "b"]).1.res_
      = CmdRes.clear.AppendInteger 1 ∧
    ((DelCmd.init.Initial ["del", "a", "a"]).remSlotKeyCalls (fun _ => 1)).count "a" = 2 := by
  decide

/-- C12 (amended): for every DEL whose engine call succeeds (count >= 0), the reply is the
integer count returned by the engine, and `RemSlotKey` is called once per occurrence of
a key in the argument list (exactly once for a key that occurs once); the Secondary Key
Index afterwards is the index before without the keys of the request, as after a
single call per key. -/
theorem DelCmd_Do_reply_and_deregistration (name : String) (keys : List String)
    (del : List String → Int) (index : List String)
    (hne : keys ≠ []) (hcount : 0 ≤ del keys) :
    ((DelCmd.init.Initial (name :: keys)).Do del index).1.res_
      = CmdRes.clear.AppendInteger (del keys) ∧
    (∀ key, ((DelCmd.init.Initial (name :: keys)).remSlotKeyCalls del).count key
      = keys.count key) ∧
    ((DelCmd.init.Initial (name :: keys)).Do del index).2
      = ((DelCmd.init.Initial (name :: keys)).remSlotKeyCalls del).foldl
          (fun idx key => RemSlotKey key idx) index ∧
    ((DelCmd.init.Initial (name :: keys)).Do del index).2
      = index.filter (fun k => !keys.contains k) := by
  rw [DelCmd_Initial_keys name keys hne]
  have hge : del keys ≥ 0 := hcount
  refine ⟨?_, ?_, ?_, ?_⟩
  · simp only [DelCmd.Do, hge, if_true]
  · intro key
    simp only [DelCmd.remSlotKeyCalls, hge, if_true]
  · simp only [DelCmd.Do, DelCmd.remSlotKeyCalls, hge, if_true]
  · simp only [DelCmd.Do, hge, if_true, foldl_RemSlotKey]

/-- Witness for C12: `DEL a b a` on an engine that removed two keys. -/
theorem DelCmd_Do_reply_and_deregistration_witness :
    (["a", "b", "a"] ≠ [] ∧ (0 : Int) ≤ (fun _ => 2 : List String → Int) ["a", "b", "a"]) ∧
    ((DelCmd.init.Initial ["del", "a", "b", "a"]).Do (fun _ => 2) ["a", "b", "c"]).1.res_
      = { ret_ := CmdRet.kNone, message_ := ":2\r\n" } ∧
    ((DelCmd.init.Initial ["del", "a", "b", "a"]).remSlotKeyCalls (fun _ => 2)).count "b" = 1 ∧
    ((DelCmd.init.Initial ["del", "a", "b", "a"]).Do (fun _ => 2) ["a", "b", "c"]).2 = ["c"] :=
  ⟨by decide,
   (DelCmd_Do_reply_and_deregistration "del" ["a", "b", "a"] (fun _ => 2) ["a", "b", "c"]
      (by decide) (by decide)).1,
   (DelCmd_Do_reply_and_deregistration "del" ["a", "b", "a"] (fun _ => 2) ["a", "b", "c"]
      (by decide) (by decide)).2.1 "b",
   (DelCmd_Do_reply_and_deregistration "del" ["a", "b", "a"] (fun _ => 2) ["a", "b", "c"]
      (by decide) (by decide)).2.2.2⟩

/-- Witness for C11: three shards with the counts 2, 0 and 3. -/
theorem split_merge_counts_witness :
    (["a", "b", "c"] ≠ [] ∧
      ∀ sh ∈ ([((fun _ => 2), { keys := ["a"], hints := [0] }),
               ((fun _ => 0), { keys := ["b"], hints := [1] }),
               ((fun _ => 3), { keys := ["c"], hints := [2] })] :
                List ((List String → Int) × HintKeys)), 0 ≤ shardCount sh) ∧
    (((DelCmd.init.Initial ["del", "a", "b", "c"]).splitAll
        [((fun _ => 2), { keys := ["a"], hints := [0] }),
         ((fun _ => 0), { keys := ["b"], hints := [1] }),
         ((fun _ => 3), { keys := ["c"], hints := [2] })]).Merge).res_
      = { ret_ := CmdRet.kNone, message_ := ":5\r\n" } :=
  ⟨⟨by decide, by decide⟩,
   (split_merge_counts "del" ["a", "b", "c"]
      [((fun _ => 2), { keys := ["a"], hints := [0] }),
       ((fun _ => 0), { keys := ["b"], hints := [1] }),
       ((fun _ => 3), { keys := ["c"], hints := [2] })] (by decide) (by decide)).1⟩

/-! ## Replication entries of DEL and SETNX -/

theorem AppendInteger_ok (r : CmdRes) (v : Int) : (r.AppendInteger v).ok = r.ok := rfl

theorem DelCmd_binlog_loop (opt : String) (keys : List String) :
    ∀ (c : DelCmd) (log : List String), c.res_.ok = true →
    (keys.foldl (fun (st : DelCmd × List String) key =>
      ({ st.1 with argv_ := [opt, key] },
        Cmd.DoBinlog st.1.res_ [opt, key] st.2)) (c, log)).2
      = log ++ keys.map (fun key => encodeArgs [opt, key]) := by
  induction keys with
  | nil => intro c log _; simp
  | cons key rest ih =>
    intro c log hok
    rw [List.foldl_cons]
    have hstep : Cmd.DoBinlog c.res_ [opt, key] log = log ++ [encodeArgs [opt, key]] := by
      unfold Cmd.DoBinlog encodeArgs
      rw [if_pos hok]
    rw [hstep]
    have := ih { c with argv_ := [opt, key] } (log ++ [encodeArgs [opt, key]]) hok
    rw [this]
    simp

/-- C13: for every DEL with keys k1..kn (executed successfully), `DoBinlog` emits exactly n
replication entries and the i-th entry is the single-key command `[argv[0], k_i]`,
where `argv[0]` is the command name as originally received, in the order of the keys
in the request. -/
theorem DelCmd_DoBinlog_entries (name : String) (keys : List String)
    (del : List String → Int) (index log : List String)
    (hne : keys ≠ []) (hcount : 0 ≤ del keys) :
    (((DelCmd.init.Initial (name :: keys)).Do del index).1.DoBinlog log).map (fun r => r.2)
      = some (log ++ keys.map (fun key => encodeArgs [name, key])) ∧
    (log ++ keys.map (fun key => encodeArgs [name, key])).length = log.length + keys.length := by
  rw [DelCmd_Initial_keys name keys hne]
  have hge : del keys ≥ 0 := hcount
  constructor
  · simp only [DelCmd.Do, hge, if_true, DelCmd.DoBinlog, List.get?_cons_zero, Option.map_some']
    exact congrArg some (DelCmd_binlog_loop name keys _ log (by rfl))
  · simp

/-- Witness for C13: `DEL a b` logs `DEL a` and `DEL b`. -/
theorem DelCmd_DoBinlog_entries_witness :
    (["a", "b"] ≠ [] ∧ (0 : Int) ≤ (fun _ => 1 : List String → Int) ["a", "b"]) ∧
    (((DelCmd.init.Initial ["DEL", "a", "b"]).Do (fun _ => 1) []).1.DoBinlog []).map (fun r => r.2)
      = some [encodeArgs ["DEL", "a"], encodeArgs ["DEL", "b"]] :=
  ⟨by decide, (DelCmd_DoBinlog_entries "DEL" ["a", "b"] (fun _ => 1) [] [] (by decide)
    (by decide)).1⟩

theorem SetnxCmd_entry (c : SetnxCmd) (now : Int) :
    c.ToRedisProtocol now = encodeArgs ["setnx", c.key_, c.value_] := by
  rw [encodeArgs_three]
  unfold SetnxCmd.ToRedisProtocol appendBulk
  rfl

theorem SetnxCmd_Do_fields (c : SetnxCmd) (db : StringsDB) (index : List String) :
    (c.Do db index).1.key_ = c.key_ ∧ (c.Do db index).1.value_ = c.value_ := by
  unfold SetnxCmd.Do
  by_cases h : (db.Setnx c.key_ c.value_ 0).1.ok = true
  · simp only [h, if_true, and_self]
  · simp only [h, Bool.false_eq_true, if_false, and_self]

/-- C14: the replication entry of SETNX is `[setnx, key, value]` for every outcome of the
execution: `ToRedisProtocol` returns the same bytes whatever the engine reported and
whatever `success_` holds (0 or 1). -/
theorem SetnxCmd_entry_independent_of_outcome (name key value : String)
    (db1 db2 : StringsDB) (index1 index2 : List String) (now1 now2 success : Int) :
    ((SetnxCmd.init.Initial [name, key, value]).Do db1 index1).1.ToRedisProtocol now1
      = encodeArgs ["setnx", key, value] ∧
    ((SetnxCmd.init.Initial [name, key, value]).Do db1 index1).1.ToRedisProtocol now1
      = ((SetnxCmd.init.Initial [name, key, value]).Do db2 index2).1.ToRedisProtocol now2 ∧
    ({ (SetnxCmd.init.Initial [name, key, value]) with success_ := success }).ToRedisProtocol now1
      = encodeArgs ["setnx", key, value] := by
  have hc : CheckArg kSetnxArity [name, key, value].length = true := by
    show CheckArg _ 3 = true
    decide
  have hI : SetnxCmd.init.Initial [name, key, value]
      = { argv_ := [name, key, value], res_ := CmdRes.clear, key_ := key, value_ := value,
          success_ := 0 } := by
    simp only [SetnxCmd.Initial, SetnxCmd.DoInitial, SetnxCmd.init, hc, argAt,
      List.getD_cons_succ, List.getD_cons_zero, Bool.not_true, Bool.false_eq_true, if_false]
  rw [hI]
  have h1 : ∀ (db : StringsDB) (index : List String) (now : Int),
      (({ argv_ := [name, key, value], res_ := CmdRes.clear, key_ := key, value_ := value,
          success_ := 0 } : SetnxCmd).Do db index).1.ToRedisProtocol now
        = encodeArgs ["setnx", key, value] := by
    intro db index now
    rw [SetnxCmd_entry, (SetnxCmd_Do_fields _ db index).1, (SetnxCmd_Do_fields _ db index).2]
  refine ⟨h1 db1 index1 now1, ?_, ?_⟩
  · rw [h1 db1 index1 now1, h1 db2 index2 now2]
  · rw [SetnxCmd_entry]

/-! ## Option parsing of SET: the VX mode -/

/-- Option parsing never touches the argument vector, the key or the value. -/
theorem parseOptions_frame (n : Nat) : ∀ (opts : List String) (c : SetCmd), opts.length ≤ n →
    (SetCmd.parseOptions opts c).argv_ = c.argv_ ∧
    (SetCmd.parseOptions opts c).key_ = c.key_ ∧
    (SetCmd.parseOptions opts c).value_ = c.value_ := by
  induction n with
  | zero =>
    intro opts c hlen
    have : opts = [] := List.length_eq_zero.mp (by omega)
    subst this
    simp [SetCmd.parseOptions]
  | succ n ih =>
    intro opts c hlen
    match opts, hlen with
    | [], _ => simp [SetCmd.parseOptions]
    | opt :: rest, hlen =>
      have hr : rest.length ≤ n := by simp at hlen; omega
      unfold SetCmd.parseOptions
      split
      · exact ih rest _ hr
      · split
        · exact ih rest _ hr
        · split
          · match rest, hr with
            | [], _ => simp
            | target :: rest2, hr =>
              exact ih rest2 _ (by simp at hr; omega)
          · split
            · match rest, hr with
              | [], _ => simp
              | num :: rest2, hr =>
                simp only
                cases hnum : string2int num with
                | none => simp
                | some v =>
                  simp only
                  exact ih rest2 _ (by simp at hr; omega)
            · simp

/-- A successful parse that ends in the mode `kVX` either started in that mode and kept the
target, or consumed a `VX` token followed by the final target. -/
theorem parseOptions_vx (n : Nat) : ∀ (opts : List String) (c : SetCmd), opts.length ≤ n →
    (SetCmd.parseOptions opts c).res_.ok = true →
    (SetCmd.parseOptions opts c).condition_ = SetCondition.kVX →
    (c.condition_ = SetCondition.kVX ∧ (SetCmd.parseOptions opts c).target_ = c.target_) ∨
    ∃ pre opt post, opts = pre ++ opt :: (SetCmd.parseOptions opts c).target_ :: post ∧
      strcasecmpEq opt "vx" = true := by
  induction n with
  | zero =>
    intro opts c hlen _ hvx
    have : opts = [] := List.length_eq_zero.mp (by omega)
    subst this
    left
    simpa [SetCmd.parseOptions] using hvx
  | succ n ih =>
    intro opts c hlen hok hvx
    match opts, hlen, hok, hvx with
    | [], _, _, hvx =>
      left
      simpa [SetCmd.parseOptions] using hvx
    | opt :: rest, hlen, hok, hvx =>
      have hr : rest.length ≤ n := by simp at hlen; omega
      unfold SetCmd.parseOptions at hok hvx ⊢
      cases hxx : strcasecmpEq opt "xx" with
      | true =>
        simp only [hxx, if_true] at hok hvx ⊢
        rcases ih rest _ hr hok hvx with ⟨h, _⟩ | ⟨pre, o, post, h1, h2⟩
        · exact absurd h (by simp)
        · exact Or.inr ⟨opt :: pre, o, post, by rw [List.cons_append, ← h1], h2⟩
      | false =>
        simp only [hxx, Bool.false_eq_true, if_false] at hok hvx ⊢
        cases hnx : strcasecmpEq opt "nx" with
        | true =>
          simp only [hnx, if_true] at hok hvx ⊢
          rcases ih rest _ hr hok hvx with ⟨h, _⟩ | ⟨pre, o, post, h1, h2⟩
          · exact absurd h (by simp)
          · exact Or.inr ⟨opt :: pre, o, post, by rw [List.cons_append, ← h1], h2⟩
        | false =>
          simp only [hnx, Bool.false_eq_true, if_false] at hok hvx ⊢
          cases hv : strcasecmpEq opt "vx" with
          | true =>
            simp only [hv, if_true] at hok hvx ⊢
            match rest, hr, hok, hvx with
            | [], _, hok, _ =>
              simp only at hok
              rw [SetRes_not_ok _ _ _ (by decide)] at hok
              exact absurd hok (by decide)
            | target :: rest2, hr, hok, hvx =>
              simp only at hok hvx ⊢
              rcases ih rest2 _ (by simp at hr; omega) hok hvx with ⟨_, h⟩ | ⟨pre, o, post, h1, h2⟩
              · simp only at h
                exact Or.inr ⟨[], opt, rest2, by rw [h, List.nil_append], hv⟩
              · exact Or.inr ⟨opt :: target :: pre, o, post, by
                  rw [List.cons_append, List.cons_append, ← h1], h2⟩
          | false =>
            simp only [hv, Bool.false_eq_true, if_false] at hok hvx ⊢
            cases hex : (strcasecmpEq opt "ex" || strcasecmpEq opt "px") with
            | true =>
              simp only [hex, if_true] at hok hvx ⊢
              match rest, hr, hok, hvx with
              | [], _, hok, _ =>
                simp only at hok
                rw [SetRes_not_ok _ _ _ (by decide)] at hok
                exact absurd hok (by decide)
              | num :: rest2, hr, hok, hvx =>
                simp only at hok hvx ⊢
                cases hnum : string2int num with
                | none =>
                  simp only [hnum] at hok
                  rw [SetRes_not_ok _ _ _ (by decide)] at hok
                  exact absurd hok (by decide)
                | some v =>
                  simp only [hnum] at hok hvx ⊢
                  rcases ih rest2 _ (by simp at hr; omega) hok hvx with
                    ⟨h, ht⟩ | ⟨pre, o, post, h1, h2⟩
                  · left
                    simp only at h ht
                    refine ⟨?_, ht⟩
                    by_cases hc : c.condition_ = SetCondition.kNONE
                    · rw [if_pos hc] at h
                      exact absurd h (by decide)
                    · rw [if_neg hc] at h
                      exact h
                  · exact Or.inr ⟨opt :: num :: pre, o, post, by
                      rw [List.cons_append, List.cons_append, ← h1], h2⟩
            | false =>
              simp only [hex, Bool.false_eq_true, if_false] at hok
              rw [SetRes_not_ok _ _ _ (by decide)] at hok
              exact absurd hok (by decide)

/-! ## Replication entry of SET in the VX mode -/

/-- The decimal rendering of a number other than the digit `d`, followed by a line
terminator, is not the digit `d` followed by a line terminator. -/
theorem toDigits_header_ne_digit (m d : Nat) (hd : d < 10) (hm : m ≠ d) (X Y : List Char) :
    Nat.toDigits 10 m ++ '\r' :: X ≠ Nat.digitChar d :: '\r' :: Y := by
  intro h
  rw [toDigits_rec] at h
  split at h
  · rename_i h10
    simp only [List.singleton_append, List.cons.injEq] at h
    have hinj : ∀ a : Nat, a < 10 → ∀ b : Nat, b < 10 → Nat.digitChar a = Nat.digitChar b → a = b := by
      decide
    have h4 := hinj (m % 10) (Nat.mod_lt _ (by decide)) d hd h.1
    omega
  · have hne := toDigits_ne_nil (m / 10)
    cases hL : Nat.toDigits 10 (m / 10) with
    | nil => exact hne hL
    | cons c cs =>
      rw [hL] at h
      have hdm := digitChar_props (m % 10) (Nat.mod_lt _ (by decide))
      cases cs with
      | nil =>
        simp only [List.cons_append, List.nil_append, List.cons.injEq] at h
        have h2 := hdm.2.1
        rw [h.2.1] at h2
        exact absurd h2 (by decide)
      | cons c2 cs2 =>
        simp only [List.cons_append, List.cons.injEq] at h
        have h2 := toDigits_isDigit (m / 10) c2 (by rw [hL]; simp)
        rw [h.2.1] at h2
        exact absurd h2 (by decide)

/-- A three-element entry is never the verbatim form of an argument vector of another length. -/
theorem encodeArgs_three_ne_verbatim (a b c : String) (argv : List String) (h : argv.length ≠ 3) :
    encodeArgs [a, b, c] ≠ Cmd.ToRedisProtocol argv := by
  intro heq
  have hd := congrArg String.data heq
  unfold encodeArgs Cmd.ToRedisProtocol at hd
  obtain ⟨X, hX⟩ := foldl_appendBulk_data [a, b, c] (RedisAppendLenUint64 "" [a, b, c].length "*")
  obtain ⟨Y, hY⟩ := foldl_appendBulk_data argv (RedisAppendLenUint64 "" argv.length "*")
  rw [hX, hY, header_data, header_data, show [a, b, c].length = 3 from rfl,
    show Nat.toDigits 10 3 = [Nat.digitChar 3] from by decide] at hd
  simp only [List.cons_append, List.nil_append, List.cons.injEq, true_and, List.append_assoc] at hd
  exact toDigits_header_ne_digit argv.length 3 (by decide) h _ _ hd.symm

/-- `SetCmd::Do` changes the result and `success_` only. -/
theorem SetCmd_Do_frame (c : SetCmd) (db : StringsDB) (index : List String) :
    (c.Do db index).1.argv_ = c.argv_ ∧ (c.Do db index).1.key_ = c.key_ ∧
    (c.Do db index).1.value_ = c.value_ ∧ (c.Do db index).1.sec_ = c.sec_ ∧
    (c.Do db index).1.condition_ = c.condition_ ∧ (c.Do db index).1.target_ = c.target_ := by
  unfold SetCmd.Do
  simp only
  split
  · split
    · exact ⟨rfl, rfl, rfl, rfl, rfl, rfl⟩
    · split
      · exact ⟨rfl, rfl, rfl, rfl, rfl, rfl⟩
      · exact ⟨rfl, rfl, rfl, rfl, rfl, rfl⟩
  · exact ⟨rfl, rfl, rfl, rfl, rfl, rfl⟩

/-- The replication entry of SET reads the argument vector, the key, the value, the expiry
and the mode only. -/
theorem SetCmd_entry_congr (c d : SetCmd) (now : Int) (h1 : d.argv_ = c.argv_)
    (h2 : d.key_ = c.key_) (h3 : d.value_ = c.value_) (h4 : d.sec_ = c.sec_)
    (h5 : d.condition_ = c.condition_) : d.ToRedisProtocol now = c.ToRedisProtocol now := by
  unfold SetCmd.ToRedisProtocol
  rw [h1, h2, h3, h4, h5]

theorem SetCmd_Do_entry (c : SetCmd) (db : StringsDB) (index : List String) (now : Int) :
    (c.Do db index).1.ToRedisProtocol now = c.ToRedisProtocol now := by
  obtain ⟨h1, h2, h3, h4, h5, _⟩ := SetCmd_Do_frame c db index
  exact SetCmd_entry_congr c _ now h1 h2 h3 h4 h5

/-- C15 (as stated) fails: `SET k v vx t` is logged as the original argument vector, VX token
and comparison target included, whether the compare-and-set succeeded or not, and
not as the plain form `[set, k, v]`. -/
theorem SetCmd_vx_entry_keeps_vx :
    (SetCmd.init.Initial ["set", "k", "v", "vx", "t"]).res_.ok = true ∧
    (SetCmd.init.Initial ["set", "k", "v", "vx", "t"]).condition_ = SetCondition.kVX ∧
    ((SetCmd.init.Initial ["set", "k", "v", "vx", "t"]).Do (sampleDB 1) []).1.ToRedisProtocol
        1700000000 = encodeArgs ["set", "k", "v", "vx", "t"] ∧
    ((SetCmd.init.Initial ["set", "k", "v", "vx", "t"]).Do (sampleDB 0) []).1.ToRedisProtocol
        1700000000 = encodeArgs ["set", "k", "v", "vx", "t"] ∧
    encodeArgs ["set", "k", "v", "vx", "t"] ≠ encodeArgs ["set", "k", "v"] := by
  decide

/-- C15 (amended): for every SET that parses successfully into the VX compare-and-set mode,
the replication entry is the original argument vector verbatim, whatever the engine
reported and whatever the runtime outcome `success_` was: it carries the VX token and
the comparison target, and it is not the plain form `[set, key, value]`. -/
theorem SetCmd_vx_entry_is_verbatim (argv : List String) (db : StringsDB)
    (index : List String) (now : Int)
    (hok : (SetCmd.init.Initial argv).res_.ok = true)
    (hvx : (SetCmd.init.Initial argv).condition_ = SetCondition.kVX) :
    ((SetCmd.init.Initial argv).Do db index).1.ToRedisProtocol now = Cmd.ToRedisProtocol argv ∧
    (∃ pre opt post, argv.drop 3 = pre ++ opt :: (SetCmd.init.Initial argv).target_ :: post ∧
      strcasecmpEq opt "vx" = true) ∧
    ((SetCmd.init.Initial argv).Do db index).1.ToRedisProtocol now
      ≠ encodeArgs ["set", argAt argv 1, argAt argv 2] := by
  have hentry : ((SetCmd.init.Initial argv).Do db index).1.ToRedisProtocol now
      = Cmd.ToRedisProtocol argv := by
    rw [SetCmd_Do_entry]
    have hargv : (SetCmd.init.Initial argv).argv_ = argv := by
      unfold SetCmd.Initial SetCmd.DoInitial
      split
      · rfl
      · exact (parseOptions_frame _ _ _ (Nat.le_refl _)).1
    unfold SetCmd.ToRedisProtocol
    rw [hvx, hargv]
    simp
  have htok : ∃ pre opt post,
      argv.drop 3 = pre ++ opt :: (SetCmd.init.Initial argv).target_ :: post ∧
      strcasecmpEq opt "vx" = true := by
    unfold SetCmd.Initial SetCmd.DoInitial at hok hvx ⊢
    by_cases hc : CheckArg kSetArity argv.length = true
    · simp only [hc, Bool.not_true, Bool.false_eq_true, if_false] at hok hvx ⊢
      rcases parseOptions_vx _ _ _ (Nat.le_refl _) hok hvx with ⟨h, _⟩ | h
      · exact absurd h (by simp)
      · exact h
    · simp only [hc, Bool.not_false, if_true] at hok
      rw [SetRes_not_ok _ _ _ (by decide)] at hok
      exact absurd hok (by decide)
  refine ⟨hentry, htok, ?_⟩
  rw [hentry]
  intro h
  refine encodeArgs_three_ne_verbatim _ _ _ argv ?_ h.symm
  obtain ⟨pre, opt, post, hd, _⟩ := htok
  have hl := congrArg List.length hd
  simp only [List.length_drop, List.length_append, List.length_cons] at hl
  omega

/-- Witness for C15: `SET k v VX t`. -/
theorem SetCmd_vx_entry_is_verbatim_witness :
    ((SetCmd.init.Initial ["set", "k", "v", "VX", "t"]).res_.ok = true ∧
      (SetCmd.init.Initial ["set", "k", "v", "VX", "t"]).condition_ = SetCondition.kVX) ∧
    ((SetCmd.init.Initial ["set", "k", "v", "VX", "t"]).Do (sampleDB 0) []).1.ToRedisProtocol
        1700000000 = Cmd.ToRedisProtocol ["set", "k", "v", "VX", "t"] :=
  ⟨by decide, (SetCmd_vx_entry_is_verbatim ["set", "k", "v", "VX", "t"] (sampleDB 0) []
    1700000000 (by decide) (by decide)).1⟩

/-! ## Secondary Key Index updates of the write commands -/

theorem mem_AddSlotKey_self (type key : String) (index : List String) :
    key ∈ AddSlotKey type key index := by
  unfold AddSlotKey
  split
  · assumption
  · simp

theorem mem_AddSlotKey_of_mem (type key k : String) (index : List String) (h : k ∈ index) :
    k ∈ AddSlotKey type key index := by
  unfold AddSlotKey
  split
  · exact h
  · simp [h]

theorem mem_foldl_AddSlotKey (kvs : List KeyValue) : ∀ index : List String,
    (∀ k ∈ index, k ∈ kvs.foldl (fun idx kv => AddSlotKey "k" kv.key idx) index) ∧
    (∀ kv ∈ kvs, kv.key ∈ kvs.foldl (fun idx kv => AddSlotKey "k" kv.key idx) index) := by
  induction kvs with
  | nil => intro index; simp
  | cons kv rest ih =>
    intro index
    rw [List.foldl_cons]
    obtain ⟨h1, h2⟩ := ih (AddSlotKey "k" kv.key index)
    constructor
    · intro k hk
      exact h1 k (mem_AddSlotKey_of_mem _ _ _ _ hk)
    · intro x hx
      rcases List.mem_cons.mp hx with rfl | hx
      · exact h1 _ (mem_AddSlotKey_self _ _ _)
      · exact h2 x hx

theorem SetCmd_Do_index (c : SetCmd) (db : StringsDB) (index : List String)
    (hres : c.res_.ret_ = CmdRet.kNone) :
    (c.Do db index).2
      = if (c.Do db index).1.res_.ret_ = CmdRet.kOk then AddSlotKey "k" c.key_ index else index := by
  unfold SetCmd.Do
  simp only
  split
  · split
    · simp [CmdRes.AppendInteger, hres]
    · split
      · simp [CmdRes.SetRes]
      · simp [CmdRes.AppendStringLen, hres]
  · simp [CmdRes.SetRes]

/-- C20: whenever SET (replying OK), MSET, APPEND, SETRANGE, INCR, INCRBY, INCRBYFLOAT or
GETSET executes successfully, the key (every key of the request for MSET) has been
added to the Secondary Key Index; when the engine reports a failure, the index is
unchanged. -/
theorem index_updated_on_successful_write (db : StringsDB) (index : List String)
    (set : SetCmd) (mset : MsetCmd) (msetf : List KeyValue → Status) (app : AppendCmd)
    (setrange : SetrangeCmd) (incr : IncrCmd) (incrby : IncrbyCmd)
    (incrbyfloat : IncrbyfloatCmd) (getset : GetsetCmd)
    (hset : set.res_.ret_ = CmdRet.kNone) :
    ((set.Do db index).2
      = if (set.Do db index).1.res_.ret_ = CmdRet.kOk then AddSlotKey "k" set.key_ index
        else index) ∧
    ((mset.Do msetf index).2
      = if (msetf mset.kvs_).ok then mset.kvs_.foldl (fun idx kv => AddSlotKey "k" kv.key idx) index
        else index) ∧
    (∀ kv ∈ mset.kvs_, kv.key ∈ mset.kvs_.foldl (fun idx kv => AddSlotKey "k" kv.key idx) index) ∧
    ((app.Do db index).2
      = if (db.Append app.key_ app.value_).1.ok || (db.Append app.key_ app.value_).1.IsNotFound
        then AddSlotKey "k" app.key_ index else index) ∧
    ((setrange.Do db index).2
      = if (db.Setrange setrange.key_ setrange.offset_ setrange.value_).1.ok
        then AddSlotKey "k" setrange.key_ index else index) ∧
    ((incr.Do db index).2
      = if (db.Incrby incr.key_ 1).1.ok then AddSlotKey "k" incr.key_ index else index) ∧
    ((incrby.Do db index).2
      = if (db.Incrby incrby.key_ incrby.by_).1.ok then AddSlotKey "k" incrby.key_ index
        else index) ∧
    ((incrbyfloat.Do db index).2
      = if (db.Incrbyfloat incrbyfloat.key_ incrbyfloat.value_).1.ok
        then AddSlotKey "k" incrbyfloat.key_ index else index) ∧
    ((getset.Do db index).2
      = if (db.GetSet getset.key_ getset.new_value_).1.ok then AddSlotKey "k" getset.key_ index
        else index) ∧
    (∀ key : String, key ∈ AddSlotKey "k" key index) := by
  refine ⟨SetCmd_Do_index set db index hset, ?_, (mem_foldl_AddSlotKey mset.kvs_ index).2,
    ?_, ?_, ?_, ?_, ?_, ?_, fun key => mem_AddSlotKey_self _ _ _⟩
  · unfold MsetCmd.Do
    simp only
    split <;> rfl
  · unfold AppendCmd.Do
    simp only
    split <;> rfl
  · unfold SetrangeCmd.Do
    simp only
    split <;> rfl
  · unfold IncrCmd.Do
    simp only
    split
    · rfl
    · split
      · rfl
      · split <;> rfl
  · unfold IncrbyCmd.Do
    simp only
    split
    · rfl
    · split
      · rfl
      · split <;> rfl
  · unfold IncrbyfloatCmd.Do
    simp only
    split
    · rfl
    · split
      · rfl
      · split <;> rfl
  · unfold GetsetCmd.Do
    simp only
    split <;> rfl

/-- Witness for C20: `SET k v` on an engine that succeeds, starting from an empty index. -/
theorem index_updated_on_successful_write_witness :
    (SetCmd.init.Initial ["set", "k", "v"]).res_.ret_ = CmdRet.kNone ∧
    ((SetCmd.init.Initial ["set", "k", "v"]).Do (sampleDB 1) []).1.res_.ret_ = CmdRet.kOk ∧
    ((SetCmd.init.Initial ["set", "k", "v"]).Do (sampleDB 1) []).2 = ["k"] ∧
    ((SetCmd.init.Initial ["set", "k", "v"]).Do brokenDB []).2 = [] :=
  ⟨by decide, by decide,
   (index_updated_on_successful_write (sampleDB 1) [] (SetCmd.init.Initial ["set", "k", "v"])
      MsetCmd.init healthyMSet { res_ := CmdRes.clear, key_ := "k", value_ := "v" }
      { res_ := CmdRes.clear, key_ := "k", offset_ := 0, value_ := "v" }
      { res_ := CmdRes.clear, key_ := "k", new_value_ := 0 }
      { res_ := CmdRes.clear, key_ := "k", by_ := 1, new_value_ := 0 }
      { res_ := CmdRes.clear, key_ := "k", value_ := "1", new_value_ := "" }
      { res_ := CmdRes.clear, key_ := "k", new_value_ := "v" } (by decide)).1,
   by decide⟩

/-! ## The scanning loops -/

/-- The fields of the state after one pass of the SCAN loop body. -/
theorem ScanCmd_body_fields (step : Int) (raw_limit : Nat) (scan : ScanFn) (c : ScanCmd)
    (st : ScanLoop) :
    (ScanCmd.body step raw_limit scan c st).1.left
      = (if st.left > step then st.left - step else 0) ∧
    (ScanCmd.body step raw_limit scan c st).1.cursor_ret
      = (scan st.calls.length c.type_ st.cursor_ret c.pattern_
          (if st.left < step then st.left else step)).1 ∧
    (ScanCmd.body step raw_limit scan c st).1.raw
      = (scan st.calls.length c.type_ st.cursor_ret c.pattern_
          (if st.left < step then st.left else step)).2.foldl appendBulk st.raw ∧
    (ScanCmd.body step raw_limit scan c st).1.calls
      = st.calls ++ [ScanCall.mk st.cursor_ret (if st.left < step then st.left else step)
          (scan st.calls.length c.type_ st.cursor_ret c.pattern_
            (if st.left < step then st.left else step)).1
          (scan st.calls.length c.type_ st.cursor_ret c.pattern_
            (if st.left < step then st.left else step)).2] ∧
    ((ScanCmd.body step raw_limit scan c st).2
      = decide ((ScanCmd.body step raw_limit scan c st).1.raw.utf8ByteSize ≥ raw_limit)) ∧
    ((ScanCmd.body step raw_limit scan c st).2 = false →
      (ScanCmd.body step raw_limit scan c st).1.total_key
        = st.total_key + ((scan st.calls.length c.type_ st.cursor_ret c.pattern_
            (if st.left < step then st.left else step)).2.length : Int)) := by
  unfold ScanCmd.body
  dsimp only
  by_cases h : ((scan st.calls.length c.type_ st.cursor_ret c.pattern_
      (if st.left < step then st.left else step)).2.foldl appendBulk st.raw).utf8ByteSize
      ≥ raw_limit
  · rw [if_pos h]
    refine ⟨rfl, rfl, rfl, rfl, ?_, ?_⟩
    · exact (decide_eq_true h).symm
    · intro hf
      exact absurd hf (by simp)
  · rw [if_neg h]
    refine ⟨rfl, rfl, rfl, rfl, ?_, ?_⟩
    · exact (decide_eq_false h).symm
    · intro _
      rfl

/-- Loop rule for `ScanCmd::Do`: a property `P` of the loop variables that every pass without
the size check firing preserves, and that gives `R` when the check fires, holds at the end
of the loop; a loop that ended normally also has its exit condition. A pass starts either
with no call made or under the loop condition. -/
theorem ScanCmd_loop_rule (step : Int) (raw_limit : Nat) (scan : ScanFn) (c : ScanCmd)
    (P R : ScanLoop → Prop)
    (hgo : ∀ st, P st → (st.calls = [] ∨ (st.cursor_ret ≠ 0 ∧ st.left ≠ 0)) →
      (ScanCmd.body step raw_limit scan c st).2 = false →
      P (ScanCmd.body step raw_limit scan c st).1)
    (hex : ∀ st, P st → (st.calls = [] ∨ (st.cursor_ret ≠ 0 ∧ st.left ≠ 0)) →
      (ScanCmd.body step raw_limit scan c st).2 = true →
      R (ScanCmd.body step raw_limit scan c st).1) :
    ∀ (fuel : Nat) (st : ScanLoop), P st →
      (st.calls = [] ∨ (st.cursor_ret ≠ 0 ∧ st.left ≠ 0)) →
      (∀ s, ScanCmd.loop step raw_limit scan c fuel st = ScanOutcome.finished s →
        P s ∧ (s.cursor_ret = 0 ∨ s.left = 0) ∧ s.calls ≠ [] ∧ s.raw.utf8ByteSize < raw_limit) ∧
      (∀ s, ScanCmd.loop step raw_limit scan c fuel st = ScanOutcome.exceeded s →
        R s ∧ raw_limit ≤ s.raw.utf8ByteSize) ∧
      (∀ s, ScanCmd.loop step raw_limit scan c fuel st = ScanOutcome.running s → P s) := by
  intro fuel
  induction fuel with
  | zero =>
    intro st hP _
    refine ⟨fun s h => ?_, fun s h => ?_, fun s h => ?_⟩
    · simp [ScanCmd.loop] at h
    · simp [ScanCmd.loop] at h
    · simp only [ScanCmd.loop, ScanOutcome.running.injEq] at h
      subst h
      exact hP
  | succ fuel ih =>
    intro st hP hH
    have hf := ScanCmd_body_fields step raw_limit scan c st
    cases hb : (ScanCmd.body step raw_limit scan c st).2 with
    | true =>
      have hsz : raw_limit ≤ (ScanCmd.body step raw_limit scan c st).1.raw.utf8ByteSize := by
        have := hf.2.2.2.2.1
        rw [hb] at this
        simpa using this.symm
      refine ⟨fun s h => ?_, fun s h => ?_, fun s h => ?_⟩
      · simp [ScanCmd.loop, hb] at h
      · simp only [ScanCmd.loop, hb, if_true, ScanOutcome.exceeded.injEq] at h
        subst h
        exact ⟨hex st hP hH hb, hsz⟩
      · simp [ScanCmd.loop, hb] at h
    | false =>
      have hP1 := hgo st hP hH hb
      have hsz : (ScanCmd.body step raw_limit scan c st).1.raw.utf8ByteSize < raw_limit := by
        have := hf.2.2.2.2.1
        rw [hb] at this
        simpa using this.symm
      cases hc : ((ScanCmd.body step raw_limit scan c st).1.cursor_ret != 0 &&
          (ScanCmd.body step raw_limit scan c st).1.left != 0) with
      | true =>
        have hl : ScanCmd.loop step raw_limit scan c (fuel + 1) st
            = ScanCmd.loop step raw_limit scan c fuel (ScanCmd.body step raw_limit scan c st).1 := by
          simp only [ScanCmd.loop, hb, Bool.false_eq_true, if_false, hc, if_true]
        rw [hl]
        refine ih _ hP1 (Or.inr ?_)
        simpa only [Bool.and_eq_true, bne_iff_ne, ne_eq] using hc
      | false =>
        have hl : ScanCmd.loop step raw_limit scan c (fuel + 1) st
            = ScanOutcome.finished (ScanCmd.body step raw_limit scan c st).1 := by
          simp only [ScanCmd.loop, hb, Bool.false_eq_true, if_false, hc]
        rw [hl]
        refine ⟨fun s h => ?_, fun s h => ?_, fun s h => ?_⟩
        · simp only [ScanOutcome.finished.injEq] at h
          subst h
          refine ⟨hP1, ?_, ?_, hsz⟩
          · simp only [Bool.and_eq_false_iff, bne_eq_false_iff_eq] at hc
            exact hc
          · rw [hf.2.2.2.1]
            simp
        · simp at h
        · simp at h

/-- The SCAN loop ends within `left + 1` passes for every positive step length. -/
theorem ScanCmd_loop_terminates (step : Int) (raw_limit : Nat) (scan : ScanFn) (c : ScanCmd)
    (hstep : 0 < step) : ∀ (fuel : Nat) (st : ScanLoop), st.left.toNat < fuel →
    ∀ s, ScanCmd.loop step raw_limit scan c fuel st ≠ ScanOutcome.running s := by
  intro fuel
  induction fuel with
  | zero => intro st h; omega
  | succ fuel ih =>
    intro st hlt s
    have hf := ScanCmd_body_fields step raw_limit scan c st
    cases hb : (ScanCmd.body step raw_limit scan c st).2 with
    | true => simp [ScanCmd.loop, hb]
    | false =>
      cases hc : ((ScanCmd.body step raw_limit scan c st).1.cursor_ret != 0 &&
          (ScanCmd.body step raw_limit scan c st).1.left != 0) with
      | true =>
        have hl : ScanCmd.loop step raw_limit scan c (fuel + 1) st
            = ScanCmd.loop step raw_limit scan c fuel (ScanCmd.body step raw_limit scan c st).1 := by
          simp only [ScanCmd.loop, hb, Bool.false_eq_true, if_false, hc, if_true]
        rw [hl]
        apply ih
        simp only [Bool.and_eq_true, bne_iff_ne, ne_eq] at hc
        have hl := hf.1
        have hne := hc.2
        rw [hl] at hne ⊢
        by_cases hgt : st.left > step
        · rw [if_pos hgt]
          omega
        · rw [if_neg hgt] at hne
          exact absurd rfl hne
      | false => simp [ScanCmd.loop, hb, hc]

/-! ## The invariant of the SCAN loop -/

theorem callKeys_append (a : List ScanCall) (x : ScanCall) :
    callKeys (a ++ [x]) = callKeys a ++ x.keys := by
  simp [callKeys, List.flatMap_append]

theorem callCounts_append (a : List ScanCall) (x : ScanCall) :
    callCounts (a ++ [x]) = callCounts a ++ [x.batch_count] := by
  simp [callCounts]

theorem encodeKeys_append (a b : List String) :
    encodeKeys (a ++ b) = b.foldl appendBulk (encodeKeys a) := by
  unfold encodeKeys
  rw [List.foldl_append]

theorem chainEnd_append (start : Int) (a : List ScanCall) (x : ScanCall) :
    chainEnd start (a ++ [x]) = x.cursor_ret := by
  simp [chainEnd]

theorem chainEnd_cons (start : Int) (x : ScanCall) (a : List ScanCall) :
    chainEnd start (x :: a) = chainEnd x.cursor_ret a := by
  cases a with
  | nil => simp [chainEnd]
  | cons y a =>
    unfold chainEnd
    rw [List.getLast?_cons_cons, List.getLast?_eq_getLast _ (List.cons_ne_nil y a)]
    rfl

theorem isCursorChain_append (x : ScanCall) : ∀ (a : List ScanCall) (start : Int),
    isCursorChain start a → x.cursor = chainEnd start a → isCursorChain start (a ++ [x])
  | [], start, _, h => by
    simp only [chainEnd, List.getLast?_nil, Option.map_none', Option.getD_none] at h
    exact ⟨h, trivial⟩
  | y :: a, start, hc, h => by
    rw [chainEnd_cons] at h
    exact ⟨hc.1, isCursorChain_append x a y.cursor_ret hc.2 h⟩

/-- Every pass of the SCAN loop body keeps the loop invariant. -/
theorem ScanInv_body (step : Int) (raw_limit : Nat) (scan : ScanFn) (c : ScanCmd)
    (st : ScanLoop) (h : ScanInv step scan c st) :
    ScanInv step scan c (ScanCmd.body step raw_limit scan c st).1 := by
  obtain ⟨hl, hcur, hraw, hcalls, _, _⟩ := ScanCmd_body_fields step raw_limit scan c st
  constructor
  · rw [hraw, hcalls, callKeys_append, encodeKeys_append, ← h.raw_eq]
  · rw [hcalls]
    exact isCursorChain_append _ _ _ h.chain h.cursor_eq
  · rw [hcalls, chainEnd_append, hcur]
  · rw [hl, hcalls, callCounts_append, List.sum_append, h.left_eq]
    simp only [List.sum_cons, List.sum_nil, add_zero]
    split_ifs <;> omega
  · intro _
    rw [hl]
    split_ifs <;> omega
  · intro i hi
    rw [hcalls, callCounts_append]
    rw [hcalls, List.length_append, List.length_singleton] at hi
    have hlen : (callCounts st.calls).length = st.calls.length := by simp [callCounts]
    by_cases hlt : i < st.calls.length
    · rw [List.getElem?_append_left (by omega), List.take_append_of_le_length (by omega)]
      exact h.batch i hlt
    · have hi2 : i = (callCounts st.calls).length := by omega
      subst hi2
      rw [List.getElem?_append_right (le_refl _), List.take_left]
      simp only [Nat.sub_self, List.getElem?_cons_zero, Option.some.injEq]
      rw [← h.left_eq, min_def]
      split_ifs <;> omega
  · intro i call hi
    rw [hcalls] at hi
    by_cases hlt : i < st.calls.length
    · rw [List.getElem?_append_left hlt] at hi
      exact h.answer i call hi
    · rw [List.getElem?_append_right (not_lt.mp hlt)] at hi
      cases hk : i - st.calls.length with
      | zero =>
        rw [hk] at hi
        simp only [List.getElem?_cons_zero, Option.some.injEq] at hi
        have hi2 : i = st.calls.length := by omega
        subst hi hi2
        rfl
      | succ k =>
        rw [hk] at hi
        simp at hi

theorem ScanInv_initial (step : Int) (scan : ScanFn) (c : ScanCmd) :
    ScanInv step scan c
      { left := c.count_, cursor_ret := c.cursor_, raw := "", total_key := 0, calls := [] } := by
  constructor
  · rfl
  · trivial
  · rfl
  · simp [callCounts]
  · intro h
    exact h
  · intro i hi
    simp at hi
  · intro i call hi
    simp at hi

/-- What is known of the loop variables of `ScanCmd::Do` for each way the loop can end. -/
theorem ScanCmd_run_facts (step : Int) (raw_limit : Nat) (scan : ScanFn) (c : ScanCmd) :
    (∀ s, ScanCmd.run step raw_limit scan c = ScanOutcome.finished s →
      (ScanInv step scan c s ∧ s.total_key = ((callKeys s.calls).length : Int) ∧
        (∀ j, j < s.calls.length →
          (encodeKeys (callKeys (s.calls.take (j + 1)))).utf8ByteSize < raw_limit)) ∧
      (s.cursor_ret = 0 ∨ s.left = 0) ∧ s.calls ≠ [] ∧ s.raw.utf8ByteSize < raw_limit) ∧
    (∀ s, ScanCmd.run step raw_limit scan c = ScanOutcome.exceeded s →
      ScanInv step scan c s ∧ raw_limit ≤ s.raw.utf8ByteSize) ∧
    (∀ s, ScanCmd.run step raw_limit scan c = ScanOutcome.running s →
      ScanInv step scan c s ∧ s.total_key = ((callKeys s.calls).length : Int) ∧
        (∀ j, j < s.calls.length →
          (encodeKeys (callKeys (s.calls.take (j + 1)))).utf8ByteSize < raw_limit)) := by
  unfold ScanCmd.run
  apply ScanCmd_loop_rule step raw_limit scan c
    (fun s => ScanInv step scan c s ∧ s.total_key = ((callKeys s.calls).length : Int) ∧
        (∀ j, j < s.calls.length →
          (encodeKeys (callKeys (s.calls.take (j + 1)))).utf8ByteSize < raw_limit))
    (fun s => ScanInv step scan c s)
  · intro st hP _ hb
    have hinv := ScanInv_body step raw_limit scan c st hP.1
    obtain ⟨_, _, hraw, hcalls, hdec, htot⟩ := ScanCmd_body_fields step raw_limit scan c st
    refine ⟨hinv, ?_, ?_⟩
    · rw [htot hb, hcalls, callKeys_append, List.length_append, hP.2.1]
      push_cast
      rfl
    · intro j hj
      rw [hcalls, List.length_append, List.length_singleton] at hj
      by_cases hlt : j < st.calls.length
      · rw [hcalls, List.take_append_of_le_length (by omega)]
        exact hP.2.2 j hlt
      · have hj2 : j + 1 = (ScanCmd.body step raw_limit scan c st).1.calls.length := by
          rw [hcalls, List.length_append, List.length_singleton]
          omega
        rw [hj2, List.take_length, ← hinv.raw_eq]
        rw [hb] at hdec
        simpa using hdec.symm
  · intro st hP _ _
    exact ScanInv_body step raw_limit scan c st hP.1
  · refine ⟨ScanInv_initial step scan c, rfl, ?_⟩
    intro j hj
    simp at hj
  · exact Or.inl rfl

/-- The loop of `ScanCmd::Do` ends within the passes of `run` when the step length is
positive. -/
theorem ScanCmd_run_ends (step : Int) (raw_limit : Nat) (scan : ScanFn) (c : ScanCmd)
    (hstep : 0 < step) (s : ScanLoop) :
    ScanCmd.run step raw_limit scan c ≠ ScanOutcome.running s := by
  unfold ScanCmd.run
  apply ScanCmd_loop_terminates step raw_limit scan c hstep
  show c.count_.toNat < c.count_.toNat + 1
  omega

/-! ## The requests and the cursor of SCAN -/

theorem chainEnd_last (start : Int) (calls : List ScanCall) (h : calls ≠ []) :
    ∃ last, calls.getLast? = some last ∧ chainEnd start calls = last.cursor_ret ∧
      last ∈ calls := by
  refine ⟨calls.getLast h, List.getLast?_eq_getLast _ h, ?_, List.getLast_mem h⟩
  unfold chainEnd
  rw [List.getLast?_eq_getLast _ h]
  rfl

theorem ll2string_eq_zero (v : Int) : ll2string v = "0" ↔ v = 0 := by
  constructor
  · intro h
    have hd : (ll2string v).data = ['0'] := by rw [h]
    unfold ll2string at hd
    split at hd
    · simp at hd
    · simp only at hd
      rw [toDigits_rec] at hd
      split at hd
      · rename_i h10
        simp only [List.cons.injEq, and_true] at hd
        have hinj : ∀ a : Nat, a < 10 → Nat.digitChar a = '0' → a = 0 := by decide
        have := hinj (v.natAbs % 10) (Nat.mod_lt _ (by decide)) hd
        omega
      · have hne := toDigits_ne_nil (v.natAbs / 10)
        cases hx : Nat.toDigits 10 (v.natAbs / 10) with
        | nil => exact absurd hx hne
        | cons a b =>
          rw [hx] at hd
          simp at hd
  · intro h
    subst h
    decide

/-- C16: in `ScanCmd::Do` with a positive `count_` (and a positive step length) the loop ends
within the passes of the model; the i-th engine call requests
`min(count_ - sum of the earlier requests, PIKA_SCAN_STEP_LENGTH)` keys and its recorded
answer is the engine's answer to that request; the requests sum to at most `count_`, and
to exactly `count_` when the loop ended normally and no call returned the cursor 0. -/
theorem ScanCmd_batch_sizes (step : Int) (raw_limit : Nat) (scan : ScanFn) (c : ScanCmd)
    (hstep : 0 < step) (hcount : 0 < c.count_) :
    (∀ s, ScanCmd.run step raw_limit scan c ≠ ScanOutcome.running s) ∧
    (∀ i, i < (ScanCmd.run step raw_limit scan c).state.calls.length →
      (callCounts (ScanCmd.run step raw_limit scan c).state.calls)[i]?
        = some (min (c.count_
            - ((callCounts (ScanCmd.run step raw_limit scan c).state.calls).take i).sum) step)) ∧
    (∀ i call, (ScanCmd.run step raw_limit scan c).state.calls[i]? = some call →
      (call.cursor_ret, call.keys) = scan i c.type_ call.cursor c.pattern_ call.batch_count) ∧
    (callCounts (ScanCmd.run step raw_limit scan c).state.calls).sum ≤ c.count_ ∧
    (∀ s, ScanCmd.run step raw_limit scan c = ScanOutcome.finished s →
      (∀ call ∈ s.calls, call.cursor_ret ≠ 0) → (callCounts s.calls).sum = c.count_) := by
  obtain ⟨hfin, hexc, hrun⟩ := ScanCmd_run_facts step raw_limit scan c
  have hinv : ScanInv step scan c (ScanCmd.run step raw_limit scan c).state := by
    cases ho : ScanCmd.run step raw_limit scan c with
    | finished s => exact (hfin s ho).1.1
    | exceeded s => exact (hexc s ho).1
    | running s => exact (hrun s ho).1
  refine ⟨ScanCmd_run_ends step raw_limit scan c hstep, hinv.batch, hinv.answer, ?_, ?_⟩
  · have h1 := hinv.left_eq
    have h2 := hinv.left_nonneg (le_of_lt hcount)
    omega
  · intro s ho hall
    obtain ⟨⟨hi, _, _⟩, hexit, hne, _⟩ := hfin s ho
    obtain ⟨last, _, hend, hmem⟩ := chainEnd_last c.cursor_ s.calls hne
    have hcur : s.cursor_ret ≠ 0 := by
      rw [hi.cursor_eq, hend]
      exact hall last hmem
    have hleft : s.left = 0 := by
      cases hexit with
      | inl h => exact absurd h hcur
      | inr h => exact h
    have h1 := hi.left_eq
    omega

theorem ScanCmd_batch_sizes_witness :
    (0 : Int) < 2 ∧ 0 < sampleScanCmd.count_ ∧
    ((∀ s, ScanCmd.run 2 1000 (listScan sampleKeys) sampleScanCmd ≠ ScanOutcome.running s) ∧
    (∀ i, i < (ScanCmd.run 2 1000 (listScan sampleKeys) sampleScanCmd).state.calls.length →
      (callCounts (ScanCmd.run 2 1000 (listScan sampleKeys) sampleScanCmd).state.calls)[i]?
        = some (min (sampleScanCmd.count_
            - ((callCounts
                (ScanCmd.run 2 1000 (listScan sampleKeys) sampleScanCmd).state.calls).take i).sum)
            2)) ∧
    (∀ i call,
      (ScanCmd.run 2 1000 (listScan sampleKeys) sampleScanCmd).state.calls[i]? = some call →
      (call.cursor_ret, call.keys)
        = listScan sampleKeys i sampleScanCmd.type_ call.cursor sampleScanCmd.pattern_
            call.batch_count) ∧
    (callCounts (ScanCmd.run 2 1000 (listScan sampleKeys) sampleScanCmd).state.calls).sum
      ≤ sampleScanCmd.count_ ∧
    (∀ s, ScanCmd.run 2 1000 (listScan sampleKeys) sampleScanCmd = ScanOutcome.finished s →
      (∀ call ∈ s.calls, call.cursor_ret ≠ 0) →
      (callCounts s.calls).sum = sampleScanCmd.count_)) :=
  ⟨by decide, by decide,
    ScanCmd_batch_sizes 2 1000 (listScan sampleKeys) sampleScanCmd (by decide) (by decide)⟩

/-! ## The loop of KEYS -/

/-- The fields of the state after one pass of the KEYS loop body. -/
theorem KeysCmd_body_fields (step : Int) (raw_limit : Nat) (scan : ScanFn) (c : KeysCmd)
    (st : ScanLoop) :
    (KeysCmd.body step raw_limit scan c st).1.cursor_ret
      = (scan st.calls.length c.type_ st.cursor_ret c.pattern_ step).1 ∧
    (KeysCmd.body step raw_limit scan c st).1.raw
      = (scan st.calls.length c.type_ st.cursor_ret c.pattern_ step).2.foldl appendBulk st.raw ∧
    (KeysCmd.body step raw_limit scan c st).1.calls
      = st.calls ++ [ScanCall.mk st.cursor_ret step
          (scan st.calls.length c.type_ st.cursor_ret c.pattern_ step).1
          (scan st.calls.length c.type_ st.cursor_ret c.pattern_ step).2] ∧
    ((KeysCmd.body step raw_limit scan c st).2
      = decide ((KeysCmd.body step raw_limit scan c st).1.raw.utf8ByteSize ≥ raw_limit)) ∧
    ((KeysCmd.body step raw_limit scan c st).2 = false →
      (KeysCmd.body step raw_limit scan c st).1.total_key
        = st.total_key
          + ((scan st.calls.length c.type_ st.cursor_ret c.pattern_ step).2.length : Int)) := by
  unfold KeysCmd.body
  dsimp only
  by_cases h : ((scan st.calls.length c.type_ st.cursor_ret c.pattern_
      step).2.foldl appendBulk st.raw).utf8ByteSize ≥ raw_limit
  · rw [if_pos h]
    refine ⟨rfl, rfl, rfl, ?_, ?_⟩
    · exact (decide_eq_true h).symm
    · intro hf
      exact absurd hf (by simp)
  · rw [if_neg h]
    refine ⟨rfl, rfl, rfl, ?_, ?_⟩
    · exact (decide_eq_false h).symm
    · intro _
      rfl

/-- What is known of the loop variables of `KeysCmd::Do` for each way the loop can end, from
a state whose fragment and count are those of the calls made. -/
theorem KeysCmd_loop_facts (step : Int) (raw_limit : Nat) (scan : ScanFn) (c : KeysCmd) :
    ∀ (fuel : Nat) (st : ScanLoop),
      (st.raw = encodeKeys (callKeys st.calls) ∧
        st.total_key = ((callKeys st.calls).length : Int) ∧
        (∀ j, j < st.calls.length →
          (encodeKeys (callKeys (st.calls.take (j + 1)))).utf8ByteSize < raw_limit)) →
      (∀ s, KeysCmd.loop step raw_limit scan c fuel st ≠ ScanOutcome.exceeded s →
        s = (KeysCmd.loop step raw_limit scan c fuel st).state →
        s.raw = encodeKeys (callKeys s.calls) ∧
        s.total_key = ((callKeys s.calls).length : Int) ∧
        (∀ j, j < s.calls.length →
          (encodeKeys (callKeys (s.calls.take (j + 1)))).utf8ByteSize < raw_limit)) := by
  intro fuel
  induction fuel with
  | zero =>
    intro st hP s _ hs
    subst hs
    exact hP
  | succ fuel ih =>
    intro st hP s hne hs
    obtain ⟨_, hraw, hcalls, hdec, htot⟩ := KeysCmd_body_fields step raw_limit scan c st
    cases hb : (KeysCmd.body step raw_limit scan c st).2 with
    | true =>
      have hl : KeysCmd.loop step raw_limit scan c (fuel + 1) st
          = ScanOutcome.exceeded (KeysCmd.body step raw_limit scan c st).1 := by
        simp only [KeysCmd.loop, hb, if_true]
      rw [hl] at hne hs
      exact absurd (congrArg ScanOutcome.exceeded hs.symm) hne
    | false =>
      have hP1 : (KeysCmd.body step raw_limit scan c st).1.raw
            = encodeKeys (callKeys (KeysCmd.body step raw_limit scan c st).1.calls) ∧
          (KeysCmd.body step raw_limit scan c st).1.total_key
            = ((callKeys (KeysCmd.body step raw_limit scan c st).1.calls).length : Int) ∧
          (∀ j, j < (KeysCmd.body step raw_limit scan c st).1.calls.length →
            (encodeKeys (callKeys
              ((KeysCmd.body step raw_limit scan c st).1.calls.take (j + 1)))).utf8ByteSize
              < raw_limit) := by
        have hr : (KeysCmd.body step raw_limit scan c st).1.raw
            = encodeKeys (callKeys (KeysCmd.body step raw_limit scan c st).1.calls) := by
          rw [hraw, hcalls, callKeys_append, encodeKeys_append, ← hP.1]
        refine ⟨hr, ?_, ?_⟩
        · rw [htot hb, hcalls, callKeys_append, List.length_append, hP.2.1]
          push_cast
          rfl
        · intro j hj
          rw [hcalls, List.length_append, List.length_singleton] at hj
          by_cases hlt : j < st.calls.length
          · rw [hcalls, List.take_append_of_le_length (by omega)]
            exact hP.2.2 j hlt
          · have hj2 : j + 1 = (KeysCmd.body step raw_limit scan c st).1.calls.length := by
              rw [hcalls, List.length_append, List.length_singleton]
              omega
            rw [hj2, List.take_length, ← hr]
            rw [hb] at hdec
            simpa using hdec.symm
      cases hc : ((KeysCmd.body step raw_limit scan c st).1.cursor_ret != 0) with
      | true =>
        have hl : KeysCmd.loop step raw_limit scan c (fuel + 1) st
            = KeysCmd.loop step raw_limit scan c fuel (KeysCmd.body step raw_limit scan c st).1 := by
          simp only [KeysCmd.loop, hb, Bool.false_eq_true, if_false, hc, if_true]
        rw [hl] at hne hs
        exact ih _ hP1 s hne hs
      | false =>
        have hl : KeysCmd.loop step raw_limit scan c (fuel + 1) st
            = ScanOutcome.finished (KeysCmd.body step raw_limit scan c st).1 := by
          simp only [KeysCmd.loop, hb, Bool.false_eq_true, if_false, hc]
        rw [hl] at hs
        subst hs
        exact hP1

/-! ## The response-size cap of SCAN and KEYS -/

theorem utf8ByteSize_append_eq (s t : String) :
    (s ++ t).utf8ByteSize = s.utf8ByteSize + t.utf8ByteSize := by
  cases s with
  | mk a =>
    cases t with
    | mk b =>
      show String.utf8ByteSize ⟨a ++ b⟩ = _
      simp only [String.utf8ByteSize_mk, String.utf8Len_append]

theorem appendBulk_size (s a : String) :
    (appendBulk s a).utf8ByteSize = s.utf8ByteSize + (appendBulk "" a).utf8ByteSize := by
  unfold appendBulk RedisAppendContent RedisAppendLenUint64 RedisAppendLen
  simp only [utf8ByteSize_append_eq]
  have h : "".utf8ByteSize = 0 := by decide
  omega

theorem foldl_appendBulk_size (l : List String) : ∀ s : String,
    (l.foldl appendBulk s).utf8ByteSize
      = s.utf8ByteSize + (l.map (fun a => (appendBulk "" a).utf8ByteSize)).sum := by
  induction l with
  | nil => intro s; simp
  | cons a l ih =>
    intro s
    rw [List.foldl_cons, ih, appendBulk_size, List.map_cons, List.sum_cons]
    omega

/-- The serialized form of a part of a key list is no longer than that of the whole list. -/
theorem encodeKeys_size_le (ks : List String) (a b : Nat) :
    (encodeKeys ((ks.drop a).take b)).utf8ByteSize ≤ (encodeKeys ks).utf8ByteSize := by
  unfold encodeKeys
  rw [foldl_appendBulk_size, foldl_appendBulk_size]
  have hsub : ((ks.drop a).take b).Sublist ks :=
    (List.take_sublist _ _).trans (List.drop_sublist _ _)
  have := (hsub.map (fun a => (appendBulk "" a).utf8ByteSize)).sum_le_sum
    (fun _ _ => Nat.zero_le _)
  omega

/-! ## SCAN over a list engine -/

/-- One pass of the SCAN loop over the list engine: after `m` keys from position `k`, the
pass adds the next keys of the list. -/
theorem listScan_body (ks : List String) (step : Int) (raw_limit : Nat) (c : ScanCmd)
    (k n : Nat) (hstep : 0 < step) (hn : 0 < n)
    (st : ScanLoop)
    (hQ : ∃ m : Nat, m ≤ n ∧ st.left = (n : Int) - (m : Int) ∧
      callKeys st.calls = (ks.drop k).take m ∧ st.raw = encodeKeys (callKeys st.calls) ∧
      (st.calls = [] → m = 0 ∧ st.cursor_ret = (k : Int)) ∧
      (st.calls ≠ [] → 0 < m ∧
        st.cursor_ret = if k + m < ks.length then ((k + m : Nat) : Int) else 0))
    (hH : st.calls = [] ∨ (st.cursor_ret ≠ 0 ∧ st.left ≠ 0)) :
    ∃ m : Nat, m ≤ n ∧ (ScanCmd.body step raw_limit (listScan ks) c st).1.left
        = (n : Int) - (m : Int) ∧
      callKeys (ScanCmd.body step raw_limit (listScan ks) c st).1.calls = (ks.drop k).take m ∧
      (ScanCmd.body step raw_limit (listScan ks) c st).1.raw
        = encodeKeys (callKeys (ScanCmd.body step raw_limit (listScan ks) c st).1.calls) ∧
      ((ScanCmd.body step raw_limit (listScan ks) c st).1.calls = [] →
        m = 0 ∧ (ScanCmd.body step raw_limit (listScan ks) c st).1.cursor_ret = (k : Int)) ∧
      ((ScanCmd.body step raw_limit (listScan ks) c st).1.calls ≠ [] → 0 < m ∧
        (ScanCmd.body step raw_limit (listScan ks) c st).1.cursor_ret
          = if k + m < ks.length then ((k + m : Nat) : Int) else 0) := by
  obtain ⟨m, hmn, hleft, hkeys, hraw, hnil, hcons⟩ := hQ
  obtain ⟨hl, hcur, hr, hcalls, _, _⟩ := ScanCmd_body_fields step raw_limit (listScan ks) c st
  have hhead : st.cursor_ret = ((k + m : Nat) : Int) ∧ m < n := by
    by_cases he : st.calls = []
    · obtain ⟨h0, hc0⟩ := hnil he
      subst h0
      exact ⟨by simpa using hc0, hn⟩
    · obtain ⟨_, hc1⟩ := hcons he
      cases hH with
      | inl h => exact absurd h he
      | inr h =>
        obtain ⟨hne, hlne⟩ := h
        by_cases hlt : k + m < ks.length
        · rw [if_pos hlt] at hc1
          exact ⟨hc1, by omega⟩
        · rw [if_neg hlt] at hc1
          exact absurd hc1 hne
  obtain ⟨hcv, hmlt⟩ := hhead
  obtain ⟨bn, hbn⟩ : ∃ bn : Nat, (if st.left < step then st.left else step) = (bn : Int) ∧
      0 < bn ∧ bn ≤ n - m := by
    refine ⟨(if st.left < step then st.left else step).toNat, ?_, ?_, ?_⟩ <;>
      split_ifs <;> omega
  obtain ⟨hb, hbpos, hble⟩ := hbn
  have hkeys2 : (listScan ks st.calls.length c.type_ st.cursor_ret c.pattern_
      (if st.left < step then st.left else step)).2 = (ks.drop (k + m)).take bn := by
    rw [hb, hcv]
    simp only [listScan, Int.toNat_ofNat]
  have hcur2 : (listScan ks st.calls.length c.type_ st.cursor_ret c.pattern_
      (if st.left < step then st.left else step)).1
      = if k + (m + bn) < ks.length then ((k + (m + bn) : Nat) : Int) else 0 := by
    rw [hb, hcv]
    simp only [listScan, Int.toNat_ofNat, Nat.add_assoc]
  have hck : callKeys (ScanCmd.body step raw_limit (listScan ks) c st).1.calls
      = (ks.drop k).take (m + bn) := by
    rw [hcalls, callKeys_append, hkeys]
    show _ ++ (listScan ks st.calls.length c.type_ st.cursor_ret c.pattern_
      (if st.left < step then st.left else step)).2 = _
    rw [hkeys2, List.take_add, List.drop_drop]
  refine ⟨m + bn, by omega, ?_, hck, ?_, ?_, ?_⟩
  · rw [hl, hleft]
    rw [hleft] at hb
    split_ifs at hb ⊢ <;> omega
  · rw [hr, hcalls, callKeys_append, encodeKeys_append, ← hraw]
  · intro h
    rw [hcalls] at h
    simp at h
  · intro _
    exact ⟨by omega, by rw [hcur, hcur2]⟩

/-- The reply of one SCAN over the list engine, when the whole key list fits the response
size: `count_` keys from the position of the cursor, and the position after them, or the
cursor 0 when the list is exhausted. -/
theorem listScan_result (ks : List String) (step : Int) (raw_limit : Nat) (c : ScanCmd)
    (k n : Nat) (hstep : 0 < step) (hcur : c.cursor_ = (k : Int)) (hcnt : c.count_ = (n : Int))
    (hn : 0 < n) (hcap : (encodeKeys ks).utf8ByteSize < raw_limit) :
    ScanCmd.result step raw_limit (listScan ks) c
      = some (if k + n < ks.length then ((k + n : Nat) : Int) else 0, (ks.drop k).take n) := by
  have rule := ScanCmd_loop_rule step raw_limit (listScan ks) c
    (fun st => ∃ m : Nat, m ≤ n ∧ st.left = (n : Int) - (m : Int) ∧
      callKeys st.calls = (ks.drop k).take m ∧ st.raw = encodeKeys (callKeys st.calls) ∧
      (st.calls = [] → m = 0 ∧ st.cursor_ret = (k : Int)) ∧
      (st.calls ≠ [] → 0 < m ∧
        st.cursor_ret = if k + m < ks.length then ((k + m : Nat) : Int) else 0))
    (fun _ => False)
    (fun st hQ hH _ => listScan_body ks step raw_limit c k n hstep hn st hQ hH)
    (fun st hQ hH hb => by
      obtain ⟨m, _, _, hk, hr, _, _⟩ := listScan_body ks step raw_limit c k n hstep hn st hQ hH
      have hd := (ScanCmd_body_fields step raw_limit (listScan ks) c st).2.2.2.2.1
      rw [hb, hr, hk] at hd
      have hle := encodeKeys_size_le ks k m
      have hge : raw_limit ≤ (encodeKeys ((ks.drop k).take m)).utf8ByteSize := by
        simpa using hd.symm
      omega)
    (c.count_.toNat + 1)
    { left := c.count_, cursor_ret := c.cursor_, raw := "", total_key := 0, calls := [] }
    ⟨0, Nat.zero_le _, by simp [hcnt], by simp [callKeys], rfl,
      fun _ => ⟨rfl, hcur⟩, fun h => absurd rfl h⟩
    (Or.inl rfl)
  unfold ScanCmd.result
  cases ho : ScanCmd.run step raw_limit (listScan ks) c with
  | running s => exact absurd ho (ScanCmd_run_ends step raw_limit (listScan ks) c hstep s)
  | exceeded s => exact (rule.2.1 s ho).1.elim
  | finished s =>
    obtain ⟨⟨m, hmn, hleft, hkeys, _, _, hcons⟩, hexit, hne, _⟩ := rule.1 s ho
    obtain ⟨hmpos, hc⟩ := hcons hne
    dsimp only
    rw [hkeys, hc]
    by_cases hfull : m = n
    · subst hfull
      rfl
    · have hl0 : s.left ≠ 0 := by omega
      have hc0 : s.cursor_ret = 0 := by
        cases hexit with
        | inl h => exact h
        | inr h => exact absurd h hl0
      rw [hc] at hc0
      have hge : ks.length ≤ k + m := by
        by_contra hlt
        rw [if_pos (by omega)] at hc0
        omega
      rw [if_neg (by omega), if_neg (by omega)]
      rw [List.take_of_length_le (by rw [List.length_drop]; omega),
        List.take_of_length_le (by rw [List.length_drop]; omega)]

/-! ## The keys of a SCAN reply -/

/-- A session of SCAN requests over the list engine from position `k` returns the keys from
that position on, each once and in order. -/
theorem scanSession_listScan (ks : List String) (step : Int) (raw_limit : Nat) (c : ScanCmd)
    (n : Nat) (hstep : 0 < step) (hcnt : c.count_ = (n : Int)) (hn : 0 < n)
    (hcap : (encodeKeys ks).utf8ByteSize < raw_limit) :
    ∀ (fuel k : Nat), ks.length - k < fuel →
      scanSession step raw_limit (listScan ks) c fuel (k : Int) = some (ks.drop k) := by
  intro fuel
  induction fuel with
  | zero => intro k h; omega
  | succ fuel ih =>
    intro k hk
    have hres := listScan_result ks step raw_limit { c with cursor_ := (k : Int) } k n hstep rfl
      hcnt hn hcap
    unfold scanSession
    rw [hres]
    dsimp only
    by_cases hlt : k + n < ks.length
    · have hne : ¬ (((k + n : Nat) : Int) = 0) := by omega
      rw [if_pos hlt, if_neg hne, ih (k + n) (by omega)]
      simp only [Option.map_some']
      rw [← List.drop_drop, List.take_append_drop]
    · rw [if_neg hlt, if_pos rfl, List.take_of_length_le (by rw [List.length_drop]; omega)]

/-! ## The options of SET -/

/-- A token equal to a keyword up to case compares with another keyword as that keyword
does. -/
theorem strcasecmpEq_congr (opt a b : String) (h : strcasecmpEq opt a = true) :
    strcasecmpEq opt b = strcasecmpEq a b := by
  unfold strcasecmpEq at h ⊢
  simp only [beq_iff_eq] at h
  rw [h]

theorem parseOptions_xx (opt : String) (rest : List String) (c : SetCmd)
    (h : strcasecmpEq opt "xx" = true) :
    SetCmd.parseOptions (opt :: rest) c
      = SetCmd.parseOptions rest { c with condition_ := SetCondition.kXX } := by
  conv_lhs => unfold SetCmd.parseOptions
  rw [if_pos h]

theorem parseOptions_nx (opt : String) (rest : List String) (c : SetCmd)
    (h : strcasecmpEq opt "nx" = true) :
    SetCmd.parseOptions (opt :: rest) c
      = SetCmd.parseOptions rest { c with condition_ := SetCondition.kNX } := by
  have hxx : ¬ (strcasecmpEq opt "xx" = true) := by
    rw [strcasecmpEq_congr opt "nx" "xx" h]
    decide
  conv_lhs => unfold SetCmd.parseOptions
  rw [if_neg hxx, if_pos h]

theorem parseOptions_vx_cons (opt target : String) (rest : List String) (c : SetCmd)
    (h : strcasecmpEq opt "vx" = true) :
    SetCmd.parseOptions (opt :: target :: rest) c
      = SetCmd.parseOptions rest { c with condition_ := SetCondition.kVX, target_ := target } := by
  have hxx : ¬ (strcasecmpEq opt "xx" = true) := by
    rw [strcasecmpEq_congr opt "vx" "xx" h]
    decide
  have hnx : ¬ (strcasecmpEq opt "nx" = true) := by
    rw [strcasecmpEq_congr opt "vx" "nx" h]
    decide
  rw [SetCmd.parseOptions, if_neg hxx, if_neg hnx, if_pos h]

theorem parseOptions_vx_last (opt : String) (c : SetCmd) (h : strcasecmpEq opt "vx" = true) :
    SetCmd.parseOptions [opt] c
      = { c with condition_ := SetCondition.kVX, res_ := c.res_.SetRes CmdRet.kSyntaxErr "" } := by
  have hxx : ¬ (strcasecmpEq opt "xx" = true) := by
    rw [strcasecmpEq_congr opt "vx" "xx" h]
    decide
  have hnx : ¬ (strcasecmpEq opt "nx" = true) := by
    rw [strcasecmpEq_congr opt "vx" "nx" h]
    decide
  rw [SetCmd.parseOptions, if_neg hxx, if_neg hnx, if_pos h]

/-- An `EX` or `PX` token is none of `XX`, `NX`, `VX`. -/
theorem exPx_not_flags (opt : String) (h : isExPxToken opt = true) :
    ¬ (strcasecmpEq opt "xx" = true) ∧ ¬ (strcasecmpEq opt "nx" = true) ∧
    ¬ (strcasecmpEq opt "vx" = true) := by
  have hc : isCondToken opt = false := by
    unfold isExPxToken at h
    rcases Bool.or_eq_true_iff.mp h with h | h
    · exact ((exPx_not_cond opt).1 h).1
    · exact ((exPx_not_cond opt).2 h).1
  simp only [isCondToken, Bool.or_eq_false_iff] at hc
  simp [hc.1.1, hc.1.2, hc.2]

theorem parseOptions_expire_cons (opt num : String) (rest : List String) (c : SetCmd) (v : Int)
    (h : isExPxToken opt = true) (hv : string2int num = some v) :
    SetCmd.parseOptions (opt :: num :: rest) c
      = SetCmd.parseOptions rest { c with
          condition_ := (if c.condition_ = SetCondition.kNONE then SetCondition.kEXORPX
            else c.condition_),
          sec_ := (if strcasecmpEq opt "px" = true then Int.tdiv v 1000 else v) } := by
  obtain ⟨hxx, hnx, hvx⟩ := exPx_not_flags opt h
  have h2 : (strcasecmpEq opt "ex" || strcasecmpEq opt "px") = true := h
  rw [SetCmd.parseOptions, if_neg hxx, if_neg hnx, if_neg hvx, if_pos h2]
  dsimp only
  rw [hv]

theorem parseOptions_expire_last (opt : String) (c : SetCmd) (h : isExPxToken opt = true) :
    (SetCmd.parseOptions [opt] c).res_ = c.res_.SetRes CmdRet.kSyntaxErr "" := by
  obtain ⟨hxx, hnx, hvx⟩ := exPx_not_flags opt h
  have h2 : (strcasecmpEq opt "ex" || strcasecmpEq opt "px") = true := h
  rw [SetCmd.parseOptions, if_neg hxx, if_neg hnx, if_neg hvx, if_pos h2]

theorem parseOptions_expire_bad (opt num : String) (rest : List String) (c : SetCmd)
    (h : isExPxToken opt = true) (hv : string2int num = none) :
    (SetCmd.parseOptions (opt :: num :: rest) c).res_ = c.res_.SetRes CmdRet.kInvalidInt "" := by
  obtain ⟨hxx, hnx, hvx⟩ := exPx_not_flags opt h
  have h2 : (strcasecmpEq opt "ex" || strcasecmpEq opt "px") = true := h
  rw [SetCmd.parseOptions, if_neg hxx, if_neg hnx, if_neg hvx, if_pos h2]
  dsimp only
  rw [hv]

theorem parseOptions_unknown (opt : String) (rest : List String) (c : SetCmd)
    (h : isOptionToken opt = false) :
    (SetCmd.parseOptions (opt :: rest) c).res_ = c.res_.SetRes CmdRet.kSyntaxErr "" := by
  simp only [isOptionToken, isCondToken, isExPxToken, Bool.or_eq_false_iff] at h
  obtain ⟨⟨⟨hxx, hnx⟩, hvx⟩, hex, hpx⟩ := h
  conv_lhs => unfold SetCmd.parseOptions
  simp only [hxx, hnx, hvx, hex, hpx, Bool.false_eq_true, if_false, Bool.or_self]

/-- Parsing passes over a well-formed prefix of the options without touching the result. -/
theorem parseOptions_prefix (pre : List String) (hpre : SetOptions pre) :
    ∀ (rest : List String) (c : SetCmd), ∃ c1 : SetCmd,
      SetCmd.parseOptions (pre ++ rest) c = SetCmd.parseOptions rest c1 ∧ c1.res_ = c.res_ := by
  induction hpre with
  | nil => intro rest c; exact ⟨c, rfl, rfl⟩
  | flag opt l h _ ih =>
    intro rest c
    rcases h with h | h
    · obtain ⟨c1, h1, h2⟩ := ih rest { c with condition_ := SetCondition.kNX }
      exact ⟨c1, by rw [List.cons_append, parseOptions_nx opt _ c h, h1], h2⟩
    · obtain ⟨c1, h1, h2⟩ := ih rest { c with condition_ := SetCondition.kXX }
      exact ⟨c1, by rw [List.cons_append, parseOptions_xx opt _ c h, h1], h2⟩
  | vx opt target l h _ ih =>
    intro rest c
    obtain ⟨c1, h1, h2⟩ := ih rest { c with condition_ := SetCondition.kVX, target_ := target }
    exact ⟨c1, by rw [List.cons_append, List.cons_append, parseOptions_vx_cons opt target _ c h, h1],
      h2⟩
  | expire opt num l h hnum _ ih =>
    intro rest c
    obtain ⟨v, hv⟩ := Option.isSome_iff_exists.mp hnum
    obtain ⟨c1, h1, h2⟩ := ih rest { c with
      condition_ := (if c.condition_ = SetCondition.kNONE then SetCondition.kEXORPX
        else c.condition_),
      sec_ := (if strcasecmpEq opt "px" = true then Int.tdiv v 1000 else v) }
    exact ⟨c1, by rw [List.cons_append, List.cons_append,
      parseOptions_expire_cons opt num _ c v h hv, h1], h2⟩

/-- Every token list is a well-formed option list or has a well-formed prefix followed by one
of the three defects. -/
theorem SetOptions_or_defect (n : Nat) : ∀ l : List String, l.length ≤ n →
    SetOptions l ∨
    (∃ pre opt rest, l = pre ++ opt :: rest ∧ SetOptions pre ∧ isOptionToken opt = false) ∨
    (∃ pre opt, l = pre ++ [opt] ∧ SetOptions pre ∧ isValueOption opt = true) ∨
    (∃ pre opt num rest, l = pre ++ opt :: num :: rest ∧ SetOptions pre ∧
      isExPxToken opt = true ∧ string2int num = none) := by
  induction n with
  | zero =>
    intro l hl
    have : l = [] := List.length_eq_zero.mp (by omega)
    subst this
    exact Or.inl SetOptions.nil
  | succ n ih =>
    intro l hl
    have lift : ∀ (hd tl : List String), (∀ r, SetOptions r → SetOptions (hd ++ r)) →
        tl.length ≤ n →
        SetOptions (hd ++ tl) ∨
        (∃ pre opt rest, hd ++ tl = pre ++ opt :: rest ∧ SetOptions pre ∧
          isOptionToken opt = false) ∨
        (∃ pre opt, hd ++ tl = pre ++ [opt] ∧ SetOptions pre ∧ isValueOption opt = true) ∨
        (∃ pre opt num rest, hd ++ tl = pre ++ opt :: num :: rest ∧ SetOptions pre ∧
          isExPxToken opt = true ∧ string2int num = none) := by
      intro hd tl hcons htl
      rcases ih tl htl with h | ⟨pre, opt, rest, he, hp, ht⟩ | ⟨pre, opt, he, hp, ht⟩ |
        ⟨pre, opt, num, rest, he, hp, ht, hv⟩
      · exact Or.inl (hcons _ h)
      · exact Or.inr (Or.inl ⟨hd ++ pre, opt, rest, by rw [he, List.append_assoc], hcons _ hp, ht⟩)
      · exact Or.inr (Or.inr (Or.inl ⟨hd ++ pre, opt, by rw [he, List.append_assoc],
          hcons _ hp, ht⟩))
      · exact Or.inr (Or.inr (Or.inr ⟨hd ++ pre, opt, num, rest, by rw [he, List.append_assoc],
          hcons _ hp, ht, hv⟩))
    match l, hl with
    | [], _ => exact Or.inl SetOptions.nil
    | opt :: rest, hl =>
      have hr : rest.length ≤ n := by simp at hl; omega
      by_cases hnx : strcasecmpEq opt "nx" = true
      · exact lift [opt] rest (fun r hr2 => SetOptions.flag opt r (Or.inl hnx) hr2) hr
      by_cases hxx : strcasecmpEq opt "xx" = true
      · exact lift [opt] rest (fun r hr2 => SetOptions.flag opt r (Or.inr hxx) hr2) hr
      by_cases hvx : strcasecmpEq opt "vx" = true
      · match rest, hr with
        | [], _ =>
          exact Or.inr (Or.inr (Or.inl ⟨[], opt, rfl, SetOptions.nil, by simp [isValueOption, hvx]⟩))
        | target :: rest2, hr =>
          exact lift [opt, target] rest2 (fun r hr2 => SetOptions.vx opt target r hvx hr2)
            (by simp at hr; omega)
      by_cases hex : isExPxToken opt = true
      · match rest, hr with
        | [], _ =>
          exact Or.inr (Or.inr (Or.inl ⟨[], opt, rfl, SetOptions.nil, by simp [isValueOption, hex]⟩))
        | num :: rest2, hr =>
          cases hv : string2int num with
          | none =>
            exact Or.inr (Or.inr (Or.inr ⟨[], opt, num, rest2, rfl, SetOptions.nil, hex, hv⟩))
          | some v =>
            exact lift [opt, num] rest2
              (fun r hr2 => SetOptions.expire opt num r hex (by rw [hv]; rfl) hr2)
              (by simp at hr; omega)
      · refine Or.inr (Or.inl ⟨[], opt, rest, rfl, SetOptions.nil, ?_⟩)
        simp only [isOptionToken, isCondToken, Bool.or_eq_false_iff]
        simp only [Bool.not_eq_true] at hnx hxx hvx hex
        exact ⟨⟨⟨hxx, hnx⟩, hvx⟩, hex⟩

theorem CheckArg_kSetArity (n : Nat) (h : 3 ≤ n) : CheckArg kSetArity n = true := by
  unfold CheckArg kSetArity
  simp
  omega

/-- With a valid arity, `Initial` is the option loop run from the reset command object. -/
theorem SetCmd_Initial_eq (c : SetCmd) (argv : List String) (h : 3 ≤ argv.length) :
    c.Initial argv = SetCmd.parseOptions (argv.drop 3)
      { c with argv_ := argv, res_ := CmdRes.clear, key_ := argAt argv 1, value_ := argAt argv 2,
               condition_ := SetCondition.kNONE, sec_ := 0 } := by
  unfold SetCmd.Initial SetCmd.DoInitial
  dsimp only
  rw [CheckArg_kSetArity _ h]
  rfl

/-- The three ways option parsing fails, each after a well-formed prefix: an unknown token, a
value-bearing option at the end, a non-integer after `EX`/`PX`. -/
theorem SetCmd_Initial_defects (c : SetCmd) (argv : List String) (harity : 3 ≤ argv.length) :
    (∀ pre opt rest, argv.drop 3 = pre ++ opt :: rest → SetOptions pre →
      isOptionToken opt = false → (c.Initial argv).res_.ret_ = CmdRet.kSyntaxErr) ∧
    (∀ pre opt, argv.drop 3 = pre ++ [opt] → SetOptions pre → isValueOption opt = true →
      (c.Initial argv).res_.ret_ = CmdRet.kSyntaxErr) ∧
    (∀ pre opt num rest, argv.drop 3 = pre ++ opt :: num :: rest → SetOptions pre →
      isExPxToken opt = true → string2int num = none →
      (c.Initial argv).res_.ret_ = CmdRet.kInvalidInt) := by
  have hI := SetCmd_Initial_eq c argv harity
  refine ⟨?_, ?_, ?_⟩
  · intro pre opt rest he hp ht
    rw [hI, he]
    obtain ⟨c1, h1, _⟩ := parseOptions_prefix pre hp (opt :: rest) _
    rw [h1, parseOptions_unknown opt rest c1 ht]
    rfl
  · intro pre opt he hp ht
    rw [hI, he]
    obtain ⟨c1, h1, _⟩ := parseOptions_prefix pre hp [opt] _
    rw [h1]
    rcases Bool.or_eq_true_iff.mp ht with h | h
    · rw [parseOptions_vx_last opt c1 h]
      rfl
    · rw [parseOptions_expire_last opt c1 h]
      rfl
  · intro pre opt num rest he hp ht hv
    rw [hI, he]
    obtain ⟨c1, h1, _⟩ := parseOptions_prefix pre hp (opt :: num :: rest) _
    rw [h1, parseOptions_expire_bad opt num rest c1 ht hv]
    rfl

/-- A successful parse had a well-formed option list. -/
theorem SetOptions_of_Initial_ok (c : SetCmd) (argv : List String) (harity : 3 ≤ argv.length)
    (hok : (c.Initial argv).res_.ok = true) : SetOptions (argv.drop 3) := by
  obtain ⟨d1, d2, d3⟩ := SetCmd_Initial_defects c argv harity
  have hne1 : (c.Initial argv).res_.ret_ ≠ CmdRet.kSyntaxErr := by
    intro h
    simp [CmdRes.ok, h] at hok
  have hne2 : (c.Initial argv).res_.ret_ ≠ CmdRet.kInvalidInt := by
    intro h
    simp [CmdRes.ok, h] at hok
  rcases SetOptions_or_defect _ (argv.drop 3) (le_refl _) with h | ⟨pre, opt, rest, he, hp, ht⟩ |
    ⟨pre, opt, he, hp, ht⟩ | ⟨pre, opt, num, rest, he, hp, ht, hv⟩
  · exact h
  · exact absurd (d1 pre opt rest he hp ht) hne1
  · exact absurd (d2 pre opt he hp ht) hne1
  · exact absurd (d3 pre opt num rest he hp ht hv) hne2

/-- A parse is successful only with a valid arity. -/
theorem SetCmd_Initial_ok_arity (c : SetCmd) (argv : List String)
    (hok : (c.Initial argv).res_.ok = true) : 3 ≤ argv.length := by
  by_contra hlt
  have hc : CheckArg kSetArity argv.length = false := by
    unfold CheckArg kSetArity
    simp
    omega
  unfold SetCmd.Initial SetCmd.DoInitial at hok
  dsimp only at hok
  rw [hc] at hok
  simp [CmdRes.ok, CmdRes.SetRes] at hok

/-- C24: for an argument vector of valid arity, `SetCmd::DoInitial` succeeds exactly when the
tokens after the value form a sequence of groups `NX | XX | VX target | EX int | PX int`;
reading left to right, it fails with the syntax error at the first token that is none of
the five options and when `VX`, `EX` or `PX` is the last token, and with the invalid-integer
error when the token after `EX` or `PX` is not a valid integer. -/
theorem SetCmd_DoInitial_options (c : SetCmd) (argv : List String) (harity : 3 ≤ argv.length) :
    ((c.Initial argv).res_.ok = true ↔ SetOptions (argv.drop 3)) ∧
    (∀ pre opt rest, argv.drop 3 = pre ++ opt :: rest → SetOptions pre →
      isOptionToken opt = false → (c.Initial argv).res_.ret_ = CmdRet.kSyntaxErr) ∧
    (∀ pre opt, argv.drop 3 = pre ++ [opt] → SetOptions pre → isValueOption opt = true →
      (c.Initial argv).res_.ret_ = CmdRet.kSyntaxErr) ∧
    (∀ pre opt num rest, argv.drop 3 = pre ++ opt :: num :: rest → SetOptions pre →
      isExPxToken opt = true → string2int num = none →
      (c.Initial argv).res_.ret_ = CmdRet.kInvalidInt) := by
  refine ⟨⟨SetOptions_of_Initial_ok c argv harity, ?_⟩, SetCmd_Initial_defects c argv harity⟩
  intro hs
  obtain ⟨c1, h1, h2⟩ := parseOptions_prefix (argv.drop 3) hs []
    { c with argv_ := argv, res_ := CmdRes.clear, key_ := argAt argv 1, value_ := argAt argv 2,
             condition_ := SetCondition.kNONE, sec_ := 0 }
  rw [List.append_nil] at h1
  rw [SetCmd_Initial_eq c argv harity, h1]
  have : SetCmd.parseOptions [] c1 = c1 := by rw [SetCmd.parseOptions]
  rw [this, h2]
  rfl

theorem SetCmd_DoInitial_options_witness :
    3 ≤ ["set", "k", "v", "NX", "ex", "10"].length ∧
    (((SetCmd.init.Initial ["set", "k", "v", "NX", "ex", "10"]).res_.ok = true ↔
      SetOptions (["set", "k", "v", "NX", "ex", "10"].drop 3)) ∧
    (∀ pre opt rest, ["set", "k", "v", "NX", "ex", "10"].drop 3 = pre ++ opt :: rest →
      SetOptions pre → isOptionToken opt = false →
      (SetCmd.init.Initial ["set", "k", "v", "NX", "ex", "10"]).res_.ret_
        = CmdRet.kSyntaxErr) ∧
    (∀ pre opt, ["set", "k", "v", "NX", "ex", "10"].drop 3 = pre ++ [opt] → SetOptions pre →
      isValueOption opt = true →
      (SetCmd.init.Initial ["set", "k", "v", "NX", "ex", "10"]).res_.ret_
        = CmdRet.kSyntaxErr) ∧
    (∀ pre opt num rest, ["set", "k", "v", "NX", "ex", "10"].drop 3 = pre ++ opt :: num :: rest →
      SetOptions pre → isExPxToken opt = true → string2int num = none →
      (SetCmd.init.Initial ["set", "k", "v", "NX", "ex", "10"]).res_.ret_
        = CmdRet.kInvalidInt)) :=
  ⟨by decide, SetCmd_DoInitial_options SetCmd.init ["set", "k", "v", "NX", "ex", "10"] (by decide)⟩

theorem resolveMode_cons_flag (start m : SetCondition) (ms : List SetCondition)
    (h1 : m ≠ SetCondition.kEXORPX) (h2 : m ≠ SetCondition.kNONE) :
    resolveMode start (m :: ms) = resolveMode m ms := by
  unfold resolveMode
  have hf : (m :: ms).filter (fun m => m != SetCondition.kEXORPX)
      = m :: ms.filter (fun m => m != SetCondition.kEXORPX) := by
    simp [List.filter_cons, h1]
  rw [hf]
  cases hl : ms.filter (fun m => m != SetCondition.kEXORPX) with
  | nil => simp [h2]
  | cons a l =>
    rw [List.getLast?_cons_cons, List.getLast?_eq_getLast _ (List.cons_ne_nil a l)]

theorem resolveMode_cons_expire (start : SetCondition) (ms : List SetCondition) :
    resolveMode start (SetCondition.kEXORPX :: ms)
      = resolveMode (if start = SetCondition.kNONE then SetCondition.kEXORPX else start) ms := by
  unfold resolveMode
  have hf : (SetCondition.kEXORPX :: ms).filter (fun m => m != SetCondition.kEXORPX)
      = ms.filter (fun m => m != SetCondition.kEXORPX) := by
    simp [List.filter_cons]
  rw [hf]
  cases hl : (ms.filter (fun m => m != SetCondition.kEXORPX)).getLast? with
  | some x => rfl
  | none =>
    by_cases hs : start = SetCondition.kNONE
    · simp [hs]
    · simp [hs]

/-- On a well-formed option list, the loop ends in the mode `resolveMode` gives and with the
expiry of the last `EX`/`PX` group (the expiry it started with when there is none). -/
theorem parseOptions_mode (l : List String) (hl : SetOptions l) : ∀ c : SetCmd,
    (SetCmd.parseOptions l c).condition_ = resolveMode c.condition_ (optionModes l) ∧
    (SetCmd.parseOptions l c).sec_ = ((optionExpiries l).getLast?).getD c.sec_ := by
  induction hl with
  | nil =>
    intro c
    rw [SetCmd.parseOptions]
    exact ⟨rfl, rfl⟩
  | flag opt rest h _ ih =>
    intro c
    rcases h with h | h
    · have hxx : strcasecmpEq opt "xx" = false := by
        rw [strcasecmpEq_congr opt "nx" "xx" h]
        decide
      have hm : optionModes (opt :: rest) = SetCondition.kNX :: optionModes rest := by
        conv_lhs => unfold optionModes
        rw [if_neg (by simp [hxx]), if_pos h]
      have he : optionExpiries (opt :: rest) = optionExpiries rest := by
        conv_lhs => unfold optionExpiries
        rw [if_pos (by simp [h])]
      rw [parseOptions_nx opt rest c h, hm, he,
        resolveMode_cons_flag _ _ _ (by decide) (by decide)]
      exact ih _
    · have hm : optionModes (opt :: rest) = SetCondition.kXX :: optionModes rest := by
        conv_lhs => unfold optionModes
        rw [if_pos h]
      have he : optionExpiries (opt :: rest) = optionExpiries rest := by
        conv_lhs => unfold optionExpiries
        rw [if_pos (by simp [h])]
      rw [parseOptions_xx opt rest c h, hm, he,
        resolveMode_cons_flag _ _ _ (by decide) (by decide)]
      exact ih _
  | vx opt target rest h _ ih =>
    intro c
    have hxx : strcasecmpEq opt "xx" = false := by
      rw [strcasecmpEq_congr opt "vx" "xx" h]
      decide
    have hnx : strcasecmpEq opt "nx" = false := by
      rw [strcasecmpEq_congr opt "vx" "nx" h]
      decide
    have hm : optionModes (opt :: target :: rest) = SetCondition.kVX :: optionModes rest := by
      rw [optionModes, if_neg (by simp [hxx]), if_neg (by simp [hnx]), if_pos h]
    have he : optionExpiries (opt :: target :: rest) = optionExpiries rest := by
      rw [optionExpiries, if_neg (by simp [hxx, hnx]), if_pos h]
    rw [parseOptions_vx_cons opt target rest c h, hm, he,
      resolveMode_cons_flag _ _ _ (by decide) (by decide)]
    exact ih _
  | expire opt num rest h hnum _ ih =>
    intro c
    obtain ⟨v, hv⟩ := Option.isSome_iff_exists.mp hnum
    obtain ⟨hxx, hnx, hvx⟩ := exPx_not_flags opt h
    have hm : optionModes (opt :: num :: rest) = SetCondition.kEXORPX :: optionModes rest := by
      rw [optionModes, if_neg hxx, if_neg hnx, if_neg hvx, if_pos h]
    have he : optionExpiries (opt :: num :: rest)
        = (if strcasecmpEq opt "px" = true then Int.tdiv v 1000 else v) :: optionExpiries rest := by
      rw [optionExpiries, if_neg (by simp [hxx, hnx]), if_neg hvx, if_pos h]
      simp only [hv]
    rw [parseOptions_expire_cons opt num rest c v h hv, hm, he, resolveMode_cons_expire]
    refine ⟨(ih _).1, ?_⟩
    rw [(ih _).2]
    cases optionExpiries rest with
    | nil => rfl
    | cons a l =>
      rw [List.getLast?_cons_cons, List.getLast?_eq_getLast _ (List.cons_ne_nil a l)]
      rfl

/-! ## The mode and the expiry of SET -/

theorem resolveMode_last_flag (start m : SetCondition) (modes : List SetCondition)
    (hlast : modes.getLast? = some m) (hm : m ≠ SetCondition.kEXORPX) :
    resolveMode start modes = m := by
  obtain ⟨ys, hys⟩ := List.getLast?_eq_some_iff.mp hlast
  subst hys
  unfold resolveMode
  have hf : (ys ++ [m]).filter (fun m => m != SetCondition.kEXORPX)
      = ys.filter (fun m => m != SetCondition.kEXORPX) ++ [m] := by
    simp [List.filter_append, List.filter_cons, hm]
  rw [hf, List.getLast?_concat]

theorem resolveMode_only_expire (modes : List SetCondition)
    (hall : ∀ m ∈ modes, m = SetCondition.kEXORPX) (hne : modes ≠ []) :
    resolveMode SetCondition.kNONE modes = SetCondition.kEXORPX := by
  unfold resolveMode
  have hf : modes.filter (fun m => m != SetCondition.kEXORPX) = [] := by
    rw [List.filter_eq_nil_iff]
    intro a ha
    simp [hall a ha]
  rw [hf]
  cases modes with
  | nil => exact absurd rfl hne
  | cons a l => rfl

/-- C25 (as stated) fails: `SET k v NX EX 10` parses successfully, its last-seen option is
`EX`, which selects the expiring mode, yet the mode after parsing is `NX`. -/
theorem SetCmd_nx_then_ex_keeps_nx :
    (SetCmd.init.Initial ["set", "k", "v", "NX", "EX", "10"]).res_.ok = true ∧
    optionModes ["NX", "EX", "10"] = [SetCondition.kNX, SetCondition.kEXORPX] ∧
    (SetCmd.init.Initial ["set", "k", "v", "NX", "EX", "10"]).condition_ = SetCondition.kNX ∧
    (SetCmd.init.Initial ["set", "k", "v", "NX", "EX", "10"]).condition_
      ≠ ((optionModes ["NX", "EX", "10"]).getLast?).getD SetCondition.kNONE := by
  decide

/-- C25 (amended): for every successfully parsed SET, the mode after parsing is the mode of
the last `NX`/`XX`/`VX` option when there is one, whatever `EX`/`PX` options follow it,
and the expiring mode when all options are `EX`/`PX`; in particular the last-seen option
selects the mode whenever it is `NX`, `XX` or `VX` (`SET k v NX XX` ends up `XX`). The
expiry `sec_` is the value in seconds of the last `EX`/`PX` option, 0 without one. -/
theorem SetCmd_mode_after_parse (c : SetCmd) (argv : List String)
    (hok : (c.Initial argv).res_.ok = true) :
    (c.Initial argv).condition_ = resolveMode SetCondition.kNONE (optionModes (argv.drop 3)) ∧
    (∀ m, (optionModes (argv.drop 3)).getLast? = some m → m ≠ SetCondition.kEXORPX →
      (c.Initial argv).condition_ = m) ∧
    ((∀ m ∈ optionModes (argv.drop 3), m = SetCondition.kEXORPX) →
      optionModes (argv.drop 3) ≠ [] → (c.Initial argv).condition_ = SetCondition.kEXORPX) ∧
    (c.Initial argv).sec_ = ((optionExpiries (argv.drop 3)).getLast?).getD 0 := by
  have harity := SetCmd_Initial_ok_arity c argv hok
  have hs := SetOptions_of_Initial_ok c argv harity hok
  have hI := SetCmd_Initial_eq c argv harity
  obtain ⟨h1, h2⟩ := parseOptions_mode (argv.drop 3) hs
    { c with argv_ := argv, res_ := CmdRes.clear, key_ := argAt argv 1, value_ := argAt argv 2,
             condition_ := SetCondition.kNONE, sec_ := 0 }
  rw [← hI] at h1 h2
  refine ⟨h1, ?_, ?_, h2⟩
  · intro m hlast hm
    rw [h1]
    exact resolveMode_last_flag _ m _ hlast hm
  · intro hall hne
    rw [h1]
    exact resolveMode_only_expire _ hall hne

theorem SetCmd_mode_after_parse_witness :
    (SetCmd.init.Initial ["set", "k", "v", "NX", "XX"]).res_.ok = true ∧
    (SetCmd.init.Initial ["set", "k", "v", "NX", "XX"]).condition_ = SetCondition.kXX ∧
    ((SetCmd.init.Initial ["set", "k", "v", "NX", "XX"]).condition_
      = resolveMode SetCondition.kNONE (optionModes (["set", "k", "v", "NX", "XX"].drop 3)) ∧
    (∀ m, (optionModes (["set", "k", "v", "NX", "XX"].drop 3)).getLast? = some m →
      m ≠ SetCondition.kEXORPX →
      (SetCmd.init.Initial ["set", "k", "v", "NX", "XX"]).condition_ = m) ∧
    ((∀ m ∈ optionModes (["set", "k", "v", "NX", "XX"].drop 3), m = SetCondition.kEXORPX) →
      optionModes (["set", "k", "v", "NX", "XX"].drop 3) ≠ [] →
      (SetCmd.init.Initial ["set", "k", "v", "NX", "XX"]).condition_ = SetCondition.kEXORPX) ∧
    (SetCmd.init.Initial ["set", "k", "v", "NX", "XX"]).sec_
      = ((optionExpiries (["set", "k", "v", "NX", "XX"].drop 3)).getLast?).getD 0) :=
  ⟨by decide, by decide,
    SetCmd_mode_after_parse SetCmd.init ["set", "k", "v", "NX", "XX"] (by decide)⟩

/-- C26: for every SET with a single `PX n` option, where the token of `n` is a valid 64-bit
integer, the parsed expiry `sec_` is `n / 1000` with truncation toward zero (0 for
`|n| < 1000`, -1 for `n = -1999`); for `EX n` it is `n` itself. Every 64-bit integer has
such a token. -/
theorem SetCmd_px_seconds (name key value opt num : String) (n : Int)
    (hnum : string2int num = some n) :
    (strcasecmpEq opt "px" = true →
      (SetCmd.init.Initial [name, key, value, opt, num]).res_.ok = true ∧
      (SetCmd.init.Initial [name, key, value, opt, num]).sec_ = Int.tdiv n 1000) ∧
    (strcasecmpEq opt "ex" = true →
      (SetCmd.init.Initial [name, key, value, opt, num]).res_.ok = true ∧
      (SetCmd.init.Initial [name, key, value, opt, num]).sec_ = n) ∧
    (n.natAbs < 1000 → Int.tdiv n 1000 = 0) ∧
    (n = -1999 → Int.tdiv n 1000 = -1) ∧
    (∀ m : Int, isInt64 m → string2int (ll2string m) = some m) := by
  refine ⟨?_, ?_, ?_, ?_, string2int_ll2string⟩
  · intro h
    have hopt : isExPxToken opt = true := by simp [isExPxToken, h]
    rw [SetCmd_Initial_expiring name key value opt num n hnum hopt]
    exact ⟨rfl, by simp [h]⟩
  · intro h
    have hopt : isExPxToken opt = true := by simp [isExPxToken, h]
    have hpx : strcasecmpEq opt "px" = false := ((exPx_not_cond opt).1 h).2
    rw [SetCmd_Initial_expiring name key value opt num n hnum hopt]
    exact ⟨rfl, by simp [hpx]⟩
  · intro h
    by_cases hn : 0 ≤ n
    · exact Int.tdiv_eq_zero_of_lt hn (by omega)
    · obtain ⟨w, hw⟩ : ∃ w : Int, n = -w := ⟨-n, by omega⟩
      subst hw
      rw [Int.neg_tdiv, Int.tdiv_eq_zero_of_lt (by omega) (by omega)]
      rfl
  · intro h
    subst h
    decide

theorem SetCmd_px_seconds_witness :
    string2int "-1999" = some (-1999) ∧
    (SetCmd.init.Initial ["set", "k", "v", "PX", "-1999"]).sec_ = -1 ∧
    ((strcasecmpEq "PX" "px" = true →
      (SetCmd.init.Initial ["set", "k", "v", "PX", "-1999"]).res_.ok = true ∧
      (SetCmd.init.Initial ["set", "k", "v", "PX", "-1999"]).sec_ = Int.tdiv (-1999) 1000) ∧
    (strcasecmpEq "PX" "ex" = true →
      (SetCmd.init.Initial ["set", "k", "v", "PX", "-1999"]).res_.ok = true ∧
      (SetCmd.init.Initial ["set", "k", "v", "PX", "-1999"]).sec_ = -1999) ∧
    ((-1999 : Int).natAbs < 1000 → Int.tdiv (-1999) 1000 = 0) ∧
    ((-1999 : Int) = -1999 → Int.tdiv (-1999) 1000 = -1) ∧
    (∀ m : Int, isInt64 m → string2int (ll2string m) = some m)) :=
  ⟨by decide, by decide, SetCmd_px_seconds "set" "k" "v" "PX" "-1999" (-1999) (by decide)⟩

/-! ## Index updates, routing check and TTL resolution -/

/-- C21 fails: `DecrCmd::Do` and `DecrbyCmd::Do` hand the Secondary Key Index back unchanged
for every engine outcome. `DECR k` and `DECRBY k 5` on an absent key succeed (the engine
creates the key) and leave `k` out of the index, where `INCR k` on the same slot adds it. -/
theorem DecrCmd_Do_skips_index (c : DecrCmd) (cb : DecrbyCmd)
    (decrby : String → Int → Status × Int) (index : List String) :
    (c.Do decrby index).2 = index ∧ (cb.Do decrby index).2 = index ∧
    (({ res_ := CmdRes.clear, key_ := "k", new_value_ := 0 } : DecrCmd).Do sampleDecrby []).1.res_.message
      = ":-1\r\n" ∧
    "k" ∉ (({ res_ := CmdRes.clear, key_ := "k", new_value_ := 0 } : DecrCmd).Do sampleDecrby []).2 ∧
    (({ res_ := CmdRes.clear, key_ := "k", by_ := 5, new_value_ := 0 } : DecrbyCmd).Do
      sampleDecrby []).1.res_.message = ":-5\r\n" ∧
    "k" ∉ (({ res_ := CmdRes.clear, key_ := "k", by_ := 5, new_value_ := 0 } : DecrbyCmd).Do
      sampleDecrby []).2 ∧
    (({ res_ := CmdRes.clear, key_ := "k", new_value_ := 0 } : IncrCmd).Do (sampleDB 1) []).2
      = ["k"] := by
  refine ⟨?_, ?_, by decide, by decide, by decide, by decide, by decide⟩
  · unfold DecrCmd.Do
    dsimp only
    split_ifs <;> rfl
  · unfold DecrbyCmd.Do
    dsimp only
    split_ifs <;> rfl

/-- C23 fails: the routing check of both `DoInitial` compares the start key with itself, so
the end key never reaches it; `PKSCANRANGE string {a}x {b}y` and the same PKRSCANRANGE
request, whose keys have different hash tags, are accepted. -/
theorem PKScanRange_accepts_inconsistent_tags (consistent : String → String → Bool)
    (c : PKScanRangeCmd) (argv : List String) :
    PKScanRangeCmd.Initial consistent c argv
      = PKScanRangeCmd.Initial (fun a _ => consistent a a) c argv ∧
    PKRScanRangeCmd.Initial consistent c argv
      = PKRScanRangeCmd.Initial (fun a _ => consistent a a) c argv ∧
    HashtagIsConsistent "{a}x" "{b}y" = false ∧
    (PKScanRangeCmd.Initial HashtagIsConsistent PKScanRangeCmd.init
      ["pkscanrange", "string", "{a}x", "{b}y"]).res_.ok = true ∧
    (PKScanRangeCmd.Initial HashtagIsConsistent PKScanRangeCmd.init
      ["pkscanrange", "string", "{a}x", "{b}y"]).key_end_ = "{b}y" ∧
    (PKRScanRangeCmd.Initial HashtagIsConsistent PKScanRangeCmd.init
      ["pkrscanrange", "string", "{a}x", "{b}y"]).res_.ok = true := by
  exact ⟨rfl, rfl, by decide, by decide, by decide, by decide⟩

/-- C27 fails: the scatter/gather path leaves the Secondary Key Index as it was. `DEL a` on a
slot that indexes `a` replies 1 on both paths, but only `Do` deregisters `a`; `MSET a 1`
replies OK on both paths, but only `Do` registers `a`. -/
theorem scatterGather_skips_index (cd : DelCmd) (cm : MsetCmd)
    (dshards : List ((List String → Int) × HintKeys))
    (mshards : List ((List KeyValue → Status) × HintKeys)) (index : List String) :
    (cd.scatterGather dshards index).2 = index ∧
    (∀ r, cm.scatterGather mshards index = some r → r.2 = index) ∧
    ((DelCmd.init.Initial ["del", "a"]).Do (fun _ => 1) ["a"]).1.res_.message = ":1\r\n" ∧
    ((DelCmd.init.Initial ["del", "a"]).Do (fun _ => 1) ["a"]).2 = [] ∧
    ((DelCmd.init.Initial ["del", "a"]).scatterGather
      [(fun _ => 1, { keys := ["a"], hints := [0] })] ["a"]).1.res_.message = ":1\r\n" ∧
    ((DelCmd.init.Initial ["del", "a"]).scatterGather
      [(fun _ => 1, { keys := ["a"], hints := [0] })] ["a"]).2 = ["a"] ∧
    ((MsetCmd.init.Initial ["mset", "a", "1"]).Do healthyMSet []).1.res_.message = "+OK\r\n" ∧
    ((MsetCmd.init.Initial ["mset", "a", "1"]).Do healthyMSet []).2 = ["a"] ∧
    ((MsetCmd.init.Initial ["mset", "a", "1"]).scatterGather
      [(healthyMSet, { keys := ["a"], hints := [0] })] []).map (fun r => (r.1.res_.message, r.2))
      = some ("+OK\r\n", []) := by
  refine ⟨rfl, ?_, by decide, by decide, by decide, by decide, by decide, by decide, by decide⟩
  intro r hr
  unfold MsetCmd.scatterGather at hr
  cases hs : cm.splitAll mshards with
  | none => simp [hs] at hr
  | some c1 =>
    simp only [hs, Option.map_some', Option.some.injEq] at hr
    rw [← hr]

/-- C30 fails: TTL resolves sorted-sets before sets, PTTL sets before sorted-sets. For a key
with 10 seconds left as a sorted set and 20 seconds left as a set, TTL replies 10 and PTTL
replies 20000, not 1000 times the reply of TTL. -/
theorem PttlCmd_resolves_sets_before_zsets :
    (({ res_ := CmdRes.clear, key_ := "k" } : TtlCmd).Do (fun _ => sampleTtl)).res_.message
      = ":10\r\n" ∧
    (({ res_ := CmdRes.clear, key_ := "k" } : PttlCmd).Do (fun _ => sampleTtl)).res_.message
      = ":20000\r\n" ∧
    (({ res_ := CmdRes.clear, key_ := "k" } : PttlCmd).Do (fun _ => sampleTtl)).res_
      ≠ CmdRes.clear.AppendInteger (1000 * 10) := by
  decide

/-! ## Split size checks and the failures of INCR -/

/-- C28 fails: the size checks of the two `Split` set the error and go on. In
`MsetCmd::Split` with one key and two hints the loop runs, the engine's `MSet` is called
with the collected pair and its outcome replaces the error; with two keys and one hint
the loop reads `hints[1]`. In `MgetCmd::Split` with one value and two hints the value is
stored into `split_res_`; with two values and one hint the loop reads `hints[1]`. -/
theorem Split_size_error_does_not_stop :
    ((MsetCmd.init.Initial ["mset", "a", "1"]).Split healthyMSet
      { keys := ["a"], hints := [0, 0] }).map (fun c => c.res_.message) = some "+OK\r\n" ∧
    ((MsetCmd.init.Initial ["mset", "a", "1"]).Split failingMSet
      { keys := ["a"], hints := [0, 0] }).map (fun c => c.res_.message)
      = some "-ERR IO error: a\r\n" ∧
    (MsetCmd.init.Initial ["mset", "a", "1"]).Split healthyMSet
      { keys := ["a", "a"], hints := [0] } = none ∧
    ((MgetCmd.init.Initial ["mget", "a", "b"]).Split (mgetOf sampleLookup)
      { keys := ["a"], hints := [1, 0] }).map (fun c => (c.res_.isOperationalError, c.split_res_))
      = some (true, [ValueStatus.default, { value := "va", status := Status.OK }]) ∧
    (MgetCmd.init.Initial ["mget", "a", "b"]).split_res_
      = [ValueStatus.default, ValueStatus.default] ∧
    (MgetCmd.init.Initial ["mget", "a", "b"]).Split (mgetOf sampleLookup)
      { keys := ["a", "b"], hints := [0] } = none := by
  decide

theorem Status_not_corruption_of_invalid (s : Status) (h : s.IsInvalidArgument = true) :
    s.IsCorruption = false ∧ s.ok = false := by
  unfold Status.IsInvalidArgument at h
  unfold Status.IsCorruption Status.ok
  cases hc : s.code <;> simp_all

/-- C22: for INCR and INCRBY, an engine corruption status with the text
`Corruption: Value is not a integer` gives the invalid-integer error, an invalid-argument
status the overflow error, and every other failure the operational error with the
engine's text; in each case the result holds the error only (no value is appended to the
reply) and the Secondary Key Index is unchanged. -/
theorem incr_failure_replies (db : StringsDB) (index : List String) (incr : IncrCmd)
    (incrby : IncrbyCmd) :
    ((db.Incrby incr.key_ 1).1.ok = false → (incr.Do db index).2 = index) ∧
    ((db.Incrby incr.key_ 1).1.IsCorruption = true →
      (db.Incrby incr.key_ 1).1.ToString = "Corruption: Value is not a integer" →
      (incr.Do db index).1.res_ = incr.res_.SetRes CmdRet.kInvalidInt "" ∧
      (incr.Do db index).1.res_.message = "-ERR value is not an integer or out of range\r\n") ∧
    ((db.Incrby incr.key_ 1).1.IsInvalidArgument = true →
      (incr.Do db index).1.res_ = incr.res_.SetRes CmdRet.kOverFlow "" ∧
      (incr.Do db index).1.res_.message = "-ERR increment or decrement would overflow\r\n") ∧
    ((db.Incrby incr.key_ 1).1.ok = false →
      ¬ ((db.Incrby incr.key_ 1).1.IsCorruption = true ∧
        (db.Incrby incr.key_ 1).1.ToString = "Corruption: Value is not a integer") →
      (db.Incrby incr.key_ 1).1.IsInvalidArgument = false →
      (incr.Do db index).1.res_ = incr.res_.SetRes CmdRet.kErrOther (db.Incrby incr.key_ 1).1.ToString ∧
      (incr.Do db index).1.res_.isOperationalError = true) ∧
    ((db.Incrby incrby.key_ incrby.by_).1.ok = false → (incrby.Do db index).2 = index) ∧
    ((db.Incrby incrby.key_ incrby.by_).1.IsCorruption = true →
      (db.Incrby incrby.key_ incrby.by_).1.ToString = "Corruption: Value is not a integer" →
      (incrby.Do db index).1.res_ = incrby.res_.SetRes CmdRet.kInvalidInt "" ∧
      (incrby.Do db index).1.res_.message = "-ERR value is not an integer or out of range\r\n") ∧
    ((db.Incrby incrby.key_ incrby.by_).1.IsInvalidArgument = true →
      (incrby.Do db index).1.res_ = incrby.res_.SetRes CmdRet.kOverFlow "" ∧
      (incrby.Do db index).1.res_.message = "-ERR increment or decrement would overflow\r\n") ∧
    ((db.Incrby incrby.key_ incrby.by_).1.ok = false →
      ¬ ((db.Incrby incrby.key_ incrby.by_).1.IsCorruption = true ∧
        (db.Incrby incrby.key_ incrby.by_).1.ToString = "Corruption: Value is not a integer") →
      (db.Incrby incrby.key_ incrby.by_).1.IsInvalidArgument = false →
      (incrby.Do db index).1.res_
        = incrby.res_.SetRes CmdRet.kErrOther (db.Incrby incrby.key_ incrby.by_).1.ToString ∧
      (incrby.Do db index).1.res_.isOperationalError = true) := by
  have hcorr : ∀ s : Status, s.IsCorruption = true → s.ok = false := by
    intro s h
    unfold Status.IsCorruption at h
    unfold Status.ok
    cases hc : s.code <;> simp_all
  refine ⟨?_, ?_, ?_, ?_, ?_, ?_, ?_, ?_⟩
  · intro hok
    unfold IncrCmd.Do
    dsimp only
    rw [hok]
    simp only [Bool.false_eq_true, if_false]
    split_ifs <;> rfl
  · intro hc hs
    unfold IncrCmd.Do
    dsimp only
    rw [hcorr _ hc, hc, hs]
    exact ⟨rfl, rfl⟩
  · intro hi
    obtain ⟨hc, hok⟩ := Status_not_corruption_of_invalid _ hi
    unfold IncrCmd.Do
    dsimp only
    rw [hok, hc, hi]
    exact ⟨rfl, rfl⟩
  · intro hok hnc hi
    unfold IncrCmd.Do
    dsimp only
    rw [hok, hi]
    have : ((db.Incrby incr.key_ 1).1.IsCorruption &&
        (db.Incrby incr.key_ 1).1.ToString == "Corruption: Value is not a integer") = false := by
      rw [Bool.and_eq_false_iff]
      by_cases h : (db.Incrby incr.key_ 1).1.IsCorruption = true
      · right
        simpa using fun h2 => hnc ⟨h, h2⟩
      · left
        simpa using h
    rw [this]
    exact ⟨rfl, rfl⟩
  · intro hok
    unfold IncrbyCmd.Do
    dsimp only
    rw [hok]
    simp only [Bool.false_eq_true, if_false]
    split_ifs <;> rfl
  · intro hc hs
    unfold IncrbyCmd.Do
    dsimp only
    rw [hcorr _ hc, hc, hs]
    exact ⟨rfl, rfl⟩
  · intro hi
    obtain ⟨hc, hok⟩ := Status_not_corruption_of_invalid _ hi
    unfold IncrbyCmd.Do
    dsimp only
    rw [hok, hc, hi]
    exact ⟨rfl, rfl⟩
  · intro hok hnc hi
    unfold IncrbyCmd.Do
    dsimp only
    rw [hok, hi]
    have : ((db.Incrby incrby.key_ incrby.by_).1.IsCorruption &&
        (db.Incrby incrby.key_ incrby.by_).1.ToString
          == "Corruption: Value is not a integer") = false := by
      rw [Bool.and_eq_false_iff]
      by_cases h : (db.Incrby incrby.key_ incrby.by_).1.IsCorruption = true
      · right
        simpa using fun h2 => hnc ⟨h, h2⟩
      · left
        simpa using h
    rw [this]
    exact ⟨rfl, rfl⟩

theorem incr_failure_replies_witness :
    ((incrFailingDB { code := StatusCode.kCorruption, state := "Value is not a integer" }).Incrby
        "k" 1).1.IsCorruption = true ∧
    ((incrFailingDB { code := StatusCode.kCorruption, state := "Value is not a integer" }).Incrby
        "k" 1).1.ToString = "Corruption: Value is not a integer" ∧
    ((({ res_ := CmdRes.clear, key_ := "k", new_value_ := 0 } : IncrCmd).Do
        (incrFailingDB { code := StatusCode.kCorruption, state := "Value is not a integer" })
        []).1.res_
      = CmdRes.clear.SetRes CmdRet.kInvalidInt "" ∧
    (({ res_ := CmdRes.clear, key_ := "k", new_value_ := 0 } : IncrCmd).Do
        (incrFailingDB { code := StatusCode.kCorruption, state := "Value is not a integer" })
        []).1.res_.message = "-ERR value is not an integer or out of range\r\n") :=
  ⟨by decide, by decide,
    (incr_failure_replies
      (incrFailingDB { code := StatusCode.kCorruption, state := "Value is not a integer" }) []
      { res_ := CmdRes.clear, key_ := "k", new_value_ := 0 }
      { res_ := CmdRes.clear, key_ := "k", by_ := 1, new_value_ := 0 }).2.1
      (by decide) (by decide)⟩

/-! ## The size cap at the limit -/

/-- A SCAN that ended at the size check has made a call. -/
theorem ScanCmd_run_exceeded_calls (step : Int) (raw_limit : Nat) (scan : ScanFn) (c : ScanCmd)
    (s : ScanLoop) (h : ScanCmd.run step raw_limit scan c = ScanOutcome.exceeded s) :
    s.calls ≠ [] := by
  have rule := ScanCmd_loop_rule step raw_limit scan c (fun _ => True) (fun s => s.calls ≠ [])
    (fun _ _ _ _ => trivial)
    (fun st _ _ _ => by
      show (ScanCmd.body step raw_limit scan c st).1.calls ≠ []
      rw [(ScanCmd_body_fields step raw_limit scan c st).2.2.2.1]
      simp)
    (c.count_.toNat + 1)
    { left := c.count_, cursor_ret := c.cursor_, raw := "", total_key := 0, calls := [] }
    trivial (Or.inl rfl)
  exact (rule.2.1 s h).1

/-- A KEYS loop that ended at the size check has made a call, and the serialized keys of its
calls have reached the limit. -/
theorem KeysCmd_loop_exceeded (step : Int) (raw_limit : Nat) (scan : ScanFn) (c : KeysCmd) :
    ∀ (fuel : Nat) (st s : ScanLoop), st.raw = encodeKeys (callKeys st.calls) →
      KeysCmd.loop step raw_limit scan c fuel st = ScanOutcome.exceeded s →
      s.calls ≠ [] ∧ raw_limit ≤ (encodeKeys (callKeys s.calls)).utf8ByteSize := by
  intro fuel
  induction fuel with
  | zero =>
    intro st s _ h
    simp [KeysCmd.loop] at h
  | succ fuel ih =>
    intro st s hP h
    obtain ⟨_, hraw, hcalls, hdec, _⟩ := KeysCmd_body_fields step raw_limit scan c st
    have hr : (KeysCmd.body step raw_limit scan c st).1.raw
        = encodeKeys (callKeys (KeysCmd.body step raw_limit scan c st).1.calls) := by
      rw [hraw, hcalls, callKeys_append, encodeKeys_append, ← hP]
    cases hb : (KeysCmd.body step raw_limit scan c st).2 with
    | true =>
      simp only [KeysCmd.loop, hb, if_true, ScanOutcome.exceeded.injEq] at h
      subst h
      refine ⟨by rw [hcalls]; simp, ?_⟩
      rw [← hr]
      rw [hb] at hdec
      simpa using hdec.symm
    | false =>
      cases hc : ((KeysCmd.body step raw_limit scan c st).1.cursor_ret != 0) with
      | true =>
        simp only [KeysCmd.loop, hb, Bool.false_eq_true, if_false, hc, if_true] at h
        exact ih _ s hr h
      | false =>
        simp [KeysCmd.loop, hb, hc] at h

/-- C29 (as stated) fails: with the maximum set to exactly the serialized size of the keys of
the only batch (45 bytes for `SCAN 0 COUNT 5`, 108 bytes for `KEYS *` on the 12 sample
keys), both commands end with the size-cap error. -/
theorem size_cap_fires_at_equality :
    (encodeKeys (sampleKeys.take 5)).utf8ByteSize = 45 ∧
    (ScanCmd.Do 1000 45 (listScan sampleKeys) sampleScanCmd).map (fun r => r.res_.message)
      = some "-ERR Response exceeds the max-client-response-size limit\r\n" ∧
    (encodeKeys sampleKeys).utf8ByteSize = 108 ∧
    (KeysCmd.Do 1000 108 (listScan sampleKeys) sampleKeysCmd 2).map (fun r => r.res_.message)
      = some "-ERR Response exceeds the max-client-response-size limit\r\n" := by
  decide

/-! ## The number of engine calls of SCAN -/

/-- One pass of the SCAN loop body, started with no call made or under the loop condition,
keeps the account of the budget: after `n` calls the budget left is `count_ - n * step`
when that is positive and 0 otherwise, and more than one call is made only while
`count_` exceeds the step lengths used by the earlier calls. -/
theorem ScanCmd_body_budget (step : Int) (raw_limit : Nat) (scan : ScanFn) (c : ScanCmd)
    (st : ScanLoop)
    (hP : (st.calls = [] → st.left = c.count_) ∧
      (st.calls ≠ [] → st.left = (if c.count_ > (st.calls.length : Int) * step
        then c.count_ - (st.calls.length : Int) * step else 0)) ∧
      (st.calls.length ≤ 1 ∨ c.count_ > ((st.calls.length : Int) - 1) * step))
    (hH : st.calls = [] ∨ (st.cursor_ret ≠ 0 ∧ st.left ≠ 0)) :
    ((ScanCmd.body step raw_limit scan c st).1.calls = [] →
      (ScanCmd.body step raw_limit scan c st).1.left = c.count_) ∧
    ((ScanCmd.body step raw_limit scan c st).1.calls ≠ [] →
      (ScanCmd.body step raw_limit scan c st).1.left
        = (if c.count_ > ((ScanCmd.body step raw_limit scan c st).1.calls.length : Int) * step
          then c.count_ - ((ScanCmd.body step raw_limit scan c st).1.calls.length : Int) * step
          else 0)) ∧
    ((ScanCmd.body step raw_limit scan c st).1.calls.length ≤ 1 ∨
      c.count_ > (((ScanCmd.body step raw_limit scan c st).1.calls.length : Int) - 1) * step) := by
  obtain ⟨hl, _, _, hcalls, _, _⟩ := ScanCmd_body_fields step raw_limit scan c st
  obtain ⟨h0, h1, _⟩ := hP
  have hlen : (ScanCmd.body step raw_limit scan c st).1.calls.length = st.calls.length + 1 := by
    rw [hcalls, List.length_append, List.length_singleton]
  rw [hlen, hl]
  have hcast : (((st.calls.length + 1 : Nat) : Int)) * step
      = (st.calls.length : Int) * step + step := by
    push_cast
    ring
  have hcast2 : ((((st.calls.length + 1 : Nat) : Int)) - 1) * step
      = (st.calls.length : Int) * step := by
    push_cast
    ring
  rw [hcast, hcast2]
  by_cases he : st.calls = []
  · have hz : st.calls.length = 0 := by rw [he]; rfl
    have hleft := h0 he
    rw [hz, hleft]
    refine ⟨fun h => absurd h (by rw [hcalls]; simp), fun _ => ?_, Or.inl (by omega)⟩
    simp only [Nat.cast_zero, zero_mul, zero_add]
  · have hleft := h1 he
    have hne : st.left ≠ 0 := by
      cases hH with
      | inl h => exact absurd h he
      | inr h => exact h.2
    generalize (st.calls.length : Int) * step = t at hleft ⊢
    have hgt : c.count_ > t := by
      by_contra hle
      rw [if_neg hle] at hleft
      exact hne hleft
    rw [if_pos hgt] at hleft
    refine ⟨fun h => absurd h (by rw [hcalls]; simp), fun _ => ?_, Or.inr hgt⟩
    rw [hleft]
    split_ifs <;> omega

/-- C32: for every `count_` (zero and negative values included), every positive step length
and every behaviour of the engine's `Scan`, the loop of `ScanCmd::Do` ends, after at
least one and at most `max(1, ceil(count_ / PIKA_SCAN_STEP_LENGTH))` engine calls; when
it ends with a budget left, the last call returned the cursor 0 or the size check
fired. -/
theorem ScanCmd_call_bound (step : Int) (raw_limit : Nat) (scan : ScanFn) (c : ScanCmd)
    (hstep : 0 < step) :
    (ScanCmd.run step raw_limit scan c).ended = true ∧
    1 ≤ (ScanCmd.run step raw_limit scan c).state.calls.length ∧
    (ScanCmd.run step raw_limit scan c).state.calls.length ≤ scanCallBound c.count_ step ∧
    (∀ s, ScanCmd.run step raw_limit scan c = ScanOutcome.finished s → s.left ≠ 0 →
      s.cursor_ret = 0) := by
  have rule := ScanCmd_loop_rule step raw_limit scan c
    (fun st => (st.calls = [] → st.left = c.count_) ∧
      (st.calls ≠ [] → st.left = (if c.count_ > (st.calls.length : Int) * step
        then c.count_ - (st.calls.length : Int) * step else 0)) ∧
      (st.calls.length ≤ 1 ∨ c.count_ > ((st.calls.length : Int) - 1) * step))
    (fun st => st.calls ≠ [] ∧
      (st.calls.length ≤ 1 ∨ c.count_ > ((st.calls.length : Int) - 1) * step))
    (fun st hP hH _ => ScanCmd_body_budget step raw_limit scan c st hP hH)
    (fun st hP hH _ => by
      refine ⟨?_, (ScanCmd_body_budget step raw_limit scan c st hP hH).2.2⟩
      rw [(ScanCmd_body_fields step raw_limit scan c st).2.2.2.1]
      simp)
    (c.count_.toNat + 1)
    { left := c.count_, cursor_ret := c.cursor_, raw := "", total_key := 0, calls := [] }
    ⟨fun _ => rfl, fun h => absurd rfl h, Or.inl (Nat.zero_le _)⟩
    (Or.inl rfl)
  have bound : ∀ n : Nat, (n ≤ 1 ∨ c.count_ > ((n : Int) - 1) * step) →
      n ≤ scanCallBound c.count_ step := by
    intro n hn
    unfold scanCallBound
    rcases hn with h | h
    · exact le_trans h (le_max_left _ _)
    · apply le_trans _ (le_max_right _ _)
      have h2 : (n : Int) * step ≤ c.count_ + step - 1 := by
        have : ((n : Int) - 1) * step = (n : Int) * step - step := by ring
        omega
      have h3 : (n : Int) ≤ (c.count_ + step - 1) / step :=
        (Int.le_ediv_iff_mul_le hstep).mpr h2
      omega
  have hrun : ScanCmd.loop step raw_limit scan c (c.count_.toNat + 1)
      { left := c.count_, cursor_ret := c.cursor_, raw := "", total_key := 0, calls := [] }
      = ScanCmd.run step raw_limit scan c := rfl
  rw [hrun] at rule
  cases ho : ScanCmd.run step raw_limit scan c with
  | running s => exact absurd ho (ScanCmd_run_ends step raw_limit scan c hstep s)
  | exceeded s =>
    obtain ⟨⟨hne, hb⟩, _⟩ := rule.2.1 s ho
    refine ⟨rfl, List.length_pos.mpr hne, bound _ hb, ?_⟩
    intro s2 h2
    cases h2
  | finished s =>
    obtain ⟨⟨_, _, hb⟩, hexit, hne, _⟩ := rule.1 s ho
    refine ⟨rfl, List.length_pos.mpr hne, bound _ hb, ?_⟩
    intro s2 h2 hleft
    cases h2
    cases hexit with
    | inl h => exact h
    | inr h => exact absurd h hleft

theorem ScanCmd_call_bound_witness :
    (0 : Int) < 2 ∧ scanCallBound sampleScanCmd.count_ 2 = 3 ∧
    (ScanCmd.run 2 1000 (listScan sampleKeys) sampleScanCmd).state.calls.length = 3 ∧
    ((ScanCmd.run 2 1000 (listScan sampleKeys) sampleScanCmd).ended = true ∧
    1 ≤ (ScanCmd.run 2 1000 (listScan sampleKeys) sampleScanCmd).state.calls.length ∧
    (ScanCmd.run 2 1000 (listScan sampleKeys) sampleScanCmd).state.calls.length
      ≤ scanCallBound sampleScanCmd.count_ 2 ∧
    (∀ s, ScanCmd.run 2 1000 (listScan sampleKeys) sampleScanCmd = ScanOutcome.finished s →
      s.left ≠ 0 → s.cursor_ret = 0)) :=
  ⟨by decide, by decide, by decide,
    ScanCmd_call_bound 2 1000 (listScan sampleKeys) sampleScanCmd (by decide)⟩

/-! ## Reading an entry back -/

theorem foldl_digits_append (ds : List Char) (ch : Char) (v : Nat) :
    (ds ++ [ch]).foldl (fun acc c => acc * 10 + digitVal c) v
      = ds.foldl (fun acc c => acc * 10 + digitVal c) v * 10 + digitVal ch := by
  rw [List.foldl_append]
  rfl

/-- The digits of a number read back give the number. -/
theorem foldl_toDigits (n : Nat) :
    (Nat.toDigits 10 n).foldl (fun acc c => acc * 10 + digitVal c) 0 = n := by
  induction n using Nat.strong_induction_on with
  | _ n ih =>
    have hd := (digitChar_props (n % 10) (Nat.mod_lt _ (by decide))).1
    rw [toDigits_rec]
    split
    · rename_i h10
      simp only [List.foldl_cons, List.foldl_nil, hd]
      omega
    · rename_i h10
      rw [foldl_digits_append, ih (n / 10) (by omega), hd]
      omega

theorem parseLen_toDigits (n : Nat) : parseLen (Nat.toDigits 10 n) = some n := by
  unfold parseLen
  have h1 : (Nat.toDigits 10 n).isEmpty = false := by
    cases h : Nat.toDigits 10 n with
    | nil => exact absurd h (toDigits_ne_nil n)
    | cons a l => rfl
  have h2 : (Nat.toDigits 10 n).all (fun ch => isDigitFrom 48 ch) = true := by
    rw [List.all_eq_true]
    exact toDigits_isDigit n
  rw [h1, h2, foldl_toDigits]
  rfl

theorem readLine_append (ds : List Char) (rest : List Char) (h : ∀ c ∈ ds, c ≠ '\r') :
    readLine (ds ++ '\r' :: '\n' :: rest) = some (ds, rest) := by
  induction ds with
  | nil =>
    rw [List.nil_append, readLine, if_pos ⟨rfl, rfl⟩]
    rfl
  | cons c ds ih =>
    have hc : c ≠ '\r' := h c (List.mem_cons_self _ _)
    rw [List.cons_append, readLine, if_neg (fun hh => hc hh.1),
      ih (fun x hx => h x (List.mem_cons_of_mem _ hx))]
    rfl

theorem digit_ne_cr (c : Char) (h : isDigitFrom 48 c = true) : c ≠ '\r' := by
  intro hc
  subst hc
  revert h
  decide

theorem readLen_header (marker : Char) (n : Nat) (rest : List Char) :
    readLen marker (marker :: (Nat.toDigits 10 n ++ '\r' :: '\n' :: rest)) = some (n, rest) := by
  rw [readLen, if_pos rfl,
    readLine_append _ rest (fun c hc => digit_ne_cr c (toDigits_isDigit n c hc))]
  dsimp only
  rw [parseLen_toDigits]
  rfl

theorem takeBytes_append (p rest : List Char) :
    takeBytes (p ++ rest) (String.utf8Len p) = some (p, rest) := by
  induction p with
  | nil =>
    rw [List.nil_append, String.utf8Len_nil]
    cases rest with
    | nil => rw [takeBytes, if_pos rfl]
    | cons a l => rw [takeBytes, if_pos rfl]
  | cons c p ih =>
    have hpos : 0 < c.utf8Size := Char.utf8Size_pos c
    rw [List.cons_append, String.utf8Len_cons, takeBytes, if_neg (by omega), if_pos (by omega),
      Nat.add_sub_cancel, ih]
    rfl

theorem utf8ByteSize_eq_utf8Len (a : String) : a.utf8ByteSize = String.utf8Len a.data := by
  cases a with
  | mk cs => rfl

theorem readBulks_encode (args : List String) : ∀ tail : List Char,
    readBulks args.length (args.flatMap bulkData ++ tail) = some (args, tail) := by
  induction args with
  | nil =>
    intro tail
    rfl
  | cons a args ih =>
    intro tail
    have hdata : (a :: args).flatMap bulkData ++ tail
        = '$' :: (Nat.toDigits 10 a.utf8ByteSize ++ '\r' :: '\n' ::
            (a.data ++ ('\r' :: '\n' :: (args.flatMap bulkData ++ tail)))) := by
      simp only [List.flatMap_cons, bulkData, List.cons_append, List.append_assoc,
        List.nil_append]
    rw [List.length_cons, hdata, readBulks, readLen_header]
    dsimp only
    rw [utf8ByteSize_eq_utf8Len, takeBytes_append]
    dsimp only
    rw [if_pos ⟨rfl, rfl⟩, ih tail]
    rfl

theorem appendBulk_data_eq (s a : String) : (appendBulk s a).data = s.data ++ bulkData a := by
  simp only [appendBulk, RedisAppendContent, RedisAppendLenUint64, RedisAppendLen,
    String.data_append, List.append_assoc, ll2string_ofNat_data, bulkData]
  rfl

theorem foldl_appendBulk_data_eq (l : List String) : ∀ s : String,
    (l.foldl appendBulk s).data = s.data ++ l.flatMap bulkData := by
  induction l with
  | nil => intro s; simp
  | cons a l ih =>
    intro s
    rw [List.foldl_cons, ih, appendBulk_data_eq, List.flatMap_cons, List.append_assoc]

/-- Reading back the canonical form of an argument vector gives the vector. -/
theorem decodeEntry_encodeArgs (args : List String) : decodeEntry (encodeArgs args) = some args := by
  have hdata : (encodeArgs args).data
      = '*' :: (Nat.toDigits 10 args.length ++ '\r' :: '\n' :: (args.flatMap bulkData ++ [])) := by
    unfold encodeArgs Cmd.ToRedisProtocol
    rw [foldl_appendBulk_data_eq, header_data]
    simp only [List.cons_append, List.append_assoc, List.nil_append, List.append_nil]
  unfold decodeEntry
  rw [hdata, readLen_header]
  dsimp only
  rw [readBulks_encode]

/-! ## The entries of the rewriting encoders -/

theorem CheckArg_three (n : Nat) (h : CheckArg 3 n = true) : n = 3 := by
  unfold CheckArg at h
  simp at h
  omega

/-- An accepted PEXPIRE has three arguments, kept in `argv_`. -/
theorem PexpireCmd_accepted (c : PexpireCmd) (argv : List String)
    (hok : (c.Initial argv).res_.ok = true) : (c.Initial argv).argv_.length = 3 := by
  unfold PexpireCmd.Initial PexpireCmd.DoInitial at hok ⊢
  dsimp only at hok ⊢
  by_cases hc : CheckArg kPexpireArity argv.length = true
  · have h3 : argv.length = 3 := CheckArg_three _ hc
    rw [hc]
    simp only [Bool.not_true, Bool.false_eq_true, if_false]
    cases string2int (argAt argv 2) <;> exact h3
  · simp only [Bool.not_eq_true] at hc
    rw [hc] at hok
    simp [CmdRes.ok, CmdRes.SetRes] at hok

/-- An accepted PEXPIREAT has three arguments, kept in `argv_`. -/
theorem PexpireatCmd_accepted (c : PexpireatCmd) (argv : List String)
    (hok : (c.Initial argv).res_.ok = true) : (c.Initial argv).argv_.length = 3 := by
  unfold PexpireatCmd.Initial PexpireatCmd.DoInitial at hok ⊢
  dsimp only at hok ⊢
  by_cases hc : CheckArg kPexpireatArity argv.length = true
  · have h3 : argv.length = 3 := CheckArg_three _ hc
    rw [hc]
    simp only [Bool.not_true, Bool.false_eq_true, if_false]
    cases string2int (argAt argv 2) <;> exact h3
  · simp only [Bool.not_eq_true] at hc
    rw [hc] at hok
    simp [CmdRes.ok, CmdRes.SetRes] at hok

/-- C31: every entry of the rewriting encoders (SET in the expiring mode, SETNX, SETEX,
PSETEX, EXPIRE, and PEXPIRE and PEXPIREAT for every argument vector they accept) reads
back as a well-formed array: the header counts the bulk strings that follow, each length
prefix is the byte length of its payload, and the payloads are the rewritten command.
The reader accepts the canonical form of every argument vector, and rejects the text
PEXPIRE's encoder gives for a vector of four arguments (which the command does not
accept). -/
theorem rewriting_encoders_well_formed (set : SetCmd) (setnx : SetnxCmd) (setex : SetexCmd)
    (psetex : PsetexCmd) (expire : ExpireCmd) (pexpire : PexpireCmd) (pexpireat : PexpireatCmd)
    (now : Int) :
    (set.condition_ = SetCondition.kEXORPX →
      decodeEntry (set.ToRedisProtocol now)
        = some ["pksetexat", set.key_, ll2string (toInt32 (add64 now set.sec_)), set.value_]) ∧
    decodeEntry (setnx.ToRedisProtocol now) = some ["setnx", setnx.key_, setnx.value_] ∧
    decodeEntry (setex.ToRedisProtocol now)
      = some ["pksetexat", setex.key_, ll2string (toInt32 (add64 now setex.sec_)), setex.value_] ∧
    decodeEntry (psetex.ToRedisProtocol now)
      = some ["pksetexat", psetex.key_,
          ll2string (toInt32 (add64 now (Int.tdiv psetex.usec_ 1000))), psetex.value_] ∧
    decodeEntry (expire.ToRedisProtocol now)
      = some ["expireat", expire.key_, ll2string (add64 now expire.sec_)] ∧
    (∀ argv, (pexpire.Initial argv).res_.ok = true →
      decodeEntry ((pexpire.Initial argv).ToRedisProtocol now)
        = some ["expireat", (pexpire.Initial argv).key_,
            ll2string (add64 now (Int.tdiv (pexpire.Initial argv).msec_ 1000))]) ∧
    (∀ argv, (pexpireat.Initial argv).res_.ok = true →
      decodeEntry ((pexpireat.Initial argv).ToRedisProtocol now)
        = some ["expireat", (pexpireat.Initial argv).key_,
            ll2string (Int.tdiv (pexpireat.Initial argv).time_stamp_ms_ 1000)]) ∧
    (∀ args, decodeEntry (encodeArgs args) = some args) ∧
    decodeEntry (overlongPexpire.ToRedisProtocol 0) = none := by
  refine ⟨?_, ?_, ?_, ?_, ?_, ?_, ?_, decodeEntry_encodeArgs, by decide⟩
  · intro h
    rw [SetCmd_entry_EXORPX set now h, decodeEntry_encodeArgs]
  · rw [SetnxCmd_entry, decodeEntry_encodeArgs]
  · rw [SetexCmd_entry, decodeEntry_encodeArgs]
  · rw [PsetexCmd_entry, decodeEntry_encodeArgs]
  · rw [ExpireCmd_entry, decodeEntry_encodeArgs]
  · intro argv hok
    rw [PexpireCmd_entry _ now (PexpireCmd_accepted pexpire argv hok), decodeEntry_encodeArgs]
  · intro argv hok
    rw [PexpireatCmd_entry _ now (PexpireatCmd_accepted pexpireat argv hok),
      decodeEntry_encodeArgs]

theorem rewriting_encoders_well_formed_witness :
    (PexpireCmd.init.Initial ["pexpire", "k", "5000"]).res_.ok = true ∧
    decodeEntry ((PexpireCmd.init.Initial ["pexpire", "k", "5000"]).ToRedisProtocol 1700000000)
      = some ["expireat", "k", "1700000005"] ∧
    decodeEntry ((PexpireCmd.init.Initial ["pexpire", "k", "5000"]).ToRedisProtocol 1700000000)
      = some ["expireat", (PexpireCmd.init.Initial ["pexpire", "k", "5000"]).key_,
          ll2string (add64 1700000000
            (Int.tdiv (PexpireCmd.init.Initial ["pexpire", "k", "5000"]).msec_ 1000))] :=
  ⟨by decide, by decide,
    (rewriting_encoders_well_formed SetCmd.init SetnxCmd.init SetexCmd.init PsetexCmd.init
      ExpireCmd.init PexpireCmd.init PexpireatCmd.init 1700000000).2.2.2.2.2.1
      ["pexpire", "k", "5000"] (by decide)⟩

/-! ## The timestamps of the EXPIRE family -/

/-- C2 (as stated) fails: `EXPIRE k 9223372036854775807` is accepted, and at the clock value
1700000000 its entry carries the timestamp -9223372035154775809, the `int64_t` sum of the
code, and not `now + sec_` = 9223372038554775807. -/
theorem ExpireCmd_timestamp_wraps :
    (ExpireCmd.init.Initial ["expire", "k", "9223372036854775807"]).res_.ok = true ∧
    (ExpireCmd.init.Initial ["expire", "k", "9223372036854775807"]).sec_ = 9223372036854775807 ∧
    (ExpireCmd.init.Initial ["expire", "k", "9223372036854775807"]).ToRedisProtocol 1700000000
      = encodeArgs ["expireat", "k", "-9223372035154775809"] ∧
    (ExpireCmd.init.Initial ["expire", "k", "9223372036854775807"]).ToRedisProtocol 1700000000
      ≠ encodeArgs ["expireat", "k", ll2string (1700000000 + 9223372036854775807)] := by
  decide

/-- C2 (amended): for every key, every parsed relative time `v` and every clock value `now`
whose sum is representable as a signed 64-bit integer, the replication entry of EXPIRE is
`[expireat, key, now + v]`, and that of PEXPIRE is `[expireat, key, now + v / 1000]`
(truncating division) when that sum is representable; outside the range the timestamp is
the wrapped `int64_t` sum. The entry of PEXPIREAT is `[expireat, key, v / 1000]` and is
the same for every clock value. -/
theorem expire_family_entries (name key num : String) (v now : Int)
    (hv : string2int num = some v) :
    (isInt64 (now + v) →
      (ExpireCmd.init.Initial [name, key, num]).ToRedisProtocol now
        = encodeArgs ["expireat", key, ll2string (now + v)]) ∧
    (isInt64 (now + Int.tdiv v 1000) →
      (PexpireCmd.init.Initial [name, key, num]).ToRedisProtocol now
        = encodeArgs ["expireat", key, ll2string (now + Int.tdiv v 1000)]) ∧
    (ExpireCmd.init.Initial [name, key, num]).ToRedisProtocol now
      = encodeArgs ["expireat", key, ll2string (add64 now v)] ∧
    (PexpireCmd.init.Initial [name, key, num]).ToRedisProtocol now
      = encodeArgs ["expireat", key, ll2string (add64 now (Int.tdiv v 1000))] ∧
    (PexpireatCmd.init.Initial [name, key, num]).ToRedisProtocol now
      = encodeArgs ["expireat", key, ll2string (Int.tdiv v 1000)] ∧
    (∀ now2 : Int, (PexpireatCmd.init.Initial [name, key, num]).ToRedisProtocol now2
      = (PexpireatCmd.init.Initial [name, key, num]).ToRedisProtocol now) := by
  have h1 : (ExpireCmd.init.Initial [name, key, num]).ToRedisProtocol now
      = encodeArgs ["expireat", key, ll2string (add64 now v)] := by
    rw [ExpireCmd_Initial name key num v hv, ExpireCmd_entry]
  have h2 : (PexpireCmd.init.Initial [name, key, num]).ToRedisProtocol now
      = encodeArgs ["expireat", key, ll2string (add64 now (Int.tdiv v 1000))] := by
    rw [PexpireCmd_Initial name key num v hv]
    exact PexpireCmd_entry _ now rfl
  refine ⟨?_, ?_, h1, h2, ?_, ?_⟩
  · intro hr
    rw [h1, add64_of_isInt64 now v hr]
  · intro hr
    rw [h2, add64_of_isInt64 now _ hr]
  · rw [PexpireatCmd_Initial name key num v hv]
    exact PexpireatCmd_entry _ now rfl
  · intro now2
    rw [PexpireatCmd_Initial name key num v hv]
    rw [PexpireatCmd_entry _ now2 (by rfl), PexpireatCmd_entry _ now (by rfl)]

/-- Witness for C2: `EXPIRE k 10` encoded at `now = 1700000000`. -/
theorem expire_family_entries_witness :
    string2int "10" = some 10 ∧ isInt64 (1700000000 + 10) ∧
    (ExpireCmd.init.Initial ["expire", "k", "10"]).ToRedisProtocol 1700000000
      = encodeArgs ["expireat", "k", "1700000010"] :=
  ⟨by decide, by decide,
    (expire_family_entries "expire" "k" "10" 10 1700000000 (by decide)).1 (by decide)⟩

/-! ## The reply texts of SCAN and KEYS -/

theorem encodeKeys_data (keys : List String) : (encodeKeys keys).data = keys.flatMap bulkData := by
  unfold encodeKeys
  rw [foldl_appendBulk_data_eq]
  rfl

/-- The reply `ScanCmd::Do` builds after its loop is the reply text of the specification,
appended to the reply buffer. -/
theorem ScanCmd_reply_text (res : CmdRes) (cursor : Int) (keys : List String) :
    ScanCmd.reply res cursor (keys.length : Int) (encodeKeys keys)
      = { ret_ := res.ret_, message_ := res.message_ ++ scanReplyText cursor keys } := by
  have hm : (ScanCmd.reply res cursor (keys.length : Int) (encodeKeys keys)).message_
      = res.message_ ++ scanReplyText cursor keys := by
    apply String.ext
    simp only [ScanCmd.reply, CmdRes.AppendArrayLen, CmdRes.AppendStringLen, CmdRes.AppendContent,
      CmdRes.AppendStringRaw, RedisAppendLen, RedisAppendContent, String.data_append,
      List.append_assoc, encodeKeys_data, scanReplyText, bulkData]
    have h2 : (ll2string 2).data = ['2'] := by decide
    have hlen : (ll2string ((ll2string cursor).utf8ByteSize : Int)).data
        = Nat.toDigits 10 (ll2string cursor).utf8ByteSize := ll2string_ofNat_data _
    have hcnt : (ll2string (keys.length : Int)).data = Nat.toDigits 10 keys.length :=
      ll2string_ofNat_data _
    have hk : kNewLine.data = ['\r', '\n'] := rfl
    rw [h2, hlen, hcnt, hk]
    simp only [List.cons_append, List.nil_append, List.append_assoc, List.singleton_append]
  have hr : (ScanCmd.reply res cursor (keys.length : Int) (encodeKeys keys)).ret_ = res.ret_ := rfl
  cases hx : ScanCmd.reply res cursor (keys.length : Int) (encodeKeys keys) with
  | mk r m =>
    rw [hx] at hm hr
    simp only at hm hr
    rw [hm, hr]

/-- The reply `KeysCmd::Do` builds after its loop is the reply text of the specification,
appended to the reply buffer. -/
theorem KeysCmd_reply_text (res : CmdRes) (keys : List String) :
    (res.AppendArrayLen (keys.length : Int)).AppendStringRaw (encodeKeys keys)
      = { ret_ := res.ret_, message_ := res.message_ ++ keysReplyText keys } := by
  have hm : ((res.AppendArrayLen (keys.length : Int)).AppendStringRaw (encodeKeys keys)).message_
      = res.message_ ++ keysReplyText keys := by
    apply String.ext
    simp only [CmdRes.AppendArrayLen, CmdRes.AppendStringRaw, RedisAppendLen, String.data_append,
      List.append_assoc, encodeKeys_data, keysReplyText]
    have hcnt : (ll2string (keys.length : Int)).data = Nat.toDigits 10 keys.length :=
      ll2string_ofNat_data _
    have hk : kNewLine.data = ['\r', '\n'] := rfl
    rw [hcnt, hk]
    simp only [List.cons_append, List.nil_append, List.append_assoc, List.singleton_append]
  cases hx : (res.AppendArrayLen (keys.length : Int)).AppendStringRaw (encodeKeys keys) with
  | mk r m =>
    have hr : ((res.AppendArrayLen (keys.length : Int)).AppendStringRaw (encodeKeys keys)).ret_
        = res.ret_ := rfl
    rw [hx] at hm hr
    simp only at hm hr
    rw [hm, hr]

/-- Reading the SCAN reply text back gives the text of the cursor and the keys. -/
theorem decodeScanReply_text (cursor : Int) (keys : List String) :
    decodeScanReply (scanReplyText cursor keys) = some (ll2string cursor, keys) := by
  have h1 : (scanReplyText cursor keys).data
      = '*' :: (Nat.toDigits 10 2 ++ '\r' :: '\n' ::
          ([ll2string cursor].flatMap bulkData ++
            '*' :: (Nat.toDigits 10 keys.length ++ '\r' :: '\n' ::
              (keys.flatMap bulkData ++ [])))) := by
    have h2 : Nat.toDigits 10 2 = ['2'] := by decide
    rw [h2]
    simp only [scanReplyText, List.flatMap_cons, List.flatMap_nil, List.append_nil,
      List.cons_append, List.nil_append]
  unfold decodeScanReply
  rw [h1, readLen_header]
  dsimp only
  rw [if_pos rfl]
  have hb := readBulks_encode [ll2string cursor]
    ('*' :: (Nat.toDigits 10 keys.length ++ '\r' :: '\n' :: (keys.flatMap bulkData ++ [])))
  rw [show [ll2string cursor].length = 1 from rfl] at hb
  rw [hb]
  dsimp only
  rw [readLen_header]
  dsimp only
  rw [readBulks_encode]

/-- Reading the KEYS reply text back gives the keys. -/
theorem decodeEntry_keysReplyText (keys : List String) :
    decodeEntry (keysReplyText keys) = some keys := by
  have h1 : (keysReplyText keys).data
      = '*' :: (Nat.toDigits 10 keys.length ++ '\r' :: '\n' :: (keys.flatMap bulkData ++ [])) := by
    simp only [keysReplyText, List.append_nil]
  unfold decodeEntry
  rw [h1, readLen_header]
  dsimp only
  rw [readBulks_encode]

/-- A SCAN whose loop ended normally replies with the reply text for the cursor of the last
call and the keys of all calls, appended to the reply buffer. -/
theorem ScanCmd_Do_finished (step : Int) (raw_limit : Nat) (scan : ScanFn) (c : ScanCmd)
    (s : ScanLoop) (ho : ScanCmd.run step raw_limit scan c = ScanOutcome.finished s) :
    ScanCmd.Do step raw_limit scan c
      = some { c with
          res_ := { ret_ := c.res_.ret_,
                    message_ := c.res_.message_ ++ scanReplyText s.cursor_ret (callKeys s.calls) } } := by
  obtain ⟨⟨hi, htot, _⟩, _⟩ := (ScanCmd_run_facts step raw_limit scan c).1 s ho
  unfold ScanCmd.Do
  rw [ho]
  dsimp only
  rw [htot, hi.raw_eq, ScanCmd_reply_text]

/-- What `ScanCmd.result` gives is what the reply of the command carries. -/
theorem ScanCmd_result_reply (step : Int) (raw_limit : Nat) (scan : ScanFn) (c : ScanCmd)
    (cursor : Int) (keys : List String)
    (h : ScanCmd.result step raw_limit scan c = some (cursor, keys)) :
    ScanCmd.Do step raw_limit scan c
      = some { c with
          res_ := { ret_ := c.res_.ret_,
                    message_ := c.res_.message_ ++ scanReplyText cursor keys } } := by
  unfold ScanCmd.result at h
  cases ho : ScanCmd.run step raw_limit scan c with
  | running s => rw [ho] at h; simp at h
  | exceeded s => rw [ho] at h; simp at h
  | finished s =>
    rw [ho] at h
    simp only [Option.some.injEq, Prod.mk.injEq] at h
    rw [← h.1, ← h.2]
    exact ScanCmd_Do_finished step raw_limit scan c s ho

/-- A KEYS whose loop ended normally replies with the reply text for the keys of all calls,
appended to the reply buffer. -/
theorem KeysCmd_Do_finished (step : Int) (raw_limit : Nat) (scan : ScanFn) (k : KeysCmd)
    (fuel : Nat) (s : ScanLoop)
    (ho : KeysCmd.run step raw_limit scan k fuel = ScanOutcome.finished s) :
    KeysCmd.Do step raw_limit scan k fuel
      = some { k with
          res_ := { ret_ := k.res_.ret_,
                    message_ := k.res_.message_ ++ keysReplyText (callKeys s.calls) } } := by
  have hk : ∀ s2, KeysCmd.run step raw_limit scan k fuel ≠ ScanOutcome.exceeded s2 →
      s2 = (KeysCmd.run step raw_limit scan k fuel).state →
      s2.raw = encodeKeys (callKeys s2.calls) ∧
      s2.total_key = ((callKeys s2.calls).length : Int) ∧
      (∀ j, j < s2.calls.length →
        (encodeKeys (callKeys (s2.calls.take (j + 1)))).utf8ByteSize < raw_limit) :=
    KeysCmd_loop_facts step raw_limit scan k fuel
      { left := 0, cursor_ret := 0, raw := "", total_key := 0, calls := [] }
      ⟨rfl, rfl, fun j hj => absurd hj (by simp)⟩
  rw [ho] at hk
  obtain ⟨hraw, htot, _⟩ := hk s (by simp) rfl
  unfold KeysCmd.Do
  rw [ho]
  dsimp only
  rw [htot, hraw, KeysCmd_reply_text]

/-- The KEYS loop ends within its passes once the engine returns the cursor 0 at a call the
passes reach. -/
theorem KeysCmd_loop_ends (step : Int) (raw_limit : Nat) (scan : ScanFn) (k : KeysCmd)
    (n : Nat) (hend : keysCursor step scan k (n + 1) = 0) :
    ∀ (fuel : Nat) (st : ScanLoop),
      st.cursor_ret = keysCursor step scan k st.calls.length →
      st.calls.length ≤ n → n - st.calls.length < fuel →
      (KeysCmd.loop step raw_limit scan k fuel st).ended = true := by
  intro fuel
  induction fuel with
  | zero => intro st _ _ h; omega
  | succ fuel ih =>
    intro st hcur hle hlt
    obtain ⟨hc, _, hcalls, _, _⟩ := KeysCmd_body_fields step raw_limit scan k st
    have hlen : (KeysCmd.body step raw_limit scan k st).1.calls.length = st.calls.length + 1 := by
      rw [hcalls, List.length_append, List.length_singleton]
    have hcur2 : (KeysCmd.body step raw_limit scan k st).1.cursor_ret
        = keysCursor step scan k (KeysCmd.body step raw_limit scan k st).1.calls.length := by
      rw [hlen, hc, hcur]
      rfl
    cases hb : (KeysCmd.body step raw_limit scan k st).2 with
    | true => simp [KeysCmd.loop, hb, ScanOutcome.ended]
    | false =>
      cases hne : ((KeysCmd.body step raw_limit scan k st).1.cursor_ret != 0) with
      | false => simp [KeysCmd.loop, hb, hne, ScanOutcome.ended]
      | true =>
        have hl : KeysCmd.loop step raw_limit scan k (fuel + 1) st
            = KeysCmd.loop step raw_limit scan k fuel (KeysCmd.body step raw_limit scan k st).1 := by
          simp only [KeysCmd.loop, hb, Bool.false_eq_true, if_false, hne, if_true]
        rw [hl]
        have hnz : (KeysCmd.body step raw_limit scan k st).1.cursor_ret ≠ 0 := by
          simpa using hne
        have hn : st.calls.length ≠ n := by
          intro he
          rw [hcur2, hlen, he] at hnz
          exact hnz hend
        exact ih _ hcur2 (by omega) (by omega)

/-- KEYS ends within its passes once the engine returns the cursor 0 at a call the passes
reach. -/
theorem KeysCmd_run_ends (step : Int) (raw_limit : Nat) (scan : ScanFn) (k : KeysCmd)
    (fuel n : Nat) (hn : n < fuel) (hend : keysCursor step scan k (n + 1) = 0) :
    (KeysCmd.run step raw_limit scan k fuel).ended = true :=
  KeysCmd_loop_ends step raw_limit scan k n hend fuel
    { left := 0, cursor_ret := 0, raw := "", total_key := 0, calls := [] } rfl (Nat.zero_le _)
    (by simpa using hn)

/-! ## The cursor and the keys of a SCAN reply -/

/-- C18: the cursor in a successful SCAN reply is the cursor the last engine call of the
request returned, whatever is left of the COUNT budget: the reply appended to the buffer
is the array of that cursor (as a bulk string) and the keys, it reads back as that cursor,
and the cursor text is `0` exactly when that call returned the cursor 0. -/
theorem ScanCmd_reply_cursor (step : Int) (raw_limit : Nat) (scan : ScanFn) (c : ScanCmd)
    (s : ScanLoop) (h : ScanCmd.run step raw_limit scan c = ScanOutcome.finished s) :
    ∃ last, s.calls.getLast? = some last ∧
      (last.cursor_ret, last.keys)
        = scan (s.calls.length - 1) c.type_ last.cursor c.pattern_ last.batch_count ∧
      ScanCmd.Do step raw_limit scan c
        = some { c with
            res_ := { ret_ := c.res_.ret_,
                      message_ := c.res_.message_ ++
                        scanReplyText last.cursor_ret (callKeys s.calls) } } ∧
      (decodeScanReply (scanReplyText last.cursor_ret (callKeys s.calls))).map (fun r => r.1)
        = some (ll2string last.cursor_ret) ∧
      (ll2string last.cursor_ret = "0" ↔ last.cursor_ret = 0) := by
  obtain ⟨⟨hi, _, _⟩, _, hne, _⟩ := (ScanCmd_run_facts step raw_limit scan c).1 s h
  obtain ⟨last, hlast, hend, _⟩ := chainEnd_last c.cursor_ s.calls hne
  refine ⟨last, hlast, ?_, ?_, ?_, ll2string_eq_zero _⟩
  · apply hi.answer
    rw [← hlast, List.getLast?_eq_getElem?]
  · rw [ScanCmd_Do_finished step raw_limit scan c s h, hi.cursor_eq, hend]
  · rw [decodeScanReply_text]
    rfl

theorem ScanCmd_reply_cursor_witness :
    ScanCmd.run 1000 1000 (listScan sampleKeys) sampleScanCmd
      = ScanOutcome.finished
          (ScanCmd.run 1000 1000 (listScan sampleKeys) sampleScanCmd).state ∧
    (ScanCmd.Do 1000 1000 (listScan sampleKeys) sampleScanCmd).map (fun r => r.res_.message)
      = some "*2\r\n$1\r\n5\r\n*5\r\n$3\r\nk01\r\n$3\r\nk02\r\n$3\r\nk03\r\n$3\r\nk04\r\n$3\r\nk05\r\n" ∧
    ∃ last,
      (ScanCmd.run 1000 1000 (listScan sampleKeys) sampleScanCmd).state.calls.getLast?
        = some last ∧
      (last.cursor_ret, last.keys)
        = listScan sampleKeys
            ((ScanCmd.run 1000 1000 (listScan sampleKeys) sampleScanCmd).state.calls.length - 1)
            sampleScanCmd.type_ last.cursor sampleScanCmd.pattern_ last.batch_count ∧
      ScanCmd.Do 1000 1000 (listScan sampleKeys) sampleScanCmd
        = some { sampleScanCmd with
            res_ := { ret_ := sampleScanCmd.res_.ret_,
                      message_ := sampleScanCmd.res_.message_ ++
                        scanReplyText last.cursor_ret
                          (callKeys (ScanCmd.run 1000 1000 (listScan sampleKeys)
                            sampleScanCmd).state.calls) } } ∧
      (decodeScanReply (scanReplyText last.cursor_ret
          (callKeys (ScanCmd.run 1000 1000 (listScan sampleKeys)
            sampleScanCmd).state.calls))).map (fun r => r.1)
        = some (ll2string last.cursor_ret) ∧
      (ll2string last.cursor_ret = "0" ↔ last.cursor_ret = 0) :=
  ⟨by decide, by decide,
    ScanCmd_reply_cursor 1000 1000 (listScan sampleKeys) sampleScanCmd _ (by decide)⟩

/-- C17: the keys in a successful SCAN reply are the keys the successive engine calls
returned, concatenated in call order, every call starting at the cursor its predecessor
returned (the first at the cursor of the request): the reply appended to the buffer is
the array of the last cursor and these keys, and it reads back as them. Over an engine
that enumerates a key list along its cursor chain and returns the requested number of
keys, a SCAN from position `k` replies with the next `count_` keys and the position after
them, or the cursor 0 at the end of the list; a session that follows the returned
cursors from 0 returns every key once, in order, and ends with the cursor 0. -/
theorem ScanCmd_keys_in_call_order (step : Int) (raw_limit : Nat) (scan : ScanFn)
    (c : ScanCmd) :
    (∀ s, ScanCmd.run step raw_limit scan c = ScanOutcome.finished s →
      ScanCmd.Do step raw_limit scan c
        = some { c with
            res_ := { ret_ := c.res_.ret_,
                      message_ := c.res_.message_ ++
                        scanReplyText s.cursor_ret (callKeys s.calls) } } ∧
      decodeScanReply (scanReplyText s.cursor_ret (callKeys s.calls))
        = some (ll2string s.cursor_ret, callKeys s.calls) ∧
      ScanCmd.result step raw_limit scan c = some (s.cursor_ret, callKeys s.calls) ∧
      isCursorChain c.cursor_ s.calls ∧
      (∀ i call, s.calls[i]? = some call →
        (call.cursor_ret, call.keys)
          = scan i c.type_ call.cursor c.pattern_ call.batch_count)) ∧
    (∀ (scan2 : ScanFn) (c2 : ScanCmd) (cursor : Int) (keys : List String),
      ScanCmd.result step raw_limit scan2 c2 = some (cursor, keys) →
      ScanCmd.Do step raw_limit scan2 c2
        = some { c2 with
            res_ := { ret_ := c2.res_.ret_,
                      message_ := c2.res_.message_ ++ scanReplyText cursor keys } }) ∧
    (∀ ks : List String, 0 < step → 0 < c.count_ →
      (encodeKeys ks).utf8ByteSize < raw_limit →
      (∀ k : Nat,
        ScanCmd.Do step raw_limit (listScan ks) { c with cursor_ := (k : Int) }
          = some { c with
              cursor_ := (k : Int),
              res_ := { ret_ := c.res_.ret_,
                        message_ := c.res_.message_ ++
                          scanReplyText
                            (if k + c.count_.toNat < ks.length
                              then ((k + c.count_.toNat : Nat) : Int) else 0)
                            ((ks.drop k).take c.count_.toNat) } }) ∧
      (∀ k : Nat, k + c.count_.toNat < ks.length →
        ((k + c.count_.toNat : Nat) : Int) ≠ 0 ∧
        ((ks.drop k).take c.count_.toNat).length = c.count_.toNat) ∧
      scanSession step raw_limit (listScan ks) c (ks.length + 1) 0 = some ks) := by
  refine ⟨?_, ?_, ?_⟩
  · intro s ho
    obtain ⟨⟨hi, _, _⟩, _⟩ := (ScanCmd_run_facts step raw_limit scan c).1 s ho
    refine ⟨ScanCmd_Do_finished step raw_limit scan c s ho, decodeScanReply_text _ _, ?_,
      hi.chain, hi.answer⟩
    unfold ScanCmd.result
    rw [ho]
  · intro scan2 c2 cursor keys h
    exact ScanCmd_result_reply step raw_limit scan2 c2 cursor keys h
  · intro ks hstep hcount hcap
    have hcnt : c.count_ = (c.count_.toNat : Int) := by omega
    have hn : 0 < c.count_.toNat := by omega
    refine ⟨?_, ?_, ?_⟩
    · intro k
      have hres := listScan_result ks step raw_limit { c with cursor_ := (k : Int) } k
        c.count_.toNat hstep rfl hcnt hn hcap
      exact ScanCmd_result_reply step raw_limit (listScan ks) { c with cursor_ := (k : Int) }
        _ _ hres
    · intro k hk
      refine ⟨by omega, ?_⟩
      rw [List.length_take, List.length_drop]
      omega
    · exact scanSession_listScan ks step raw_limit c c.count_.toNat hstep hcnt hn hcap
        (ks.length + 1) 0 (by omega)

theorem ScanCmd_keys_in_call_order_witness :
    (0 : Int) < 1000 ∧ 0 < sampleScanCmd.count_ ∧
    (encodeKeys sampleKeys).utf8ByteSize < 1000 ∧
    (ScanCmd.Do 1000 1000 (listScan sampleKeys) sampleScanCmd).map (fun r => r.res_.message)
      = some "*2\r\n$1\r\n5\r\n*5\r\n$3\r\nk01\r\n$3\r\nk02\r\n$3\r\nk03\r\n$3\r\nk04\r\n$3\r\nk05\r\n" ∧
    decodeScanReply "*2\r\n$1\r\n5\r\n*5\r\n$3\r\nk01\r\n$3\r\nk02\r\n$3\r\nk03\r\n$3\r\nk04\r\n$3\r\nk05\r\n"
      = some ("5", ["k01", "k02", "k03", "k04", "k05"]) ∧
    ((∀ k : Nat,
        ScanCmd.Do 1000 1000 (listScan sampleKeys) { sampleScanCmd with cursor_ := (k : Int) }
          = some { sampleScanCmd with
              cursor_ := (k : Int),
              res_ := { ret_ := sampleScanCmd.res_.ret_,
                        message_ := sampleScanCmd.res_.message_ ++
                          scanReplyText
                            (if k + sampleScanCmd.count_.toNat < sampleKeys.length
                              then ((k + sampleScanCmd.count_.toNat : Nat) : Int) else 0)
                            ((sampleKeys.drop k).take sampleScanCmd.count_.toNat) } }) ∧
      (∀ k : Nat, k + sampleScanCmd.count_.toNat < sampleKeys.length →
        ((k + sampleScanCmd.count_.toNat : Nat) : Int) ≠ 0 ∧
        ((sampleKeys.drop k).take sampleScanCmd.count_.toNat).length
          = sampleScanCmd.count_.toNat) ∧
      scanSession 1000 1000 (listScan sampleKeys) sampleScanCmd (sampleKeys.length + 1) 0
        = some sampleKeys) :=
  ⟨by decide, by decide, by decide, by decide, by decide,
    (ScanCmd_keys_in_call_order 1000 1000 (listScan sampleKeys) sampleScanCmd).2.2 sampleKeys
      (by decide) (by decide) (by decide)⟩

/-! ## The size cap: error and success -/

/-- A SCAN whose accumulated serialized keys reach the limit after some executed batch ends
with the size-cap error. -/
theorem ScanCmd_error_of_cap (step : Int) (raw_limit : Nat) (scan : ScanFn) (c : ScanCmd)
    (h : ∃ j, j < (ScanCmd.run step raw_limit scan c).state.calls.length ∧
      raw_limit ≤ (encodeKeys (callKeys
        ((ScanCmd.run step raw_limit scan c).state.calls.take (j + 1)))).utf8ByteSize) :
    ScanCmd.Do step raw_limit scan c
      = some { c with
          res_ := c.res_.SetRes CmdRet.kErrOther
            "Response exceeds the max-client-response-size limit" } := by
  obtain ⟨hfin, _, hrun⟩ := ScanCmd_run_facts step raw_limit scan c
  revert h
  unfold ScanCmd.Do
  cases ho : ScanCmd.run step raw_limit scan c with
  | finished s =>
    rintro ⟨j, hj, hsz⟩
    have := (hfin s ho).1.2.2 j hj
    exact absurd hsz (not_le.mpr this)
  | running s =>
    rintro ⟨j, hj, hsz⟩
    have := (hrun s ho).2.2 j hj
    exact absurd hsz (not_le.mpr this)
  | exceeded s =>
    intro _
    rfl

/-- A KEYS whose accumulated serialized keys reach the limit after some executed batch ends
with the size-cap error. -/
theorem KeysCmd_error_of_cap (step : Int) (raw_limit : Nat) (scan : ScanFn) (k : KeysCmd)
    (fuel : Nat)
    (h : ∃ j, j < (KeysCmd.run step raw_limit scan k fuel).state.calls.length ∧
      raw_limit ≤ (encodeKeys (callKeys
        ((KeysCmd.run step raw_limit scan k fuel).state.calls.take (j + 1)))).utf8ByteSize) :
    KeysCmd.Do step raw_limit scan k fuel
      = some { k with
          res_ := k.res_.SetRes CmdRet.kErrOther
            "Response exceeds the max-client-response-size limit" } := by
  have hk : ∀ s, KeysCmd.run step raw_limit scan k fuel ≠ ScanOutcome.exceeded s →
      s = (KeysCmd.run step raw_limit scan k fuel).state →
      s.raw = encodeKeys (callKeys s.calls) ∧
      s.total_key = ((callKeys s.calls).length : Int) ∧
      (∀ j, j < s.calls.length →
        (encodeKeys (callKeys (s.calls.take (j + 1)))).utf8ByteSize < raw_limit) :=
    KeysCmd_loop_facts step raw_limit scan k fuel
      { left := 0, cursor_ret := 0, raw := "", total_key := 0, calls := [] }
      ⟨rfl, rfl, fun j hj => absurd hj (by simp)⟩
  revert h
  unfold KeysCmd.Do
  cases ho : KeysCmd.run step raw_limit scan k fuel with
  | finished s =>
    rintro ⟨j, hj, hsz⟩
    rw [ho] at hk
    have := (hk s (by simp) rfl).2.2 j hj
    exact absurd hsz (not_le.mpr this)
  | running s =>
    rintro ⟨j, hj, hsz⟩
    rw [ho] at hk
    have := (hk s (by simp) rfl).2.2 j hj
    exact absurd hsz (not_le.mpr this)
  | exceeded s =>
    intro _
    rfl

/-- The last of a non-empty list of calls, as a position. -/
theorem calls_take_last (calls : List ScanCall) (hne : calls ≠ []) :
    calls.length - 1 < calls.length ∧ calls.take (calls.length - 1 + 1) = calls := by
  have hpos : 0 < calls.length := List.length_pos.mpr hne
  refine ⟨by omega, ?_⟩
  rw [Nat.sub_add_cancel hpos, List.take_length]

/-- A SCAN that ended at the size check had reached the limit with the keys of its calls. -/
theorem ScanCmd_exceeded_size (step : Int) (raw_limit : Nat) (scan : ScanFn) (c : ScanCmd)
    (s : ScanLoop) (ho : ScanCmd.run step raw_limit scan c = ScanOutcome.exceeded s) :
    raw_limit ≤ (encodeKeys (callKeys s.calls)).utf8ByteSize := by
  obtain ⟨hi, hsz⟩ := (ScanCmd_run_facts step raw_limit scan c).2.1 s ho
  rw [← hi.raw_eq]
  exact hsz

/-- A SCAN whose accumulated serialized keys stay below the limit after every executed batch
ends normally (for a positive step length). -/
theorem ScanCmd_finished_of_below (step : Int) (raw_limit : Nat) (scan : ScanFn) (c : ScanCmd)
    (hstep : 0 < step)
    (hall : ∀ j, j < (ScanCmd.run step raw_limit scan c).state.calls.length →
      (encodeKeys (callKeys
        ((ScanCmd.run step raw_limit scan c).state.calls.take (j + 1)))).utf8ByteSize
        < raw_limit) :
    ∃ s, ScanCmd.run step raw_limit scan c = ScanOutcome.finished s := by
  cases ho : ScanCmd.run step raw_limit scan c with
  | running s => exact absurd ho (ScanCmd_run_ends step raw_limit scan c hstep s)
  | finished s => exact ⟨s, rfl⟩
  | exceeded s =>
    exfalso
    rw [ho] at hall
    obtain ⟨h1, h2⟩ := calls_take_last s.calls
      (ScanCmd_run_exceeded_calls step raw_limit scan c s ho)
    have h4 := ScanCmd_exceeded_size step raw_limit scan c s ho
    have h5 : (encodeKeys (callKeys (s.calls.take (s.calls.length - 1 + 1)))).utf8ByteSize
        < raw_limit := hall (s.calls.length - 1) h1
    rw [h2] at h5
    omega

/-- A KEYS that ended within its passes and whose accumulated serialized keys stay below the
limit after every executed batch ended normally. -/
theorem KeysCmd_finished_of_below (step : Int) (raw_limit : Nat) (scan : ScanFn) (k : KeysCmd)
    (fuel : Nat) (hended : (KeysCmd.run step raw_limit scan k fuel).ended = true)
    (hall : ∀ j, j < (KeysCmd.run step raw_limit scan k fuel).state.calls.length →
      (encodeKeys (callKeys
        ((KeysCmd.run step raw_limit scan k fuel).state.calls.take (j + 1)))).utf8ByteSize
        < raw_limit) :
    ∃ s, KeysCmd.run step raw_limit scan k fuel = ScanOutcome.finished s := by
  cases ho : KeysCmd.run step raw_limit scan k fuel with
  | running s =>
    rw [ho] at hended
    exact absurd hended (by simp [ScanOutcome.ended])
  | finished s => exact ⟨s, rfl⟩
  | exceeded s =>
    exfalso
    rw [ho] at hall
    obtain ⟨hne, h4⟩ := KeysCmd_loop_exceeded step raw_limit scan k fuel _ s rfl ho
    obtain ⟨h1, h2⟩ := calls_take_last s.calls hne
    have h5 : (encodeKeys (callKeys (s.calls.take (s.calls.length - 1 + 1)))).utf8ByteSize
        < raw_limit := hall (s.calls.length - 1) h1
    rw [h2] at h5
    omega

/-- C29 (amended): SCAN and KEYS end with the size-cap error exactly when the serialized
keys accumulated after some executed batch have reached the configured maximum, a size
equal to the maximum included. A SCAN whose accumulated size after every batch is less
than the maximum ends normally and replies with the array of the cursor and of all keys;
so does a KEYS, with the array of all keys, provided the engine returns the cursor 0 at
some call, within the passes the model is given. -/
theorem scan_succeeds_below_cap (step : Int) (raw_limit : Nat) (scan : ScanFn) (c : ScanCmd)
    (k : KeysCmd) (fuel : Nat) :
    (0 < step →
      (∀ j, j < (ScanCmd.run step raw_limit scan c).state.calls.length →
        (encodeKeys (callKeys
          ((ScanCmd.run step raw_limit scan c).state.calls.take (j + 1)))).utf8ByteSize
          < raw_limit) →
      ∃ s, ScanCmd.run step raw_limit scan c = ScanOutcome.finished s ∧
        ScanCmd.Do step raw_limit scan c
          = some { c with
              res_ := { ret_ := c.res_.ret_,
                        message_ := c.res_.message_ ++
                          scanReplyText s.cursor_ret (callKeys s.calls) } } ∧
        decodeScanReply (scanReplyText s.cursor_ret (callKeys s.calls))
          = some (ll2string s.cursor_ret, callKeys s.calls)) ∧
    ((∃ j, j < (ScanCmd.run step raw_limit scan c).state.calls.length ∧
        ((encodeKeys (callKeys
          ((ScanCmd.run step raw_limit scan c).state.calls.take (j + 1)))).utf8ByteSize
            = raw_limit ∨
         raw_limit < (encodeKeys (callKeys
          ((ScanCmd.run step raw_limit scan c).state.calls.take (j + 1)))).utf8ByteSize)) →
      ScanCmd.Do step raw_limit scan c
        = some { c with
            res_ := c.res_.SetRes CmdRet.kErrOther
              "Response exceeds the max-client-response-size limit" }) ∧
    (∀ s, ScanCmd.run step raw_limit scan c = ScanOutcome.exceeded s →
      raw_limit ≤ (encodeKeys (callKeys s.calls)).utf8ByteSize) ∧
    (∀ n, n < fuel → keysCursor step scan k (n + 1) = 0 →
      (∀ j, j < (KeysCmd.run step raw_limit scan k fuel).state.calls.length →
        (encodeKeys (callKeys
          ((KeysCmd.run step raw_limit scan k fuel).state.calls.take (j + 1)))).utf8ByteSize
          < raw_limit) →
      ∃ s, KeysCmd.run step raw_limit scan k fuel = ScanOutcome.finished s ∧
        KeysCmd.Do step raw_limit scan k fuel
          = some { k with
              res_ := { ret_ := k.res_.ret_,
                        message_ := k.res_.message_ ++ keysReplyText (callKeys s.calls) } } ∧
        decodeEntry (keysReplyText (callKeys s.calls)) = some (callKeys s.calls)) ∧
    ((∃ j, j < (KeysCmd.run step raw_limit scan k fuel).state.calls.length ∧
        ((encodeKeys (callKeys
          ((KeysCmd.run step raw_limit scan k fuel).state.calls.take (j + 1)))).utf8ByteSize
            = raw_limit ∨
         raw_limit < (encodeKeys (callKeys
          ((KeysCmd.run step raw_limit scan k fuel).state.calls.take (j + 1)))).utf8ByteSize)) →
      KeysCmd.Do step raw_limit scan k fuel
        = some { k with
            res_ := k.res_.SetRes CmdRet.kErrOther
              "Response exceeds the max-client-response-size limit" }) ∧
    (∀ s, KeysCmd.run step raw_limit scan k fuel = ScanOutcome.exceeded s →
      raw_limit ≤ (encodeKeys (callKeys s.calls)).utf8ByteSize) ∧
    (∀ n, n < fuel → keysCursor step scan k (n + 1) = 0 →
      (KeysCmd.run step raw_limit scan k fuel).ended = true) := by
  refine ⟨?_, ?_, ?_, ?_, ?_, ?_, ?_⟩
  · intro hstep hall
    obtain ⟨s, ho⟩ := ScanCmd_finished_of_below step raw_limit scan c hstep hall
    exact ⟨s, ho, ScanCmd_Do_finished step raw_limit scan c s ho, decodeScanReply_text _ _⟩
  · rintro ⟨j, hj, hsz⟩
    exact ScanCmd_error_of_cap step raw_limit scan c ⟨j, hj, by omega⟩
  · exact fun s ho => ScanCmd_exceeded_size step raw_limit scan c s ho
  · intro n hn hend hall
    obtain ⟨s, ho⟩ := KeysCmd_finished_of_below step raw_limit scan k fuel
      (KeysCmd_run_ends step raw_limit scan k fuel n hn hend) hall
    exact ⟨s, ho, KeysCmd_Do_finished step raw_limit scan k fuel s ho,
      decodeEntry_keysReplyText _⟩
  · rintro ⟨j, hj, hsz⟩
    exact KeysCmd_error_of_cap step raw_limit scan k fuel ⟨j, hj, by omega⟩
  · exact fun s ho => (KeysCmd_loop_exceeded step raw_limit scan k fuel _ s rfl ho).2
  · exact fun n hn hend => KeysCmd_run_ends step raw_limit scan k fuel n hn hend

theorem scan_succeeds_below_cap_witness :
    (0 : Int) < 5 ∧
    (∀ j, j < (ScanCmd.run 5 109 (listScan sampleKeys) sampleScanCmd).state.calls.length →
        (encodeKeys (callKeys
          ((ScanCmd.run 5 109 (listScan sampleKeys) sampleScanCmd).state.calls.take
            (j + 1)))).utf8ByteSize < 109) ∧
    (2 < 4 ∧ keysCursor 5 (listScan sampleKeys) sampleKeysCmd (2 + 1) = 0) ∧
    (∀ j, j < (KeysCmd.run 5 109 (listScan sampleKeys) sampleKeysCmd 4).state.calls.length →
        (encodeKeys (callKeys
          ((KeysCmd.run 5 109 (listScan sampleKeys) sampleKeysCmd 4).state.calls.take
            (j + 1)))).utf8ByteSize < 109) ∧
    (ScanCmd.Do 5 109 (listScan sampleKeys) sampleScanCmd).map (fun r => r.res_.message)
      = some "*2\r\n$1\r\n5\r\n*5\r\n$3\r\nk01\r\n$3\r\nk02\r\n$3\r\nk03\r\n$3\r\nk04\r\n$3\r\nk05\r\n" ∧
    (KeysCmd.Do 5 109 (listScan sampleKeys) sampleKeysCmd 4).map
        (fun r => decodeEntry r.res_.message) = some (some sampleKeys) ∧
    (∃ s, ScanCmd.run 5 109 (listScan sampleKeys) sampleScanCmd = ScanOutcome.finished s ∧
        ScanCmd.Do 5 109 (listScan sampleKeys) sampleScanCmd
          = some { sampleScanCmd with
              res_ := { ret_ := sampleScanCmd.res_.ret_,
                        message_ := sampleScanCmd.res_.message_ ++
                          scanReplyText s.cursor_ret (callKeys s.calls) } } ∧
        decodeScanReply (scanReplyText s.cursor_ret (callKeys s.calls))
          = some (ll2string s.cursor_ret, callKeys s.calls)) ∧
    (∃ s, KeysCmd.run 5 109 (listScan sampleKeys) sampleKeysCmd 4 = ScanOutcome.finished s ∧
        KeysCmd.Do 5 109 (listScan sampleKeys) sampleKeysCmd 4
          = some { sampleKeysCmd with
              res_ := { ret_ := sampleKeysCmd.res_.ret_,
                        message_ := sampleKeysCmd.res_.message_ ++
                          keysReplyText (callKeys s.calls) } } ∧
        decodeEntry (keysReplyText (callKeys s.calls)) = some (callKeys s.calls)) :=
  ⟨by decide, by decide, ⟨by decide, by decide⟩, by decide, by decide, by decide,
    (scan_succeeds_below_cap 5 109 (listScan sampleKeys) sampleScanCmd sampleKeysCmd 4).1
      (by decide) (by decide),
    (scan_succeeds_below_cap 5 109 (listScan sampleKeys) sampleScanCmd
      sampleKeysCmd 4).2.2.2.1 2 (by decide) (by decide) (by decide)⟩

end Pika
